import Mathlib

/-!
The module `python_fds`: the synchronous adapter over the flash data store.

A shallow embedding of `python_ops.c` (and of `is_word_aligned` from
`sdk_config.h`).  The file-level statics of `python_ops.c` become the fields of
`State`; every C function becomes a function on `State`.

The flash data store (`fds.c`) and the fstorage headers are external to the
file.  The store is a parameter, `Store`: each of its primitives reads the
state, returns its code and its new private state, and lists the calls it makes
back into `python_ops.c` while it runs (`on_fds_event`, `fs_store`,
`fs_erase`), which are the only ways foreign code can reach the statics.

32-bit values (`uint32_t`, `ret_code_t`) are natural numbers holding the bit
pattern.  Memory is byte addressed; words are little endian.
-/

namespace PythonFds

/-! ## Types declared in the absent headers -/

/-- Modelled from the spec: the enumeration `fds_evt_id_t` of `fds.h` (absent), the
six operation classes Init, Write, Update, DeleteRecord, DeleteFile and
GarbageCollect, in that order. -/
inductive fds_evt_id_t where
  | FDS_EVT_INIT
  | FDS_EVT_WRITE
  | FDS_EVT_UPDATE
  | FDS_EVT_DEL_RECORD
  | FDS_EVT_DEL_FILE
  | FDS_EVT_GC
deriving DecidableEq, Repr

/-- Modelled from the spec: the integer value of each enumerator of `fds_evt_id_t`
(`fds.h` is absent); the six kinds number the six slots of `last_evt`. -/
def fds_evt_id_t.toNat : fds_evt_id_t → Nat
  | .FDS_EVT_INIT => 0
  | .FDS_EVT_WRITE => 1
  | .FDS_EVT_UPDATE => 2
  | .FDS_EVT_DEL_RECORD => 3
  | .FDS_EVT_DEL_FILE => 4
  | .FDS_EVT_GC => 5

/-- Modelled from the spec: the event structure `fds_evt_t` of `fds.h` (absent): the
kind, the completion code, and the rest of the structure (the write/delete
union), which `python_ops.c` copies but never reads. -/
structure fds_evt_t where
  id : Nat
  result : Nat
  payload : List Nat
deriving DecidableEq, Repr

/-- Modelled from the spec: the record descriptor `fds_record_desc_t` of `fds.h`
(absent): the record id and the fields private to the store, 0 when the
descriptor is zero-initialised. -/
structure fds_record_desc_t where
  record_id : Nat
  internal : Nat
deriving DecidableEq, Repr

/-- Modelled from the spec: one data chunk, `fds_record_chunk_t` of `fds.h` (absent). -/
structure fds_record_chunk_t where
  p_data : Nat
  length_words : Nat
deriving DecidableEq, Repr

/-- Modelled from the spec: the record handed to the store for writing,
`fds_record_t` of `fds.h` (absent); `p_chunks` is the array the pointer of that
name designates. -/
structure fds_record_t where
  file_id : Nat
  key : Nat
  p_chunks : List fds_record_chunk_t
  num_chunks : Nat
deriving DecidableEq, Repr

/-- Modelled from the spec: an opened record, `fds_flash_record_t` of `fds.h`
(absent), with the fields of the header that `p_header` designates. -/
structure fds_flash_record_t where
  file_id : Nat
  record_key : Nat
  length_words : Nat
  p_data : Nat
deriving DecidableEq, Repr

/-- Modelled from the spec: the traversal token `fds_find_token_t` of `fds.h`
(absent). -/
structure fds_find_token_t where
  p_addr : Nat
  page : Nat
deriving DecidableEq, Repr

/-! ## Outcomes, the call log and the state -/

/-- Ways in which a run ends without returning. -/
inductive Fault where
  | assert_failed
  | null_call
  | out_of_fuel
deriving DecidableEq, Repr

/-- One entry of the call log: a call that `python_ops.c` makes into foreign code,
or a call of `on_fds_event` made by the store.  The log is a ghost field: no
function reads it. -/
inductive Call where
  | fs_callback (result : Nat)
  | on_fds_event (id : Nat) (result : Nat)
  | fds_register
  | fds_init
  | fds_gc
  | fds_record_delete (desc : fds_record_desc_t)
  | fds_file_delete (file_id : Nat)
  | fds_record_open (desc : fds_record_desc_t)
  | fds_record_close (desc : fds_record_desc_t)
  | fds_record_write (record : fds_record_t)
  | fds_record_update (desc : fds_record_desc_t) (record : fds_record_t)
  | fds_record_iterate (tok : fds_find_token_t)
  | entry_cb (record_id : Nat)
deriving DecidableEq, Repr

/-- The statics of `python_ops.c`, the store's `fs_config.p_start_addr`, the
memory, the private state `fds` of the store and the call log.  `κ` is the type
of the function pointers a `fs_config_t` can carry as its `callback`. -/
structure State (σ κ : Type) where
  result_queue : Nat → Nat
  result_queue_head : Nat
  result_queue_tail : Nat
  fs_callback : Option κ
  last_evt : Nat → fds_evt_t
  fs_config_p_start_addr : Nat
  mem : Nat → Nat
  fds : σ
  calls : List Call

/-- A call made by the store back into `python_ops.c`. -/
inductive Action (κ : Type) where
  | evt (id : fds_evt_id_t) (result : Nat) (payload : List Nat)
  | store (callback : Option κ) (p_dest p_src length_words : Nat)
  | erase (callback : Option κ) (p_page_addr num_pages : Nat)

/-- What a primitive of the store does: the value it returns, the store's new
private state, and the calls it made back while running, in order. -/
structure Reply (σ κ α : Type) where
  ret : α
  fds : σ
  acts : List (Action κ)

/-- The flash data store and the constants of the absent headers. -/
structure Store (σ κ : Type) where
  FS_SUCCESS : Nat
  FDS_SUCCESS : Nat
  FDS_ERR_UNALIGNED_ADDR : Nat
  length_words_of_int : Int → Nat
  fs_handler : κ → Nat → State σ κ → Reply σ κ Unit
  fds_register : State σ κ → Reply σ κ Nat
  fds_init : State σ κ → Reply σ κ Nat
  fds_gc : State σ κ → Reply σ κ Nat
  fds_record_delete : fds_record_desc_t → State σ κ → Reply σ κ Nat
  fds_file_delete : Nat → State σ κ → Reply σ κ Nat
  fds_record_open : fds_record_desc_t → State σ κ →
    Reply σ κ (Nat × fds_record_desc_t × fds_flash_record_t)
  fds_record_close : fds_record_desc_t → State σ κ → Reply σ κ Nat
  fds_record_write : fds_record_t → State σ κ → Reply σ κ Nat
  fds_record_update : fds_record_desc_t → fds_record_t → State σ κ → Reply σ κ Nat
  fds_record_iterate : fds_find_token_t → State σ κ →
    Reply σ κ (Nat × fds_record_desc_t × fds_find_token_t)

variable {σ κ : Type}

/-- The state at program start: every static is zero-initialised. -/
def State.init (fds : σ) (mem : Nat → Nat) (p_start_addr : Nat) : State σ κ :=
  { result_queue := fun _ => 0
    result_queue_head := 0
    result_queue_tail := 0
    fs_callback := none
    last_evt := fun _ => { id := 0, result := 0, payload := [] }
    fs_config_p_start_addr := p_start_addr
    mem := mem
    fds := fds
    calls := [] }

/-! ## The result queue -/

def RESULT_QUEUE_SIZE : Nat := 256

/-- `add_result`: store at the tail, advance the tail modulo the size, then assert
that the tail has not caught up with the head. -/
def add_result (result : Nat) (s : State σ κ) : Except Fault (State σ κ) :=
  let s1 : State σ κ :=
    { s with
      result_queue := Function.update s.result_queue s.result_queue_tail result
      result_queue_tail := s.result_queue_tail + 1 }
  let s2 : State σ κ :=
    { s1 with result_queue_tail := s1.result_queue_tail % RESULT_QUEUE_SIZE }
  if s2.result_queue_tail ≠ s2.result_queue_head then .ok s2
  else .error Fault.assert_failed

/-! ## The event latch table -/

/-- `clear_event`: mark the slot with the bogus kind 0xff. -/
def clear_event (evt_type : fds_evt_id_t) (s : State σ κ) : State σ κ :=
  { s with
    last_evt := Function.update s.last_evt evt_type.toNat
      { s.last_evt evt_type.toNat with id := 0xff } }

/-- `on_fds_event`: copy the event into the slot its `id` selects. -/
def on_fds_event (p_evt : fds_evt_t) (s : State σ κ) : State σ κ :=
  { s with
    last_evt := Function.update s.last_evt p_evt.id p_evt
    calls := s.calls ++ [Call.on_fds_event p_evt.id p_evt.result] }

/-- `await_fds_event`: the flag returned and the value of `*result` afterwards. -/
def await_fds_event (evt_type : fds_evt_id_t) (result : Nat) (s : State σ κ) :
    Bool × Nat :=
  if (s.last_evt evt_type.toNat).id ≠ evt_type.toNat then (false, result)
  else (true, (s.last_evt evt_type.toNat).result)

/-! ## The simulated media -/

/-- `fs_init`. -/
def fs_init : Nat := 0

/-- The 32-bit word at byte address `a`. -/
def read32 (m : Nat → Nat) (a : Nat) : Nat :=
  m a + 256 * m (a + 1) + 65536 * m (a + 2) + 16777216 * m (a + 3)

/-- Memory after the 32-bit word `v` is written at byte address `a`. -/
def write32 (m : Nat → Nat) (a v : Nat) : Nat → Nat :=
  fun b =>
    if b = a then v % 256
    else if b = a + 1 then v / 256 % 256
    else if b = a + 2 then v / 65536 % 256
    else if b = a + 3 then v / 16777216 % 256
    else m b

/-- The loop of `fs_store` run for `i = 0 .. n - 1`: `dest[i] &= p_src[i]`. -/
def fs_store_loop (p_dest p_src : Nat) : Nat → (Nat → Nat) → (Nat → Nat)
  | 0, m => m
  | i + 1, m =>
    let m1 := fs_store_loop p_dest p_src i m
    write32 m1 (p_dest + 4 * i) (read32 m1 (p_dest + 4 * i) &&& read32 m1 (p_src + 4 * i))

/-- `fs_store`, with `callback` the member of that name of `*p_config`. -/
def fs_store (E : Store σ κ) (callback : Option κ) (p_dest p_src length_words : Nat)
    (s : State σ κ) : Except Fault (Nat × State σ κ) :=
  let s1 : State σ κ := { s with mem := fs_store_loop p_dest p_src length_words s.mem }
  let s2 : State σ κ := { s1 with fs_callback := callback }
  match add_result 0 s2 with
  | .ok s3 => .ok (E.FS_SUCCESS, s3)
  | .error f => .error f

def FDS_PHY_PAGE_SIZE : Nat := 1024

/-- The effect of `memset(p, c, n)` on the memory. -/
def memset (m : Nat → Nat) (p c n : Nat) : Nat → Nat :=
  fun b => if p ≤ b ∧ b < p + n then c else m b

/-- `fs_erase`, with `callback` the member of that name of `*p_config`. -/
def fs_erase (E : Store σ κ) (callback : Option κ) (p_page_addr num_pages : Nat)
    (s : State σ κ) : Except Fault (Nat × State σ κ) :=
  let s1 : State σ κ :=
    { s with mem := memset s.mem p_page_addr 0xff (4 * FDS_PHY_PAGE_SIZE * num_pages) }
  let s2 : State σ κ := { s1 with fs_callback := callback }
  match add_result 0 s2 with
  | .ok s3 => .ok (E.FS_SUCCESS, s3)
  | .error f => .error f

/-! ## Calls into the store -/

/-- One call made by the store back into this file. -/
def do_action (E : Store σ κ) (a : Action κ) (s : State σ κ) : Except Fault (State σ κ) :=
  match a with
  | .evt id result payload =>
    .ok (on_fds_event { id := id.toNat, result := result, payload := payload } s)
  | .store callback p_dest p_src length_words =>
    match fs_store E callback p_dest p_src length_words s with
    | .ok (_, s1) => .ok s1
    | .error f => .error f
  | .erase callback p_page_addr num_pages =>
    match fs_erase E callback p_page_addr num_pages s with
    | .ok (_, s1) => .ok s1
    | .error f => .error f

/-- The calls made by the store while one of its primitives runs, in order. -/
def run_actions (E : Store σ κ) : List (Action κ) → State σ κ → Except Fault (State σ κ)
  | [], s => .ok s
  | a :: rest, s =>
    match do_action E a s with
    | .ok s1 => run_actions E rest s1
    | .error f => .error f

/-- A call of a primitive of the store: it is logged, the store's private state
advances, and the calls the store made back are carried out. -/
def extcall {α : Type} (E : Store σ κ) (c : Call) (r : Reply σ κ α) (s : State σ κ) :
    Except Fault (α × State σ κ) :=
  match run_actions E r.acts { s with fds := r.fds, calls := s.calls ++ [c] } with
  | .ok s1 => .ok (r.ret, s1)
  | .error f => .error f

/-! ## The pump -/

/-- `pump_event`: nothing to do on an empty queue; otherwise take the code at the
head, advance the head modulo the size and hand the code to `fs_callback`. -/
def pump_event (E : Store σ κ) (s : State σ κ) : Except Fault (Bool × State σ κ) :=
  if s.result_queue_tail = s.result_queue_head then .ok (false, s)
  else
    let result := s.result_queue s.result_queue_head
    let s1 : State σ κ := { s with result_queue_head := s.result_queue_head + 1 }
    let s2 : State σ κ :=
      { s1 with result_queue_head := s1.result_queue_head % RESULT_QUEUE_SIZE }
    match s2.fs_callback with
    | none => .error Fault.null_call
    | some cb =>
      match extcall E (Call.fs_callback result) (E.fs_handler cb result s2) s2 with
      | .ok (_, s3) => .ok (true, s3)
      | .error f => .error f

/-- `pump_events`: `while (pump_event());`, at most `fuel` calls of `pump_event`. -/
def pump_events (E : Store σ κ) : Nat → State σ κ → Except Fault (State σ κ)
  | 0, _ => .error Fault.out_of_fuel
  | fuel + 1, s =>
    match pump_event E s with
    | .ok (true, s1) => pump_events E fuel s1
    | .ok (false, s1) => .ok s1
    | .error f => .error f

/-- The loop of `pump_and_wait`, `result` being the local variable of that name;
at most `fuel` evaluations of the loop condition. -/
def pump_and_wait_loop (E : Store σ κ) (evt_type : fds_evt_id_t) :
    Nat → Nat → State σ κ → Except Fault (Nat × State σ κ)
  | 0, _, _ => .error Fault.out_of_fuel
  | fuel + 1, result, s =>
    match await_fds_event evt_type result s with
    | (true, result1) => .ok (result1, s)
    | (false, result1) =>
      match pump_event E s with
      | .ok (_, s1) => pump_and_wait_loop E evt_type fuel result1 s1
      | .error f => .error f

/-- `pump_and_wait`: `result` starts as `(uint32_t)-1`. -/
def pump_and_wait (E : Store σ κ) (fuel : Nat) (evt_type : fds_evt_id_t) (s : State σ κ) :
    Except Fault (Nat × State σ κ) :=
  pump_and_wait_loop E evt_type fuel 0xFFFFFFFF s

/-! ## The record API -/

/-- `is_word_aligned` of `sdk_config.h`. -/
def is_word_aligned (p : Nat) : Bool :=
  (p &&& 0x03) == 0

/-- `api_fds_mount`. -/
def api_fds_mount (E : Store σ κ) (fuel : Nat) (image : Nat) (s : State σ κ) :
    Except Fault (Nat × State σ κ) :=
  if !is_word_aligned image then .ok (E.FDS_ERR_UNALIGNED_ADDR, s)
  else
    let s1 : State σ κ := { s with fs_config_p_start_addr := image }
    let s2 := clear_event fds_evt_id_t.FDS_EVT_INIT s1
    match extcall E Call.fds_register (E.fds_register s2) s2 with
    | .error f => .error f
    | .ok (ret, s3) =>
      if ret ≠ 0 then .ok (ret, s3)
      else
        match extcall E Call.fds_init (E.fds_init s3) s3 with
        | .error f => .error f
        | .ok (ret1, s4) =>
          if ret1 ≠ 0 then .ok (ret1, s4)
          else pump_and_wait E fuel fds_evt_id_t.FDS_EVT_INIT s4

/-- The loop of `api_fds_dir`; the call of `entry_cb`, foreign code as well, is
logged.  At most `fuel` calls of `fds_record_iterate`. -/
def api_fds_dir_loop (E : Store σ κ) :
    Nat → fds_find_token_t → State σ κ → Except Fault (State σ κ)
  | 0, _, _ => .error Fault.out_of_fuel
  | fuel + 1, ftok, s =>
    match extcall E (Call.fds_record_iterate ftok) (E.fds_record_iterate ftok s) s with
    | .error f => .error f
    | .ok ((ret, record_desc, ftok1), s1) =>
      if ret = E.FDS_SUCCESS then
        api_fds_dir_loop E fuel ftok1
          { s1 with calls := s1.calls ++ [Call.entry_cb record_desc.record_id] }
      else .ok s1

/-- `api_fds_dir`: the token starts zeroed. -/
def api_fds_dir (E : Store σ κ) (fuel : Nat) (s : State σ κ) :
    Except Fault (Nat × State σ κ) :=
  match api_fds_dir_loop E fuel { p_addr := 0, page := 0 } s with
  | .ok s1 => .ok (0, s1)
  | .error f => .error f

/-- `api_gc`. -/
def api_gc (E : Store σ κ) (fuel : Nat) (s : State σ κ) : Except Fault (Nat × State σ κ) :=
  let s1 := clear_event fds_evt_id_t.FDS_EVT_GC s
  match extcall E Call.fds_gc (E.fds_gc s1) s1 with
  | .error f => .error f
  | .ok (ret, s2) =>
    if ret ≠ 0 then .ok (ret, s2)
    else pump_and_wait E fuel fds_evt_id_t.FDS_EVT_GC s2

/-- `api_del_record`. -/
def api_del_record (E : Store σ κ) (fuel : Nat) (record_id : Nat) (s : State σ κ) :
    Except Fault (Nat × State σ κ) :=
  let record_desc : fds_record_desc_t := { record_id := record_id, internal := 0 }
  let s1 := clear_event fds_evt_id_t.FDS_EVT_DEL_RECORD s
  match extcall E (Call.fds_record_delete record_desc) (E.fds_record_delete record_desc s1) s1 with
  | .error f => .error f
  | .ok (ret, s2) =>
    if ret ≠ 0 then .ok (ret, s2)
    else pump_and_wait E fuel fds_evt_id_t.FDS_EVT_DEL_RECORD s2

/-- `api_del_file`. -/
def api_del_file (E : Store σ κ) (fuel : Nat) (file_id : Nat) (s : State σ κ) :
    Except Fault (Nat × State σ κ) :=
  let s1 := clear_event fds_evt_id_t.FDS_EVT_DEL_FILE s
  match extcall E (Call.fds_file_delete file_id) (E.fds_file_delete file_id s1) s1 with
  | .error f => .error f
  | .ok (ret, s2) =>
    if ret ≠ 0 then .ok (ret, s2)
    else pump_and_wait E fuel fds_evt_id_t.FDS_EVT_DEL_FILE s2

/-- The four output pointers of `api_get_record`: `none` is a null pointer,
`some v` a pointer to an object that holds `v`. -/
structure Slots where
  file_id : Option Nat
  record_key : Option Nat
  record_len : Option Nat
  data : Option Nat
deriving DecidableEq, Repr

/-- `api_get_record`: the code returned, the output objects afterwards, the state. -/
def api_get_record (E : Store σ κ) (record_id : Nat) (out : Slots) (s : State σ κ) :
    Except Fault (Nat × Slots × State σ κ) :=
  let record_desc : fds_record_desc_t := { record_id := record_id, internal := 0 }
  match extcall E (Call.fds_record_open record_desc) (E.fds_record_open record_desc s) s with
  | .error f => .error f
  | .ok ((ret, record_desc1, flash_record), s1) =>
    if ret ≠ 0 then .ok (ret, out, s1)
    else
      let out1 : Slots :=
        if out.file_id.isSome then { out with file_id := some flash_record.file_id } else out
      let out2 : Slots :=
        if out1.record_key.isSome then { out1 with record_key := some flash_record.record_key }
        else out1
      let out3 : Slots :=
        if out2.record_len.isSome then { out2 with record_len := some flash_record.length_words }
        else out2
      let out4 : Slots :=
        if out3.data.isSome then { out3 with data := some flash_record.p_data } else out3
      match extcall E (Call.fds_record_close record_desc1) (E.fds_record_close record_desc1 s1) s1 with
      | .error f => .error f
      | .ok (ret1, s2) => .ok (ret1, out4, s2)

/-- `api_write_record`. -/
def api_write_record (E : Store σ κ) (fuel : Nat) (record_key file_id data : Nat)
    (data_len_words : Int) (s : State σ κ) : Except Fault (Nat × State σ κ) :=
  let record_chunk : fds_record_chunk_t :=
    { p_data := data, length_words := E.length_words_of_int data_len_words }
  let record : fds_record_t :=
    { file_id := file_id, key := record_key, p_chunks := [record_chunk], num_chunks := 1 }
  let s1 := clear_event fds_evt_id_t.FDS_EVT_WRITE s
  match extcall E (Call.fds_record_write record) (E.fds_record_write record s1) s1 with
  | .error f => .error f
  | .ok (ret, s2) =>
    if ret ≠ 0 then .ok (ret, s2)
    else pump_and_wait E fuel fds_evt_id_t.FDS_EVT_WRITE s2

/-- `api_update_record`; `file_id0` and `key0` are what the uninitialised
`record.file_id` and `record.key` hold on entry. -/
def api_update_record (E : Store σ κ) (fuel : Nat) (record_id data : Nat)
    (data_len_words : Int) (file_id0 key0 : Nat) (s : State σ κ) :
    Except Fault (Nat × State σ κ) :=
  let record_desc : fds_record_desc_t := { record_id := record_id, internal := 0 }
  let record_chunk : fds_record_chunk_t :=
    { p_data := data, length_words := E.length_words_of_int data_len_words }
  match api_get_record E record_id
      { file_id := some file_id0, record_key := some key0, record_len := none, data := none } s with
  | .error f => .error f
  | .ok (ret, out, s1) =>
    if ret ≠ 0 then .ok (ret, s1)
    else
      let record : fds_record_t :=
        { file_id := out.file_id.getD file_id0, key := out.record_key.getD key0,
          p_chunks := [record_chunk], num_chunks := 1 }
      let s2 := clear_event fds_evt_id_t.FDS_EVT_UPDATE s1
      match extcall E (Call.fds_record_update record_desc record)
          (E.fds_record_update record_desc record s2) s2 with
      | .error f => .error f
      | .ok (ret1, s3) =>
        if ret1 ≠ 0 then .ok (ret1, s3)
        else pump_and_wait E fuel fds_evt_id_t.FDS_EVT_UPDATE s3

/-! ## Notions used to state the properties -/

/-- The number of codes waiting in the queue: `(tail - head) mod 256`. -/
def pending_count (s : State σ κ) : Nat :=
  (s.result_queue_tail + RESULT_QUEUE_SIZE - s.result_queue_head) % RESULT_QUEUE_SIZE

/-- The codes waiting in the queue, oldest first: those at the indices `head`,
`head + 1`, ... (modulo the size) up to the tail. -/
def pending (s : State σ κ) : List Nat :=
  (List.range (pending_count s)).map
    (fun i => s.result_queue ((s.result_queue_head + i) % RESULT_QUEUE_SIZE))

/-- Both indices designate an element of `result_queue`. -/
def indices_ok (s : State σ κ) : Prop :=
  s.result_queue_head < RESULT_QUEUE_SIZE ∧ s.result_queue_tail < RESULT_QUEUE_SIZE

/-- The state once `pump_event` has taken the code at the head: the head has
advanced by one, modulo the size. -/
def head_advanced (s : State σ κ) : State σ κ :=
  { s with result_queue_head := (s.result_queue_head + 1) % RESULT_QUEUE_SIZE }

/-- The state in which the calls back of a primitive of the store are carried
out: the call is logged and the store's private state has advanced. -/
def entered {α : Type} (c : Call) (r : Reply σ κ α) (s : State σ κ) : State σ κ :=
  { s with fds := r.fds, calls := s.calls ++ [c] }

/-- Consecutive calls of `add_result`, one per code, first code first. -/
def add_results : List Nat → State σ κ → Except Fault (State σ κ)
  | [], s => .ok s
  | r :: rest, s =>
    match add_result r s with
    | .ok s1 => add_results rest s1
    | .error f => .error f

/-- The codes with which `fs_callback` was called, in the order of the calls. -/
def fs_callback_log : List Call → List Nat
  | [] => []
  | Call.fs_callback r :: rest => r :: fs_callback_log rest
  | _ :: rest => fs_callback_log rest

/-- A call back from the store that puts a code in the result queue. -/
def Action.enqueues : Action κ → Bool
  | .evt _ _ _ => false
  | .store _ _ _ _ => true
  | .erase _ _ _ => true

/-- The completion callback of the store puts no code in the result queue. -/
def callback_enqueues_nothing (E : Store σ κ) : Prop :=
  ∀ (cb : κ) (r : Nat) (s : State σ κ) (a : Action κ),
    a ∈ (E.fs_handler cb r s).acts → a.enqueues = false

/-- The code of the last call of `on_fds_event` for the kind numbered `k` in a
stretch of the call log, if there is one. -/
def last_recorded (k : Nat) : List Call → Option Nat
  | [] => none
  | c :: rest =>
    match last_recorded k rest with
    | some v => some v
    | none =>
      match c with
      | Call.on_fds_event id r => if id = k then some r else none
      | _ => none

/-- The latch of a kind is empty: `await_fds_event` answers false and leaves
`*result` alone. -/
def latch_empty (k : fds_evt_id_t) (s : State σ κ) : Prop :=
  ∀ x, await_fds_event k x s = (false, x)

/-- A run that returns, returns a completion of kind `k` recorded after the
stretch `base` of the call log: the code returned is that of the last
`on_fds_event` call for `k` logged after `base`. -/
def returns_fresh (k : fds_evt_id_t) (base : List Call)
    (out : Except Fault (Nat × State σ κ)) : Prop :=
  ∀ v s1, out = .ok (v, s1) →
    ∃ rest, s1.calls = base ++ rest ∧ last_recorded k.toNat rest = some v

/-- The latch of kind `k`, if filled, holds the code of the last `on_fds_event`
call for `k` logged after the stretch `base` of the call log. -/
def latch_inv (k : fds_evt_id_t) (base : List Call) (s : State σ κ) : Prop :=
  ∃ rest, s.calls = base ++ rest ∧
    ((s.last_evt k.toNat).id = k.toNat →
      last_recorded k.toNat rest = some (s.last_evt k.toNat).result)

/-- A log entry made by `on_fds_event`. -/
def Call.is_event : Call → Bool
  | .on_fds_event _ _ => true
  | _ => false

/-- A log entry for a call of `fds_record_update`. -/
def Call.is_update : Call → Bool
  | .fds_record_update _ _ => true
  | _ => false

/-- A log entry for a call of `fds_record_close`. -/
def Call.is_close : Call → Bool
  | .fds_record_close _ => true
  | _ => false

/-- A log entry for a call of a primitive of the store. -/
def Call.is_store_call : Call → Bool
  | .fs_callback _ => false
  | .on_fds_event _ _ => false
  | .entry_cb _ => false
  | _ => true

/-- A stretch of the call log that holds completions only: no call went out. -/
def only_events (l : List Call) : Prop :=
  ∀ c ∈ l, c.is_event = true

/-- Nothing was taken from the result queue and the completion callback was not
called between the states `s` and `s1`. -/
def not_pumped (s s1 : State σ κ) : Prop :=
  s1.result_queue_head = s.result_queue_head ∧
    fs_callback_log s1.calls = fs_callback_log s.calls

/-- Every cell of the memory holds a byte. -/
def bytes_ok (m : Nat → Nat) : Prop :=
  ∀ a, m a < 256

/-- The `n` source words at `p_src` share no byte with the `n` destination words at
`p_dest`. -/
def buffers_disjoint (p_dest p_src n : Nat) : Prop :=
  p_src + 4 * n ≤ p_dest ∨ p_dest + 4 * n ≤ p_src

/-! ## A small store, for concrete runs -/

/-- The kind of operation that a counter value of the store `demo_store` stands
for. -/
def demo_kind (n : Nat) : fds_evt_id_t :=
  match n with
  | 0 => .FDS_EVT_INIT
  | 1 => .FDS_EVT_WRITE
  | 2 => .FDS_EVT_UPDATE
  | 3 => .FDS_EVT_DEL_RECORD
  | 4 => .FDS_EVT_DEL_FILE
  | _ => .FDS_EVT_GC

/-- The store of the concrete runs, with a counter as private state: the number of
the kind of the operation in progress.  Operations are accepted (but record 0
is unknown) and ask the media for one page erase or one word store; the
completion callback reports the code it is given as the completion of the
operation in progress. -/
def demo_store : Store Nat Unit :=
  { FS_SUCCESS := 0
    FDS_SUCCESS := 0
    FDS_ERR_UNALIGNED_ADDR := 3
    length_words_of_int := fun n => (n % 65536).toNat
    fs_handler := fun _ r s => { ret := (), fds := s.fds, acts := [Action.evt (demo_kind s.fds) r []] }
    fds_register := fun s => { ret := 0, fds := s.fds, acts := [] }
    fds_init := fun s => { ret := 0, fds := 0, acts := [Action.erase (some ()) s.fs_config_p_start_addr 1] }
    fds_gc := fun s => { ret := 0, fds := 5, acts := [Action.erase (some ()) s.fs_config_p_start_addr 1] }
    fds_record_delete := fun desc s =>
      if desc.record_id = 0 then { ret := 10, fds := s.fds, acts := [] }
      else { ret := 0, fds := 3, acts := [Action.store (some ()) 4096 0 1] }
    fds_file_delete := fun _ _ => { ret := 0, fds := 4, acts := [Action.store (some ()) 4096 0 1] }
    fds_record_open := fun desc s =>
      if desc.record_id = 0 then
        { ret := (10, desc, { file_id := 0, record_key := 0, length_words := 0, p_data := 0 }),
          fds := s.fds, acts := [] }
      else
        { ret := (0, { desc with internal := 1 },
            { file_id := 10, record_key := 1, length_words := 2, p_data := 4108 }),
          fds := s.fds, acts := [] }
    fds_record_close := fun _ s => { ret := 0, fds := s.fds, acts := [] }
    fds_record_write := fun _ _ => { ret := 0, fds := 1, acts := [Action.store (some ()) 4096 0 1] }
    fds_record_update := fun _ _ _ =>
      { ret := 0, fds := 2, acts := [Action.store (some ()) 4096 0 1] }
    fds_record_iterate := fun tok s =>
      if tok.page < 2 then
        { ret := (0, { record_id := tok.page + 1, internal := 0 }, { tok with page := tok.page + 1 }),
          fds := s.fds, acts := [] }
      else { ret := (10, { record_id := 0, internal := 0 }, tok), fds := s.fds, acts := [] } }

/-- An empty queue whose indices stand two places before the end of the array,
with the callback pointer set. -/
def demo_state : State Nat Unit :=
  { result_queue := fun _ => 0
    result_queue_head := 254
    result_queue_tail := 254
    fs_callback := some ()
    last_evt := fun _ => { id := 0, result := 0, payload := [] }
    fs_config_p_start_addr := 4096
    mem := fun _ => 0
    fds := 5
    calls := [] }

/-- The queue of `demo_state` with the code 7 waiting at index 254. -/
def demo_pending : State Nat Unit :=
  { demo_state with
    result_queue := Function.update demo_state.result_queue 254 7
    result_queue_tail := 255 }

/-- The state `demo_pending` once the code 7 has been pumped to the callback and
the store has reported it as the completion of a garbage collection. -/
def demo_done : State Nat Unit :=
  on_fds_event { id := 5, result := 7, payload := [] }
    (entered (Call.fs_callback 7) (demo_store.fs_handler () 7 (head_advanced demo_pending))
      (head_advanced demo_pending))

/-- The state `demo_state` with a stale completion of an earlier garbage
collection, code 9, in the latch. -/
def demo_stale : State Nat Unit :=
  on_fds_event { id := 5, result := 9, payload := [] } demo_state

/-- The state in which `api_gc`, run on `demo_stale`, ends. -/
def demo_gc_done : State Nat Unit :=
  match api_gc demo_store 3 demo_stale with
  | .ok (_, s) => s
  | .error _ => demo_stale

/-- The state in which `api_del_record`, refused by the store for record 0, ends. -/
def demo_rejected : State Nat Unit :=
  entered (Call.fds_record_delete { record_id := 0, internal := 0 })
    (demo_store.fds_record_delete { record_id := 0, internal := 0 }
      (clear_event .FDS_EVT_DEL_RECORD demo_state))
    (clear_event .FDS_EVT_DEL_RECORD demo_state)

/-- The state in which the read-back of record 0, unknown to the store, ends. -/
def demo_not_found : State Nat Unit :=
  entered (Call.fds_record_open { record_id := 0, internal := 0 })
    (demo_store.fds_record_open { record_id := 0, internal := 0 } demo_state) demo_state

/-- The state in which the read-back of record 1 ends: opened, then closed. -/
def demo_read : State Nat Unit :=
  entered (Call.fds_record_close { record_id := 1, internal := 1 })
    (demo_store.fds_record_close { record_id := 1, internal := 1 }
      (entered (Call.fds_record_open { record_id := 1, internal := 0 })
        (demo_store.fds_record_open { record_id := 1, internal := 0 } demo_state) demo_state))
    (entered (Call.fds_record_open { record_id := 1, internal := 0 })
      (demo_store.fds_record_open { record_id := 1, internal := 0 } demo_state) demo_state)

/-- A queue with 255 codes waiting: head at 0, tail at 255. -/
def demo_full : State Nat Unit :=
  { demo_state with result_queue_head := 0, result_queue_tail := 255 }

/-- A memory of bytes: flash erased from 4096 on, a source word 0x11223344 at
address 0. -/
def demo_mem : Nat → Nat :=
  fun a => if a = 0 then 0x44 else if a = 1 then 0x33 else if a = 2 then 0x22
    else if a = 3 then 0x11 else 0xff

/-- The state `demo_state` with the memory `demo_mem`. -/
def demo_flash : State Nat Unit :=
  { demo_state with mem := demo_mem }

/-- The state `demo_state` after the store has reported a garbage collection as
completed with the code 0xFFFFFFFF. -/
def demo_minus_one : State Nat Unit :=
  on_fds_event { id := 5, result := 0xFFFFFFFF, payload := [] } demo_state

/-- The first `n` calls of `pump_event` that the loop of `pump_and_wait` makes: `n`
consecutive calls, each on the state the one before left. -/
def pump_times (E : Store σ κ) : Nat → State σ κ → Except Fault (State σ κ)
  | 0, s => .ok s
  | n + 1, s =>
    match pump_event E s with
    | .ok (_, s1) => pump_times E n s1
    | .error f => .error f

/-- The queue of `demo_state` with the codes 7 and 8 waiting at the indices 254
and 255: the tail has wrapped to 0. -/
def demo_two : State Nat Unit :=
  { demo_state with
    result_queue := Function.update (Function.update demo_state.result_queue 254 7) 255 8
    result_queue_tail := 0 }

/-- The state `demo_two` once the code 7 has been pumped to the callback and the
store has reported it as the completion of a garbage collection. -/
def demo_two_done : State Nat Unit :=
  on_fds_event { id := 5, result := 7, payload := [] }
    (entered (Call.fs_callback 7) (demo_store.fs_handler () 7 (head_advanced demo_two))
      (head_advanced demo_two))

/-- A step on the latch table: `clear_event`, or `on_fds_event` with an event of one
of the six kinds. -/
inductive LatchOp where
  | clear (k : fds_evt_id_t)
  | record (k : fds_evt_id_t) (result : Nat) (payload : List Nat)
deriving DecidableEq, Repr

/-- The step is on the slot of the kind `k`. -/
def LatchOp.touches (k : fds_evt_id_t) : LatchOp → Bool
  | .clear j => decide (j = k)
  | .record j _ _ => decide (j = k)

/-- The state after a run of steps on the latch table, first step first. -/
def apply_latch_ops : List LatchOp → State σ κ → State σ κ
  | [], s => s
  | .clear k :: rest, s => apply_latch_ops rest (clear_event k s)
  | .record k r pl :: rest, s =>
    apply_latch_ops rest (on_fds_event { id := k.toNat, result := r, payload := pl } s)

/-- The program's initial state, for the concrete runs. -/
def demo_init : State Nat Unit :=
  State.init 0 (fun _ => 0xff) 0

/-- The state in which `api_update_record`, run on `demo_state` for record 1, ends. -/
def demo_updated : State Nat Unit :=
  match api_update_record demo_store 3 1 8192 2 0 0 demo_state with
  | .ok (_, s) => s
  | .error _ => demo_state

/-- The record ids with which `entry_cb` was called, in the order of the calls. -/
def entry_cb_log : List Call → List Nat
  | [] => []
  | Call.entry_cb id :: rest => id :: entry_cb_log rest
  | _ :: rest => entry_cb_log rest

/-- The tokens with which `fds_record_iterate` was called, in the order of the
calls. -/
def iterate_log : List Call → List fds_find_token_t
  | [] => []
  | Call.fds_record_iterate tok :: rest => tok :: iterate_log rest
  | _ :: rest => iterate_log rest

/-- The store's answers to the traversal that starts with the token `tok` in the
state `s`: `fds_record_iterate` returns `FDS_SUCCESS` on the first `ids.length`
calls, reporting the record ids `ids` in this order (each is then handed to
`entry_cb`), and another code on the next call, which leaves the state `s2`. -/
def iterate_answers (E : Store σ κ) :
    List Nat → fds_find_token_t → State σ κ → State σ κ → Prop
  | [], tok, s, s2 =>
    ∃ ret desc tok1,
      extcall E (Call.fds_record_iterate tok) (E.fds_record_iterate tok s) s
        = .ok ((ret, desc, tok1), s2) ∧ ret ≠ E.FDS_SUCCESS
  | id :: ids, tok, s, s2 =>
    ∃ desc tok1 s1,
      extcall E (Call.fds_record_iterate tok) (E.fds_record_iterate tok s) s
        = .ok ((E.FDS_SUCCESS, desc, tok1), s1) ∧ desc.record_id = id ∧
      iterate_answers E ids tok1 { s1 with calls := s1.calls ++ [Call.entry_cb id] } s2

/-- The state in which `api_fds_dir`, run on `demo_state`, ends: the store has
reported the records 1 and 2. -/
def demo_dir_done : State Nat Unit :=
  { demo_state with
    calls := [Call.fds_record_iterate { p_addr := 0, page := 0 }, Call.entry_cb 1,
      Call.fds_record_iterate { p_addr := 0, page := 1 }, Call.entry_cb 2,
      Call.fds_record_iterate { p_addr := 0, page := 2 }] }

/-- A step on the result queue: `add_result` with a code, or `pump_event`. -/
inductive QueueOp where
  | add (r : Nat)
  | pump
deriving DecidableEq, Repr

/-- The state after a run of steps on the result queue, first step first; the run
ends at the first `add_result` that fails its assertion. -/
def run_queue_ops (E : Store σ κ) : List QueueOp → State σ κ → Except Fault (State σ κ)
  | [], s => .ok s
  | .add r :: rest, s =>
    match add_result r s with
    | .ok s1 => run_queue_ops E rest s1
    | .error f => .error f
  | .pump :: rest, s =>
    match pump_event E s with
    | .ok (_, s1) => run_queue_ops E rest s1
    | .error f => .error f

/-- The codes handed to `add_result` by the steps of a run, in order. -/
def added_codes : List QueueOp → List Nat
  | [] => []
  | .add r :: rest => r :: added_codes rest
  | .pump :: rest => added_codes rest

/-- The state with head and tail at 0, the callback pointer set, from which the
concrete run of queue steps starts. -/
def demo_zero : State Nat Unit :=
  { demo_state with result_queue_head := 0, result_queue_tail := 0 }

/-- Every source word is read before any destination word that shares a byte with
it is written: source word `i` shares no byte with the destination words
`j < i`.  So it is for a source that shares no byte with the destination, for
a source that starts at or above the destination, and for a single word. -/
def read_before_written (p_dest p_src n : Nat) : Prop :=
  ∀ i j, j < i → i < n →
    p_src + 4 * i + 4 ≤ p_dest + 4 * j ∨ p_dest + 4 * j + 4 ≤ p_src + 4 * i

/-- A memory of bytes: the word 0x11223344 in the four bytes just below 4096, 0xff
everywhere else. -/
def demo_mem_edge : Nat → Nat :=
  fun a => if a = 4092 then 0x44 else if a = 4093 then 0x33 else if a = 4094 then 0x22
    else if a = 4095 then 0x11 else 0xff

/-- The state `demo_state` with the memory `demo_mem_edge`. -/
def demo_edge : State Nat Unit :=
  { demo_state with mem := demo_mem_edge }

/-- A memory of bytes: the words 12, 60 and 48 at the addresses 0, 4 and 8, zero
everywhere else. -/
def demo_mem_words : Nat → Nat :=
  fun a => if a = 0 then 12 else if a = 4 then 60 else if a = 8 then 48 else 0

/-- The state `demo_state` with the memory `demo_mem_words`. -/
def demo_words : State Nat Unit :=
  { demo_state with mem := demo_mem_words }

/-- A probe put in the place of a primitive of the store: it does nothing but
report what `await_fds_event` answers for the kind `k` at the moment it is
called, 1 for a completion in the latch and 2 for "not yet". -/
def latch_probe (k : fds_evt_id_t) (s : State σ κ) : Reply σ κ Nat :=
  { ret := if (await_fds_event k 0 s).1 then 1 else 2, fds := s.fds, acts := [] }

/-- The wait of the run `out` ends: started in the state `s2` that the accepted
primitive left, if the `j`-th call of `pump_event` is the first to leave the
latch of kind `k` filled and the fuel allows for `j` calls, the run returns the
code in the latch, in the state that call left. -/
def completes (E : Store σ κ) (k : fds_evt_id_t) (fuel : Nat) (s2 : State σ κ)
    (out : Except Fault (Nat × State σ κ)) : Prop :=
  ∀ j t, pump_times E j s2 = .ok t →
    (∀ i, i < j → ∀ ti, pump_times E i s2 = .ok ti → latch_empty k ti) →
    (t.last_evt k.toNat).id = k.toNat → j < fuel →
    out = .ok ((t.last_evt k.toNat).result, t)

/-- The state in which a run ends, `dflt` standing for a run that does not
return. -/
def state_of {α : Type} (out : Except Fault (α × State σ κ)) (dflt : State σ κ) :
    State σ κ :=
  match out with
  | .ok (_, s) => s
  | .error _ => dflt

/-- The state `demo_state` with, in the latch of each of the six kinds, a stale
completion with the code 9 from an earlier call. -/
def demo_all_stale : State Nat Unit :=
  apply_latch_ops
    [LatchOp.record .FDS_EVT_INIT 9 [], LatchOp.record .FDS_EVT_WRITE 9 [],
      LatchOp.record .FDS_EVT_UPDATE 9 [], LatchOp.record .FDS_EVT_DEL_RECORD 9 [],
      LatchOp.record .FDS_EVT_DEL_FILE 9 [], LatchOp.record .FDS_EVT_GC 9 []]
    demo_state

/-- The state `demo_all_stale` once `api_gc` has cleared the latch and `fds_gc`
has accepted. -/
def demo_gc_issued : State Nat Unit :=
  state_of (extcall demo_store Call.fds_gc
    (demo_store.fds_gc (clear_event .FDS_EVT_GC demo_all_stale))
    (clear_event .FDS_EVT_GC demo_all_stale)) demo_all_stale

/-- The state `demo_all_stale` once `api_del_record` has cleared the latch and
`fds_record_delete` has accepted, for record 1. -/
def demo_del_record_issued : State Nat Unit :=
  state_of (extcall demo_store (Call.fds_record_delete { record_id := 1, internal := 0 })
    (demo_store.fds_record_delete { record_id := 1, internal := 0 }
      (clear_event .FDS_EVT_DEL_RECORD demo_all_stale))
    (clear_event .FDS_EVT_DEL_RECORD demo_all_stale)) demo_all_stale

/-- The state `demo_all_stale` once `api_del_file` has cleared the latch and
`fds_file_delete` has accepted, for file 7. -/
def demo_del_file_issued : State Nat Unit :=
  state_of (extcall demo_store (Call.fds_file_delete 7)
    (demo_store.fds_file_delete 7 (clear_event .FDS_EVT_DEL_FILE demo_all_stale))
    (clear_event .FDS_EVT_DEL_FILE demo_all_stale)) demo_all_stale

/-- The record that `api_write_record` hands to the store in the concrete run: key
1, file 7, two words at 8192. -/
def demo_record : fds_record_t :=
  { file_id := 7, key := 1, p_chunks := [{ p_data := 8192, length_words := 2 }],
    num_chunks := 1 }

/-- The state `demo_all_stale` once `api_write_record` has cleared the latch and
`fds_record_write` has accepted. -/
def demo_write_issued : State Nat Unit :=
  state_of (extcall demo_store (Call.fds_record_write demo_record)
    (demo_store.fds_record_write demo_record (clear_event .FDS_EVT_WRITE demo_all_stale))
    (clear_event .FDS_EVT_WRITE demo_all_stale)) demo_all_stale

/-- The state `demo_all_stale` once `api_update_record` has read record 1 back:
opened, then closed. -/
def demo_stale_read : State Nat Unit :=
  match api_get_record demo_store 1
      { file_id := some 0, record_key := some 0, record_len := none, data := none }
      demo_all_stale with
  | .ok (_, _, s) => s
  | .error _ => demo_all_stale

/-- The record that `api_update_record` hands to the store in the concrete run:
file 10 and key 1 as read back, two words at 8192. -/
def demo_record_update : fds_record_t :=
  { file_id := 10, key := 1, p_chunks := [{ p_data := 8192, length_words := 2 }],
    num_chunks := 1 }

/-- The state `demo_stale_read` once `api_update_record` has cleared the latch and
`fds_record_update` has accepted. -/
def demo_update_issued : State Nat Unit :=
  state_of (extcall demo_store
    (Call.fds_record_update { record_id := 1, internal := 0 } demo_record_update)
    (demo_store.fds_record_update { record_id := 1, internal := 0 } demo_record_update
      (clear_event .FDS_EVT_UPDATE demo_stale_read))
    (clear_event .FDS_EVT_UPDATE demo_stale_read)) demo_all_stale

/-- The state `demo_all_stale` once `api_fds_mount`, for the image at 4096, has
cleared the latch and `fds_register` has returned. -/
def demo_registered : State Nat Unit :=
  state_of (extcall demo_store Call.fds_register
    (demo_store.fds_register
      (clear_event .FDS_EVT_INIT { demo_all_stale with fs_config_p_start_addr := 4096 }))
    (clear_event .FDS_EVT_INIT { demo_all_stale with fs_config_p_start_addr := 4096 }))
    demo_all_stale

/-- The state `demo_registered` once `fds_init` has accepted. -/
def demo_init_issued : State Nat Unit :=
  state_of (extcall demo_store Call.fds_init (demo_store.fds_init demo_registered)
    demo_registered) demo_all_stale

/-- A memory of bytes: 0x0f at address 1, 0xff everywhere else. -/
def demo_mem_nibble : Nat → Nat :=
  fun a => if a = 1 then 0x0f else 0xff

/-- The state `demo_state` with the memory `demo_mem_nibble`. -/
def demo_nibble : State Nat Unit :=
  { demo_state with mem := demo_mem_nibble }

/-- A second `fs_store` of the same source into the same destination can be
counted on to change nothing: there is nothing to store, or the source starts
at least one word below the destination, at the destination, or at or above its
end. -/
def store_repeatable (p_dest p_src n : Nat) : Prop :=
  n = 0 ∨ p_src + 4 ≤ p_dest ∨ p_src = p_dest ∨ p_dest + 4 * n ≤ p_src

/-- The memory that holds 0 at the address `z` and 0xff everywhere else. -/
def one_zero_byte (z : Nat) : Nat → Nat :=
  fun a => if a = z then 0 else 255

/-! ## Theorems -/

theorem pending_count_lt (s : State σ κ) : pending_count s < 256 := by
  unfold pending_count RESULT_QUEUE_SIZE
  omega

theorem pending_length (s : State σ κ) : (pending s).length = pending_count s := by
  simp [pending]

theorem pending_count_eq_zero_iff (s : State σ κ) (h : indices_ok s) :
    pending_count s = 0 ↔ s.result_queue_tail = s.result_queue_head := by
  unfold indices_ok RESULT_QUEUE_SIZE at h
  unfold pending_count RESULT_QUEUE_SIZE
  omega

/-- What `add_result` does when there is room: the code joins the pending codes at
the end, and nothing else changes. -/
theorem add_result_ok (r : Nat) (s : State σ κ) (h : indices_ok s)
    (hc : pending_count s ≠ 255) :
    ∃ s1, add_result r s = .ok s1 ∧ pending s1 = pending s ++ [r] ∧
      pending_count s1 = pending_count s + 1 ∧ indices_ok s1 ∧
      s1.result_queue_head = s.result_queue_head ∧
      s1.fs_callback = s.fs_callback ∧ s1.last_evt = s.last_evt ∧
      s1.fs_config_p_start_addr = s.fs_config_p_start_addr ∧ s1.mem = s.mem ∧
      s1.fds = s.fds ∧ s1.calls = s.calls := by
  obtain ⟨hh, ht⟩ := h
  unfold RESULT_QUEUE_SIZE at hh ht
  unfold pending_count RESULT_QUEUE_SIZE at hc
  have hne : (s.result_queue_tail + 1) % 256 ≠ s.result_queue_head := by omega
  have hcnt : ((s.result_queue_tail + 1) % 256 + 256 - s.result_queue_head) % 256
      = (s.result_queue_tail + 256 - s.result_queue_head) % 256 + 1 := by omega
  refine ⟨{ s with
      result_queue := Function.update s.result_queue s.result_queue_tail r
      result_queue_tail := (s.result_queue_tail + 1) % 256 }, ?_, ?_, ?_, ?_, rfl, rfl, rfl, rfl,
    rfl, rfl, rfl⟩
  · simp [add_result, RESULT_QUEUE_SIZE, hne]
  · simp only [pending, pending_count, RESULT_QUEUE_SIZE, hcnt, List.range_succ, List.map_append,
      List.map_cons, List.map_nil]
    congr 1
    · apply List.map_congr_left
      intro i hi
      rw [List.mem_range] at hi
      rw [Function.update_noteq]
      omega
    · have : (s.result_queue_head + (s.result_queue_tail + 256 - s.result_queue_head) % 256) % 256
          = s.result_queue_tail := by omega
      rw [this, Function.update_same]
  · simp only [pending_count, RESULT_QUEUE_SIZE]
    exact hcnt
  · constructor
    · exact hh
    · show (s.result_queue_tail + 1) % 256 < 256
      omega

/-- What `add_result` does when 255 codes are waiting: the assertion fails. -/
theorem add_result_full (r : Nat) (s : State σ κ) (h : indices_ok s)
    (hc : pending_count s = 255) : add_result r s = .error Fault.assert_failed := by
  obtain ⟨hh, ht⟩ := h
  unfold RESULT_QUEUE_SIZE at hh ht
  unfold pending_count RESULT_QUEUE_SIZE at hc
  have heq : (s.result_queue_tail + 1) % 256 = s.result_queue_head := by omega
  simp [add_result, RESULT_QUEUE_SIZE, heq]

theorem fs_callback_log_append (l1 l2 : List Call) :
    fs_callback_log (l1 ++ l2) = fs_callback_log l1 ++ fs_callback_log l2 := by
  induction l1 with
  | nil => rfl
  | cons c rest ih => cases c <;> simp [fs_callback_log, ih]

/-- Calls back that enqueue nothing leave the queue, the callback pointer, the
memory and the list of codes given to `fs_callback` as they were. -/
theorem run_actions_quiet (E : Store σ κ) (acts : List (Action κ)) (s : State σ κ)
    (hq : ∀ a ∈ acts, a.enqueues = false) :
    ∃ s1, run_actions E acts s = .ok s1 ∧ s1.result_queue = s.result_queue ∧
      s1.result_queue_head = s.result_queue_head ∧
      s1.result_queue_tail = s.result_queue_tail ∧ s1.fs_callback = s.fs_callback ∧
      s1.mem = s.mem ∧ s1.fds = s.fds ∧
      s1.fs_config_p_start_addr = s.fs_config_p_start_addr ∧
      fs_callback_log s1.calls = fs_callback_log s.calls := by
  induction acts generalizing s with
  | nil => exact ⟨s, rfl, rfl, rfl, rfl, rfl, rfl, rfl, rfl, rfl⟩
  | cons a rest ih =>
    have ha := hq a (List.mem_cons_self a rest)
    have hrest : ∀ b ∈ rest, b.enqueues = false := fun b hb => hq b (List.mem_cons_of_mem a hb)
    cases a with
    | evt id result payload =>
      obtain ⟨s1, h1, h2, h3, h4, h5, h6, h7, h8, h9⟩ :=
        ih (on_fds_event { id := id.toNat, result := result, payload := payload } s) hrest
      refine ⟨s1, ?_, h2, h3, h4, h5, h6, h7, h8, ?_⟩
      · simp only [run_actions, do_action]
        exact h1
      · rw [h9]
        simp [on_fds_event, fs_callback_log_append, fs_callback_log]
    | store callback p_dest p_src length_words => simp [Action.enqueues] at ha
    | erase callback p_page_addr num_pages => simp [Action.enqueues] at ha

/-- Advancing the head by one (modulo the size) drops the oldest pending code. -/
theorem pending_advance_head (s : State σ κ) (h : indices_ok s)
    (hne : s.result_queue_tail ≠ s.result_queue_head) :
    pending s = s.result_queue s.result_queue_head :: pending (head_advanced s) := by
  obtain ⟨hh, ht⟩ := h
  unfold RESULT_QUEUE_SIZE at hh ht
  have hcnt : (s.result_queue_tail + 256 - s.result_queue_head) % 256
      = (s.result_queue_tail + 256 - (s.result_queue_head + 1) % 256) % 256 + 1 := by omega
  simp only [pending, pending_count, head_advanced, RESULT_QUEUE_SIZE]
  rw [hcnt, List.range_succ_eq_map, List.map_cons, List.map_map]
  congr 1
  · congr 1
    omega
  · apply List.map_congr_left
    intro i _
    simp only [Function.comp]
    congr 1
    omega

theorem pending_congr (s s1 : State σ κ) (hq : s1.result_queue = s.result_queue)
    (hh : s1.result_queue_head = s.result_queue_head)
    (ht : s1.result_queue_tail = s.result_queue_tail) : pending s1 = pending s := by
  simp [pending, pending_count, hq, hh, ht]

/-- `pump_event` on an empty queue. -/
theorem pump_event_empty (E : Store σ κ) (s : State σ κ)
    (he : s.result_queue_tail = s.result_queue_head) : pump_event E s = .ok (false, s) := by
  simp [pump_event, he]

/-- `pump_event` on a non-empty queue with the callback pointer set: the code at
the head goes to the callback, whose calls back are then carried out. -/
theorem pump_event_step (E : Store σ κ) (s : State σ κ) (cb : κ)
    (hcb : s.fs_callback = some cb) (hne : s.result_queue_tail ≠ s.result_queue_head) :
    pump_event E s =
      match run_actions E
          (E.fs_handler cb (s.result_queue s.result_queue_head) (head_advanced s)).acts
          (entered (Call.fs_callback (s.result_queue s.result_queue_head))
            (E.fs_handler cb (s.result_queue s.result_queue_head) (head_advanced s))
            (head_advanced s)) with
      | .ok s1 => .ok (true, s1)
      | .error f => .error f := by
  obtain ⟨q, hd, tl, fcb, le, psa, m, fd, cl⟩ := s
  simp only at hcb hne
  subst hcb
  simp only [pump_event, if_neg hne, extcall, head_advanced, entered]
  generalize run_actions E _ _ = x
  cases x <;> rfl

/-- One `pump_event` on a non-empty queue, when the callback enqueues nothing: the
oldest code is handed to the callback and the others stay. -/
theorem pump_event_quiet (E : Store σ κ) (s : State σ κ) (cb : κ) (h : indices_ok s)
    (hcb : s.fs_callback = some cb) (hq : callback_enqueues_nothing E)
    (hne : s.result_queue_tail ≠ s.result_queue_head) :
    ∃ s1, pump_event E s = .ok (true, s1) ∧
      pending s = s.result_queue s.result_queue_head :: pending s1 ∧
      indices_ok s1 ∧ s1.fs_callback = some cb ∧
      fs_callback_log s1.calls
        = fs_callback_log s.calls ++ [s.result_queue s.result_queue_head] ∧
      s1.result_queue_tail = s.result_queue_tail ∧ s1.result_queue = s.result_queue ∧
      s1.mem = s.mem := by
  obtain ⟨s1, h1, h2, h3, h4, h5, h6, _, _, h9⟩ :=
    run_actions_quiet E
      (E.fs_handler cb (s.result_queue s.result_queue_head) (head_advanced s)).acts
      (entered (Call.fs_callback (s.result_queue s.result_queue_head))
        (E.fs_handler cb (s.result_queue s.result_queue_head) (head_advanced s))
        (head_advanced s))
      (fun a ha => hq _ _ _ a ha)
  refine ⟨s1, ?_, ?_, ?_, ?_, ?_, h4, h2, h6⟩
  · rw [pump_event_step E s cb hcb hne, h1]
  · rw [pending_advance_head s h hne]
    congr 1
    exact (pending_congr _ s1 h2 h3 h4).symm
  · refine ⟨?_, ?_⟩
    · rw [h3]
      exact Nat.mod_lt _ (by decide)
    · rw [h4]
      exact h.2
  · rw [h5]
    exact hcb
  · rw [h9]
    simp [entered, head_advanced, fs_callback_log_append, fs_callback_log]

/-- The loop `pump_events`, when the callback enqueues nothing: with more fuel than
pending codes it ends, having handed every pending code to the callback, oldest
first, and the queue is empty. -/
theorem pump_events_quiet (E : Store σ κ) (cb : κ) (hq : callback_enqueues_nothing E)
    (n : Nat) : ∀ (s : State σ κ) (fuel : Nat), indices_ok s → s.fs_callback = some cb →
      pending_count s = n → n < fuel →
      ∃ s1, pump_events E fuel s = .ok s1 ∧
        fs_callback_log s1.calls = fs_callback_log s.calls ++ pending s ∧
        s1.result_queue_head = s1.result_queue_tail ∧ indices_ok s1 := by
  induction n with
  | zero =>
    intro s fuel h _ hc hf
    have heq := (pending_count_eq_zero_iff s h).1 hc
    obtain ⟨f, rfl⟩ : ∃ f, fuel = f + 1 := ⟨fuel - 1, by omega⟩
    refine ⟨s, ?_, ?_, heq.symm, h⟩
    · simp [pump_events, pump_event, heq]
    · simp [pending, hc]
  | succ n ih =>
    intro s fuel h hcb hc hf
    have hne : s.result_queue_tail ≠ s.result_queue_head := by
      intro heq
      have := (pending_count_eq_zero_iff s h).2 heq
      omega
    obtain ⟨f, rfl⟩ : ∃ f, fuel = f + 1 := ⟨fuel - 1, by omega⟩
    obtain ⟨s1, h1, h2, h3, h4, h5, _, _, _⟩ := pump_event_quiet E s cb h hcb hq hne
    have hc1 : pending_count s1 = n := by
      have hl := congrArg List.length h2
      rw [pending_length, List.length_cons, pending_length] at hl
      omega
    obtain ⟨s2, g1, g2, g3, g4⟩ := ih s1 f h3 h4 hc1 (by omega)
    refine ⟨s2, ?_, ?_, g3, g4⟩
    · simp only [pump_events, h1]
      exact g1
    · rw [g2, h5, h2]
      simp

/-- Consecutive `add_result` calls that fit: all pass, and the codes join the
pending codes in order. -/
theorem add_results_ok (codes : List Nat) : ∀ (s : State σ κ), indices_ok s →
    pending_count s + codes.length ≤ 255 →
    ∃ s1, add_results codes s = .ok s1 ∧ pending s1 = pending s ++ codes ∧
      pending_count s1 = pending_count s + codes.length ∧ indices_ok s1 ∧
      s1.result_queue_head = s.result_queue_head ∧
      s1.fs_callback = s.fs_callback ∧ s1.last_evt = s.last_evt ∧ s1.mem = s.mem ∧
      s1.fds = s.fds ∧ s1.calls = s.calls := by
  induction codes with
  | nil =>
    intro s h _
    exact ⟨s, rfl, by simp, rfl, h, rfl, rfl, rfl, rfl, rfl, rfl⟩
  | cons r rest ih =>
    intro s h hlen
    rw [List.length_cons] at hlen
    obtain ⟨s1, h1, h2, h3, h4, h5, h6, h7, _, h9, h10, h11⟩ :=
      add_result_ok r s h (by omega)
    obtain ⟨s2, g1, g2, g3, g4, g5, g6, g7, g8, g9, g10⟩ := ih s1 h4 (by omega)
    refine ⟨s2, ?_, ?_, ?_, g4, g5.trans h5, g6.trans h6, g7.trans h7, g8.trans h9,
      g9.trans h10, g10.trans h11⟩
    · simp only [add_results, h1]
      exact g1
    · rw [g2, h2]
      simp
    · rw [g3, h3, List.length_cons]
      omega

/-- C1. FIFO delivery: whatever index the empty queue stands at, after `add_result`
has appended the n ≤ 255 codes of a list, `pump_events` (the callback enqueuing
nothing) returns, has called the completion callback exactly n times, on those
codes in the order they were appended, and leaves the queue empty. -/
theorem C1_fifo_delivery (E : Store σ κ) (s : State σ κ) (codes : List Nat) (cb : κ)
    (fuel : Nat) (hidx : indices_ok s)
    (hempty : s.result_queue_head = s.result_queue_tail) (hlen : codes.length ≤ 255)
    (hcb : s.fs_callback = some cb) (hq : callback_enqueues_nothing E)
    (hfuel : codes.length < fuel) :
    ∃ s1 s2, add_results codes s = .ok s1 ∧ pump_events E fuel s1 = .ok s2 ∧
      fs_callback_log s2.calls = fs_callback_log s.calls ++ codes ∧
      s2.result_queue_head = s2.result_queue_tail ∧ pending s2 = [] := by
  have hc0 : pending_count s = 0 := (pending_count_eq_zero_iff s hidx).2 hempty.symm
  obtain ⟨s1, h1, h2, h3, h4, _, h6, _, _, _, h10⟩ :=
    add_results_ok codes s hidx (by omega)
  obtain ⟨s2, g1, g2, g3, g4⟩ :=
    pump_events_quiet E cb hq (pending_count s1) s1 fuel h4 (h6.trans hcb) rfl (by omega)
  refine ⟨s1, s2, h1, g1, ?_, g3, ?_⟩
  · rw [g2, h10, h2]
    simp [pending, hc0]
  · have := (pending_count_eq_zero_iff s2 g4).2 g3.symm
    simp [pending, this]

theorem demo_store_quiet : callback_enqueues_nothing demo_store := by
  intro cb r s a ha
  simp [demo_store] at ha
  subst ha
  rfl

/-- A run of C1 that wraps past index 255: three codes appended at index 254. -/
theorem C1_fifo_delivery_witness :
    ∃ s1 s2, add_results [7, 8, 9] demo_state = .ok s1 ∧
      pump_events demo_store 4 s1 = .ok s2 ∧
      fs_callback_log s2.calls = fs_callback_log demo_state.calls ++ [7, 8, 9] ∧
      s2.result_queue_head = s2.result_queue_tail ∧ pending s2 = [] :=
  C1_fifo_delivery demo_store demo_state [7, 8, 9] () 4
    (by unfold indices_ok demo_state RESULT_QUEUE_SIZE; decide) rfl (by decide) rfl
    demo_store_quiet (by decide)

theorem add_results_append (l1 l2 : List Nat) : ∀ (s : State σ κ),
    add_results (l1 ++ l2) s =
      match add_results l1 s with
      | .ok s1 => add_results l2 s1
      | .error f => .error f := by
  induction l1 with
  | nil => intro s; rfl
  | cons r rest ih =>
    intro s
    simp only [List.cons_append, add_results]
    cases add_result r s with
    | error f => rfl
    | ok s1 => exact ih s1

/-- C2. Capacity boundary: with valid indices, `add_result` fails its assertion
exactly when 255 codes are pending; so from an empty queue up to 255 consecutive
calls all pass, and the 256th fails the assertion. -/
theorem C2_capacity_boundary (s : State σ κ) (h : indices_ok s) :
    (∀ r, add_result r s = .error Fault.assert_failed ↔ pending_count s = 255) ∧
    (∀ r, (∃ s1, add_result r s = .ok s1) ↔ pending_count s ≠ 255) ∧
    (s.result_queue_head = s.result_queue_tail →
      (∀ codes : List Nat, codes.length ≤ 255 →
        ∃ s1, add_results codes s = .ok s1 ∧ pending_count s1 = codes.length) ∧
      (∀ (codes : List Nat) (r : Nat), codes.length = 255 →
        add_results (codes ++ [r]) s = .error Fault.assert_failed)) := by
  have key : ∀ r, add_result r s = .error Fault.assert_failed ↔ pending_count s = 255 := by
    intro r
    constructor
    · intro he
      by_contra hc
      obtain ⟨s1, h1, _⟩ := add_result_ok r s h hc
      rw [h1] at he
      cases he
    · exact add_result_full r s h
  refine ⟨key, ?_, ?_⟩
  · intro r
    constructor
    · rintro ⟨s1, h1⟩ hc
      rw [(key r).2 hc] at h1
      cases h1
    · intro hc
      obtain ⟨s1, h1, _⟩ := add_result_ok r s h hc
      exact ⟨s1, h1⟩
  · intro hempty
    have hc0 : pending_count s = 0 := (pending_count_eq_zero_iff s h).2 hempty.symm
    constructor
    · intro codes hlen
      obtain ⟨s1, h1, _, h3, _⟩ := add_results_ok codes s h (by omega)
      exact ⟨s1, h1, by omega⟩
    · intro codes r hlen
      obtain ⟨s1, h1, _, h3, h4, _⟩ := add_results_ok codes s h (by omega)
      rw [add_results_append, h1]
      simp only [add_results]
      rw [add_result_full r s1 h4 (by omega)]

/-- C2 at the empty queue that stands at index 254. -/
theorem C2_capacity_boundary_witness :
    (∀ r, add_result r demo_state = .error Fault.assert_failed ↔
      pending_count demo_state = 255) ∧
    (∀ r, (∃ s1, add_result r demo_state = .ok s1) ↔ pending_count demo_state ≠ 255) ∧
    (demo_state.result_queue_head = demo_state.result_queue_tail →
      (∀ codes : List Nat, codes.length ≤ 255 →
        ∃ s1, add_results codes demo_state = .ok s1 ∧ pending_count s1 = codes.length) ∧
      (∀ (codes : List Nat) (r : Nat), codes.length = 255 →
        add_results (codes ++ [r]) demo_state = .error Fault.assert_failed)) :=
  C2_capacity_boundary demo_state (by unfold indices_ok demo_state RESULT_QUEUE_SIZE; decide)

/-! ### The wait loop -/

theorem pump_and_wait_loop_spec (E : Store σ κ) (k : fds_evt_id_t) (fuel : Nat) :
    ∀ (init : Nat) (s : State σ κ) (v : Nat) (s1 : State σ κ),
      pump_and_wait_loop E k fuel init s = .ok (v, s1) →
      (s1.last_evt k.toNat).id = k.toNat ∧ v = (s1.last_evt k.toNat).result ∧
      ∀ init1, pump_and_wait_loop E k fuel init1 s = .ok (v, s1) := by
  induction fuel with
  | zero =>
    intro init s v s1 h
    simp [pump_and_wait_loop] at h
  | succ fuel ih =>
    intro init s v s1 h
    by_cases hid : (s.last_evt k.toNat).id = k.toNat
    · simp only [pump_and_wait_loop, await_fds_event, hid, ne_eq, not_true_eq_false,
        if_false, Except.ok.injEq, Prod.mk.injEq] at h
      obtain ⟨rfl, rfl⟩ := h
      refine ⟨hid, rfl, fun init1 => ?_⟩
      simp [pump_and_wait_loop, await_fds_event, hid]
    · simp only [pump_and_wait_loop, await_fds_event, hid, ne_eq, not_false_eq_true,
        if_true] at h
      cases hp : pump_event E s with
      | error f => simp [hp] at h
      | ok p =>
        obtain ⟨b, s2⟩ := p
        simp only [hp] at h
        obtain ⟨h1, h2, h3⟩ := ih init s2 v s1 h
        refine ⟨h1, h2, fun init1 => ?_⟩
        simp only [pump_and_wait_loop, await_fds_event, hid, ne_eq, not_false_eq_true,
          if_true, hp]
        exact h3 init1

/-- C3, as the code has it.  Whenever `pump_and_wait(kind)` returns, the latch of the
kind is filled at that moment and the value returned is its `result` field,
unmodified.  The placeholder with which the local variable starts never reaches
the caller: the loop returns the same value from the same state whatever the
variable held.  The value returned is 0xFFFFFFFF only when that is the recorded
code. -/
theorem C3_pump_and_wait_returns_latched (E : Store σ κ) (fuel : Nat) (k : fds_evt_id_t)
    (s : State σ κ) (v : Nat) (s1 : State σ κ)
    (h : pump_and_wait E fuel k s = .ok (v, s1)) :
    (s1.last_evt k.toNat).id = k.toNat ∧ v = (s1.last_evt k.toNat).result ∧
    await_fds_event k 0xFFFFFFFF s1 = (true, v) ∧
    (∀ init, pump_and_wait_loop E k fuel init s = .ok (v, s1)) ∧
    (v = 0xFFFFFFFF → (s1.last_evt k.toNat).result = 0xFFFFFFFF) := by
  obtain ⟨h1, h2, h3⟩ := pump_and_wait_loop_spec E k fuel 0xFFFFFFFF s v s1 h
  refine ⟨h1, h2, ?_, h3, fun hv => by rw [← h2, hv]⟩
  simp [await_fds_event, h1, h2]

/-- C3 as stated fails on the value: when the completion recorded for the kind has
the code 0xFFFFFFFF, `pump_and_wait` returns 0xFFFFFFFF, the value of the
placeholder `(uint32_t)-1`. -/
theorem C3_minus_one_returned :
    await_fds_event .FDS_EVT_GC 0 demo_minus_one = (true, 0xFFFFFFFF) ∧
    pump_and_wait demo_store 1 .FDS_EVT_GC demo_minus_one
      = .ok (0xFFFFFFFF, demo_minus_one) :=
  ⟨rfl, rfl⟩

/-- A run of C3: one code is pending, the store reports it as the completion of a
garbage collection, and `pump_and_wait(FDS_EVT_GC)` returns it. -/
theorem C3_pump_and_wait_returns_latched_witness :
    (demo_done.last_evt fds_evt_id_t.FDS_EVT_GC.toNat).id = fds_evt_id_t.FDS_EVT_GC.toNat ∧
    7 = (demo_done.last_evt fds_evt_id_t.FDS_EVT_GC.toNat).result ∧
    await_fds_event fds_evt_id_t.FDS_EVT_GC 0xFFFFFFFF demo_done = (true, 7) ∧
    (∀ init, pump_and_wait_loop demo_store fds_evt_id_t.FDS_EVT_GC 2 init demo_pending
      = .ok (7, demo_done)) ∧
    (7 = 0xFFFFFFFF →
      (demo_done.last_evt fds_evt_id_t.FDS_EVT_GC.toNat).result = 0xFFFFFFFF) :=
  C3_pump_and_wait_returns_latched demo_store 2 fds_evt_id_t.FDS_EVT_GC demo_pending 7
    demo_done rfl

/-! ### The latch and the call log -/

theorem toNat_injective (j k : fds_evt_id_t) (h : j.toNat = k.toNat) : j = k := by
  cases j <;> cases k <;> first | rfl | (simp [fds_evt_id_t.toNat] at h)

theorem toNat_ne_0xff (k : fds_evt_id_t) : (0xff : Nat) ≠ k.toNat := by
  cases k <;> simp [fds_evt_id_t.toNat]

theorem last_recorded_cons (k : Nat) (c : Call) (l : List Call) :
    last_recorded k (c :: l) =
      match last_recorded k l with
      | some v => some v
      | none =>
        match c with
        | Call.on_fds_event id r => if id = k then some r else none
        | _ => none := rfl

theorem last_recorded_append (k : Nat) (l1 l2 : List Call) :
    last_recorded k (l1 ++ l2) =
      match last_recorded k l2 with
      | some v => some v
      | none => last_recorded k l1 := by
  induction l1 with
  | nil =>
    rw [List.nil_append]
    cases last_recorded k l2 <;> rfl
  | cons c rest ih =>
    rw [List.cons_append, last_recorded_cons, ih, last_recorded_cons]
    cases last_recorded k l2 <;> rfl

/-- A passing `add_result` touches the queue and its tail only. -/
theorem add_result_frame (r : Nat) (s s1 : State σ κ) (h : add_result r s = .ok s1) :
    s1.last_evt = s.last_evt ∧ s1.calls = s.calls ∧ s1.mem = s.mem ∧
    s1.fs_callback = s.fs_callback ∧ s1.fds = s.fds ∧
    s1.fs_config_p_start_addr = s.fs_config_p_start_addr ∧
    s1.result_queue_head = s.result_queue_head := by
  unfold add_result at h
  simp only at h
  split at h
  · cases h
    exact ⟨rfl, rfl, rfl, rfl, rfl, rfl, rfl⟩
  · cases h

theorem latch_inv_on_fds_event (k j : fds_evt_id_t) (base : List Call) (r : Nat)
    (pl : List Nat) (s : State σ κ) (h : latch_inv k base s) :
    latch_inv k base (on_fds_event { id := j.toNat, result := r, payload := pl } s) := by
  obtain ⟨rest, h1, h2⟩ := h
  refine ⟨rest ++ [Call.on_fds_event j.toNat r], ?_, ?_⟩
  · simp [on_fds_event, h1]
  · by_cases hjk : j = k
    · subst hjk
      intro _
      simp [on_fds_event, last_recorded_append, last_recorded]
    · have hne : k.toNat ≠ j.toNat := fun e => hjk (toNat_injective k j e).symm
      intro hid
      simp only [on_fds_event, Function.update_noteq hne] at hid
      simp only [on_fds_event, Function.update_noteq hne, last_recorded_append, last_recorded,
        if_neg (Ne.symm hne)]
      exact h2 hid

theorem latch_inv_of_frame (k : fds_evt_id_t) (base : List Call) (s s1 : State σ κ)
    (h : latch_inv k base s) (hl : s1.last_evt = s.last_evt) (hc : s1.calls = s.calls) :
    latch_inv k base s1 := by
  obtain ⟨rest, h1, h2⟩ := h
  exact ⟨rest, by rw [hc, h1], by rw [hl]; exact h2⟩

theorem latch_inv_do_action (E : Store σ κ) (k : fds_evt_id_t) (base : List Call)
    (a : Action κ) (s s1 : State σ κ) (h : latch_inv k base s)
    (hr : do_action E a s = .ok s1) : latch_inv k base s1 := by
  cases a with
  | evt id result payload =>
    simp only [do_action, Except.ok.injEq] at hr
    subst hr
    exact latch_inv_on_fds_event k id base result payload s h
  | store callback p_dest p_src length_words =>
    simp only [do_action, fs_store] at hr
    split at hr
    · rename_i x s2 heq
      split at heq
      · rename_i s3 hadd
        cases heq
        cases hr
        obtain ⟨g1, g2, _⟩ := add_result_frame _ _ _ hadd
        exact latch_inv_of_frame k base s _ h g1 g2
      · cases heq
    · cases hr
  | erase callback p_page_addr num_pages =>
    simp only [do_action, fs_erase] at hr
    split at hr
    · rename_i x s2 heq
      split at heq
      · rename_i s3 hadd
        cases heq
        cases hr
        obtain ⟨g1, g2, _⟩ := add_result_frame _ _ _ hadd
        exact latch_inv_of_frame k base s _ h g1 g2
      · cases heq
    · cases hr

theorem latch_inv_run_actions (E : Store σ κ) (k : fds_evt_id_t) (base : List Call)
    (acts : List (Action κ)) : ∀ (s s1 : State σ κ), latch_inv k base s →
      run_actions E acts s = .ok s1 → latch_inv k base s1 := by
  induction acts with
  | nil =>
    intro s s1 h hr
    simp only [run_actions, Except.ok.injEq] at hr
    subst hr
    exact h
  | cons a rest ih =>
    intro s s1 h hr
    simp only [run_actions] at hr
    cases hd : do_action E a s with
    | error f => simp [hd] at hr
    | ok s2 =>
      simp only [hd] at hr
      exact ih s2 s1 (latch_inv_do_action E k base a s s2 h hd) hr

theorem extcall_eq {α : Type} (E : Store σ κ) (c : Call) (r : Reply σ κ α) (s : State σ κ) :
    extcall E c r s =
      match run_actions E r.acts (entered c r s) with
      | .ok s1 => .ok (r.ret, s1)
      | .error f => .error f := rfl

theorem extcall_ok {α : Type} (E : Store σ κ) (c : Call) (r : Reply σ κ α) (s : State σ κ)
    (ret : α) (s1 : State σ κ) (h : extcall E c r s = .ok (ret, s1)) :
    ret = r.ret ∧ run_actions E r.acts (entered c r s) = .ok s1 := by
  rw [extcall_eq] at h
  cases hr : run_actions E r.acts (entered c r s) with
  | error f => simp [hr] at h
  | ok s2 =>
    simp only [hr, Except.ok.injEq, Prod.mk.injEq] at h
    exact ⟨h.1.symm, by rw [h.2]⟩

theorem latch_inv_extcall {α : Type} (E : Store σ κ) (k : fds_evt_id_t) (base : List Call)
    (c : Call) (r : Reply σ κ α) (s s1 : State σ κ) (ret : α) (h : latch_inv k base s)
    (hc : last_recorded k.toNat [c] = none) (hx : extcall E c r s = .ok (ret, s1)) :
    latch_inv k base s1 := by
  obtain ⟨_, hr⟩ := extcall_ok E c r s ret s1 hx
  refine latch_inv_run_actions E k base r.acts (entered c r s) s1 ?_ hr
  obtain ⟨rest, h1, h2⟩ := h
  refine ⟨rest ++ [c], by simp [entered, h1], ?_⟩
  intro hid
  rw [last_recorded_append, hc]
  exact h2 hid

/-- After a primitive is called with the latch of `k` empty, the latch, if filled,
holds the last completion of kind `k` logged after the call. -/
theorem latch_inv_extcall_fresh {α : Type} (E : Store σ κ) (k : fds_evt_id_t) (c : Call)
    (r : Reply σ κ α) (s s1 : State σ κ) (ret : α)
    (he : (s.last_evt k.toNat).id ≠ k.toNat) (hx : extcall E c r s = .ok (ret, s1)) :
    latch_inv k (s.calls ++ [c]) s1 := by
  obtain ⟨_, hr⟩ := extcall_ok E c r s ret s1 hx
  refine latch_inv_run_actions E k _ r.acts (entered c r s) s1 ?_ hr
  exact ⟨[], by simp [entered], fun hid => absurd hid he⟩

theorem latch_inv_pump_event (E : Store σ κ) (k : fds_evt_id_t) (base : List Call)
    (s s1 : State σ κ) (b : Bool) (h : latch_inv k base s)
    (hp : pump_event E s = .ok (b, s1)) : latch_inv k base s1 := by
  by_cases he : s.result_queue_tail = s.result_queue_head
  · rw [pump_event_empty E s he] at hp
    simp only [Except.ok.injEq, Prod.mk.injEq] at hp
    rw [← hp.2]
    exact h
  · cases hcb : s.fs_callback with
    | none => simp [pump_event, he, hcb] at hp
    | some cb =>
      rw [pump_event_step E s cb hcb he] at hp
      cases hr : run_actions E
          (E.fs_handler cb (s.result_queue s.result_queue_head) (head_advanced s)).acts
          (entered (Call.fs_callback (s.result_queue s.result_queue_head))
            (E.fs_handler cb (s.result_queue s.result_queue_head) (head_advanced s))
            (head_advanced s)) with
      | error f => simp [hr] at hp
      | ok s2 =>
        simp only [hr, Except.ok.injEq, Prod.mk.injEq] at hp
        rw [← hp.2]
        refine latch_inv_run_actions E k base _ _ s2 ?_ hr
        obtain ⟨rest, h1, h2⟩ := h
        refine ⟨rest ++ [Call.fs_callback (s.result_queue s.result_queue_head)],
          by simp [entered, head_advanced, h1], ?_⟩
        intro hid
        rw [last_recorded_append]
        exact h2 hid

/-- When the wait loop returns, the value is the code of the last completion of the
kind logged after `base`. -/
theorem latch_inv_wait (E : Store σ κ) (k : fds_evt_id_t) (base : List Call) (fuel : Nat) :
    ∀ (init : Nat) (s : State σ κ), latch_inv k base s →
      returns_fresh k base (pump_and_wait_loop E k fuel init s) := by
  induction fuel with
  | zero =>
    intro init s _ v s1 h
    simp [pump_and_wait_loop] at h
  | succ fuel ih =>
    intro init s hinv v s1 h
    by_cases hid : (s.last_evt k.toNat).id = k.toNat
    · simp only [pump_and_wait_loop, await_fds_event, hid, ne_eq, not_true_eq_false,
        if_false, Except.ok.injEq, Prod.mk.injEq] at h
      obtain ⟨rfl, rfl⟩ := h
      obtain ⟨rest, h1, h2⟩ := hinv
      exact ⟨rest, h1, h2 hid⟩
    · simp only [pump_and_wait_loop, await_fds_event, hid, ne_eq, not_false_eq_true,
        if_true] at h
      cases hp : pump_event E s with
      | error f => simp [hp] at h
      | ok p =>
        obtain ⟨b, s2⟩ := p
        simp only [hp] at h
        exact ih init s2 (latch_inv_pump_event E k base s s2 b hinv hp) v s1 h

theorem clear_event_empty (k : fds_evt_id_t) (s : State σ κ) :
    ((clear_event k s).last_evt k.toNat).id ≠ k.toNat := by
  simp only [clear_event, Function.update_same]
  exact toNat_ne_0xff k

theorem latch_empty_iff (k : fds_evt_id_t) (s : State σ κ) :
    latch_empty k s ↔ (s.last_evt k.toNat).id ≠ k.toNat := by
  unfold latch_empty await_fds_event
  constructor
  · intro h hid
    have := h 0
    simp [hid] at this
  · intro h x
    simp [h]

/-! ### The store's primitives other than the completion callback play no part in
the pump -/

theorem do_action_any (E E1 : Store σ κ) (a : Action κ) (s : State σ κ) :
    do_action E1 a s = do_action E a s := by
  cases a with
  | evt id result payload => rfl
  | store callback p_dest p_src length_words =>
    simp only [do_action, fs_store]
    cases add_result 0 _ <;> rfl
  | erase callback p_page_addr num_pages =>
    simp only [do_action, fs_erase]
    cases add_result 0 _ <;> rfl

theorem run_actions_any (E E1 : Store σ κ) (acts : List (Action κ)) :
    ∀ s : State σ κ, run_actions E1 acts s = run_actions E acts s := by
  induction acts with
  | nil => intro s; rfl
  | cons a rest ih =>
    intro s
    simp only [run_actions, do_action_any E E1 a s]
    cases do_action E a s with
    | error f => rfl
    | ok s1 => exact ih s1

theorem extcall_any {α : Type} (E E1 : Store σ κ) (c : Call) (r : Reply σ κ α)
    (s : State σ κ) : extcall E1 c r s = extcall E c r s := by
  simp only [extcall, run_actions_any E E1]

theorem pump_event_any (E E1 : Store σ κ) (hh : E1.fs_handler = E.fs_handler)
    (s : State σ κ) : pump_event E1 s = pump_event E s := by
  simp only [pump_event, hh, extcall_any E E1]

theorem pump_and_wait_loop_any (E E1 : Store σ κ) (hh : E1.fs_handler = E.fs_handler)
    (k : fds_evt_id_t) (fuel : Nat) : ∀ (init : Nat) (s : State σ κ),
      pump_and_wait_loop E1 k fuel init s = pump_and_wait_loop E k fuel init s := by
  induction fuel with
  | zero => intro init s; rfl
  | succ fuel ih =>
    intro init s
    simp only [pump_and_wait_loop, pump_event_any E E1 hh]
    split
    · rfl
    · cases pump_event E s with
      | error f => rfl
      | ok p => exact ih _ p.2

theorem pump_and_wait_any (E E1 : Store σ κ) (hh : E1.fs_handler = E.fs_handler)
    (k : fds_evt_id_t) (fuel : Nat) (s : State σ κ) :
    pump_and_wait E1 fuel k s = pump_and_wait E fuel k s :=
  pump_and_wait_loop_any E E1 hh k fuel _ s

/-! ### Clear, issue, wait -/

/-- The common tail of the waiting calls: a primitive issued with the latch of its
kind empty and accepted; what the wait returns was recorded after the issue. -/
theorem issue_wait_fresh (E : Store σ κ) (fuel : Nat) (k : fds_evt_id_t) (c : Call)
    (r : Reply σ κ Nat) (s : State σ κ) (he : (s.last_evt k.toNat).id ≠ k.toNat)
    (hacc : r.ret = 0) :
    returns_fresh k (s.calls ++ [c])
      (match extcall E c r s with
        | .error f => .error f
        | .ok (ret, s2) => if ret ≠ 0 then .ok (ret, s2) else pump_and_wait E fuel k s2) := by
  intro v s1 h
  cases hx : extcall E c r s with
  | error f => simp [hx] at h
  | ok p =>
    obtain ⟨ret, s2⟩ := p
    obtain ⟨hret, _⟩ := extcall_ok E c r s ret s2 hx
    have hz : ret = 0 := hret.trans hacc
    simp only [hx, hz, ne_eq, not_true_eq_false, if_false] at h
    exact latch_inv_wait E k _ fuel _ s2
      (latch_inv_extcall_fresh E k c r s s2 ret he hx) v s1 h

theorem api_get_record_any (E E1 : Store σ κ) (ho : E1.fds_record_open = E.fds_record_open)
    (hc : E1.fds_record_close = E.fds_record_close) (record_id : Nat) (out : Slots)
    (s : State σ κ) : api_get_record E1 record_id out s = api_get_record E record_id out s := by
  simp only [api_get_record, ho, hc, extcall_any E E1]

/-- What `api_get_record` does to the latch table and the call log when it returns:
nothing to the former, and it logs no completion. -/
theorem api_get_record_calls (E : Store σ κ) (record_id : Nat) (out out1 : Slots)
    (s s1 : State σ κ) (ret : Nat) (k : fds_evt_id_t) (base : List Call)
    (hinv : latch_inv k base s)
    (h : api_get_record E record_id out s = .ok (ret, out1, s1)) : latch_inv k base s1 := by
  simp only [api_get_record] at h
  cases hx : extcall E (Call.fds_record_open { record_id := record_id, internal := 0 })
      (E.fds_record_open { record_id := record_id, internal := 0 } s) s with
  | error f => simp [hx] at h
  | ok p =>
    obtain ⟨⟨ret0, desc1, fr⟩, s2⟩ := p
    have hinv2 := latch_inv_extcall E k base
      (Call.fds_record_open { record_id := record_id, internal := 0 }) _ s s2 _ hinv rfl hx
    simp only [hx] at h
    by_cases hz : ret0 = 0
    · simp only [hz, ne_eq, not_true_eq_false, if_false] at h
      cases hy : extcall E (Call.fds_record_close desc1) (E.fds_record_close desc1 s2) s2 with
      | error f => simp [hy] at h
      | ok q =>
        obtain ⟨ret1, s3⟩ := q
        have hinv3 := latch_inv_extcall E k base (Call.fds_record_close desc1) _ s2 s3 _
          hinv2 rfl hy
        simp only [hy, Except.ok.injEq, Prod.mk.injEq] at h
        rw [← h.2.2]
        exact hinv3
    · simp only [hz, ne_eq, not_false_eq_true, if_true, Except.ok.injEq, Prod.mk.injEq] at h
      rw [← h.2.2]
      exact hinv2

/-! ### Rejection -/

theorem fs_callback_log_only_events (l : List Call) (h : only_events l) :
    fs_callback_log l = [] := by
  induction l with
  | nil => rfl
  | cons c rest ih =>
    have hc := h c (List.mem_cons_self c rest)
    have hr : only_events rest := fun d hd => h d (List.mem_cons_of_mem c hd)
    cases c <;> simp [Call.is_event] at hc
    simp [fs_callback_log, ih hr]

/-- The calls back of the store take nothing from the queue and log completions
only. -/
theorem run_actions_log (E : Store σ κ) (acts : List (Action κ)) :
    ∀ (s s1 : State σ κ), run_actions E acts s = .ok s1 →
      s1.result_queue_head = s.result_queue_head ∧
      ∃ rest, s1.calls = s.calls ++ rest ∧ only_events rest := by
  induction acts with
  | nil =>
    intro s s1 h
    simp only [run_actions, Except.ok.injEq] at h
    subst h
    exact ⟨rfl, [], by simp, fun c hc => by cases hc⟩
  | cons a rest ih =>
    intro s s1 h
    simp only [run_actions] at h
    cases hd : do_action E a s with
    | error f => simp [hd] at h
    | ok s2 =>
      simp only [hd] at h
      obtain ⟨g1, l, g2, g3⟩ := ih s2 s1 h
      have key : s2.result_queue_head = s.result_queue_head ∧
          ∃ l0, s2.calls = s.calls ++ l0 ∧ only_events l0 := by
        cases a with
        | evt id result payload =>
          simp only [do_action, Except.ok.injEq] at hd
          subst hd
          refine ⟨rfl, [Call.on_fds_event id.toNat result], rfl, ?_⟩
          intro c hc
          simp only [List.mem_singleton] at hc
          subst hc
          rfl
        | store callback p_dest p_src length_words =>
          simp only [do_action, fs_store] at hd
          split at hd
          · rename_i x s3 heq
            split at heq
            · rename_i s4 hadd
              cases heq
              cases hd
              obtain ⟨_, f2, _, _, _, _, f7⟩ := add_result_frame _ _ _ hadd
              exact ⟨f7, [], by simp [f2], fun c hc => by cases hc⟩
            · cases heq
          · cases hd
        | erase callback p_page_addr num_pages =>
          simp only [do_action, fs_erase] at hd
          split at hd
          · rename_i x s3 heq
            split at heq
            · rename_i s4 hadd
              cases heq
              cases hd
              obtain ⟨_, f2, _, _, _, _, f7⟩ := add_result_frame _ _ _ hadd
              exact ⟨f7, [], by simp [f2], fun c hc => by cases hc⟩
            · cases heq
          · cases hd
      obtain ⟨k1, l0, k2, k3⟩ := key
      refine ⟨g1.trans k1, l0 ++ l, by rw [g2, k2, List.append_assoc], ?_⟩
      intro c hc
      rcases List.mem_append.1 hc with hc | hc
      · exact k3 c hc
      · exact g3 c hc

/-- A call of a primitive takes nothing from the queue; it logs the call, then
completions only. -/
theorem extcall_log {α : Type} (E : Store σ κ) (c : Call) (r : Reply σ κ α)
    (s s1 : State σ κ) (ret : α) (h : extcall E c r s = .ok (ret, s1)) :
    s1.result_queue_head = s.result_queue_head ∧
    ∃ rest, s1.calls = s.calls ++ c :: rest ∧ only_events rest := by
  obtain ⟨_, hr⟩ := extcall_ok E c r s ret s1 h
  obtain ⟨g1, l, g2, g3⟩ := run_actions_log E r.acts _ s1 hr
  exact ⟨g1, l, by simp [g2, entered], g3⟩

theorem extcall_not_pumped {α : Type} (E : Store σ κ) (c : Call) (r : Reply σ κ α)
    (s s1 : State σ κ) (ret : α) (h : extcall E c r s = .ok (ret, s1))
    (hc : fs_callback_log [c] = []) : not_pumped s s1 := by
  obtain ⟨g1, l, g2, g3⟩ := extcall_log E c r s s1 ret h
  refine ⟨g1, ?_⟩
  have : s1.calls = s.calls ++ ([c] ++ l) := by simp [g2]
  rw [this, fs_callback_log_append, fs_callback_log_append, hc,
    fs_callback_log_only_events l g3]
  simp

theorem not_pumped_trans (s s1 s2 : State σ κ) (h1 : not_pumped s s1)
    (h2 : not_pumped s1 s2) : not_pumped s s2 :=
  ⟨h2.1.trans h1.1, h2.2.trans h1.2⟩

/-! ### Read-back -/

theorem is_event_kinds (c : Call) (h : c.is_event = true) :
    c.is_update = false ∧ c.is_close = false ∧ c.is_store_call = false := by
  cases c <;> simp [Call.is_event] at h
  exact ⟨rfl, rfl, rfl⟩

/-- The calls back of the store never mark a latch slot with the bogus kind. -/
theorem run_actions_no_clear (E : Store σ κ) (acts : List (Action κ)) :
    ∀ (s s1 : State σ κ), run_actions E acts s = .ok s1 →
      ∀ j, (s1.last_evt j).id = 0xff → (s.last_evt j).id = 0xff := by
  induction acts with
  | nil =>
    intro s s1 h
    simp only [run_actions, Except.ok.injEq] at h
    subst h
    exact fun _ hj => hj
  | cons a rest ih =>
    intro s s1 h j hj
    simp only [run_actions] at h
    cases hd : do_action E a s with
    | error f => simp [hd] at h
    | ok s2 =>
      simp only [hd] at h
      have h2 := ih s2 s1 h j hj
      cases a with
      | evt id result payload =>
        simp only [do_action, Except.ok.injEq] at hd
        subst hd
        by_cases hji : j = id.toNat
        · subst hji
          simp only [on_fds_event, Function.update_same] at h2
          exact absurd h2.symm (toNat_ne_0xff id)
        · simp only [on_fds_event, Function.update_noteq hji] at h2
          exact h2
      | store callback p_dest p_src length_words =>
        simp only [do_action, fs_store] at hd
        split at hd
        · rename_i x s3 heq
          split at heq
          · rename_i s4 hadd
            cases heq
            cases hd
            obtain ⟨f1, _⟩ := add_result_frame _ _ _ hadd
            rw [f1] at h2
            exact h2
          · cases heq
        · cases hd
      | erase callback p_page_addr num_pages =>
        simp only [do_action, fs_erase] at hd
        split at hd
        · rename_i x s3 heq
          split at heq
          · rename_i s4 hadd
            cases heq
            cases hd
            obtain ⟨f1, _⟩ := add_result_frame _ _ _ hadd
            rw [f1] at h2
            exact h2
          · cases heq
        · cases hd

theorem extcall_no_clear {α : Type} (E : Store σ κ) (c : Call) (r : Reply σ κ α)
    (s s1 : State σ κ) (ret : α) (h : extcall E c r s = .ok (ret, s1)) :
    ∀ j, (s1.last_evt j).id = 0xff → (s.last_evt j).id = 0xff := by
  obtain ⟨_, hr⟩ := extcall_ok E c r s ret s1 h
  have hc := run_actions_no_clear E r.acts (entered c r s) s1 hr
  exact hc

/-- What `api_get_record` does to the adapter when it returns: it takes nothing from
the queue, clears no latch, and logs, besides completions, only its calls of
`fds_record_open` and `fds_record_close`. -/
theorem api_get_record_log (E : Store σ κ) (record_id : Nat) (out out1 : Slots)
    (s s1 : State σ κ) (ret : Nat)
    (h : api_get_record E record_id out s = .ok (ret, out1, s1)) :
    not_pumped s s1 ∧ (∀ j, (s1.last_evt j).id = 0xff → (s.last_evt j).id = 0xff) ∧
    ∃ rest, s1.calls = s.calls ++ rest ∧ ∀ c ∈ rest, c.is_update = false := by
  simp only [api_get_record] at h
  cases hx : extcall E (Call.fds_record_open { record_id := record_id, internal := 0 })
      (E.fds_record_open { record_id := record_id, internal := 0 } s) s with
  | error f => simp [hx] at h
  | ok p =>
    obtain ⟨⟨ret0, desc1, fr⟩, s2⟩ := p
    have hn2 := extcall_not_pumped E _ _ _ s2 _ hx rfl
    have hc2 := extcall_no_clear E _ _ _ s2 _ hx
    obtain ⟨_, l2, hl2, he2⟩ := extcall_log E _ _ _ s2 _ hx
    have hu2 : ∀ c ∈ Call.fds_record_open { record_id := record_id, internal := 0 } :: l2,
        c.is_update = false := by
      intro c hc
      rcases List.mem_cons.1 hc with hc | hc
      · subst hc
        rfl
      · exact (is_event_kinds c (he2 c hc)).1
    simp only [hx] at h
    by_cases hz : ret0 = 0
    · simp only [hz, ne_eq, not_true_eq_false, if_false] at h
      cases hy : extcall E (Call.fds_record_close desc1) (E.fds_record_close desc1 s2) s2 with
      | error f => simp [hy] at h
      | ok q =>
        obtain ⟨ret1, s3⟩ := q
        have hn3 := extcall_not_pumped E _ _ _ s3 _ hy rfl
        have hc3 := extcall_no_clear E _ _ _ s3 _ hy
        obtain ⟨_, l3, hl3, he3⟩ := extcall_log E _ _ _ s3 _ hy
        simp only [hy, Except.ok.injEq, Prod.mk.injEq] at h
        obtain ⟨_, _, rfl⟩ := h
        refine ⟨not_pumped_trans s s2 s3 hn2 hn3, fun j hj => hc2 j (hc3 j hj),
          (Call.fds_record_open { record_id := record_id, internal := 0 } :: l2)
            ++ (Call.fds_record_close desc1 :: l3), ?_, ?_⟩
        · rw [hl3, hl2, List.append_assoc]
        · intro c hc
          rcases List.mem_append.1 hc with hc | hc
          · exact hu2 c hc
          · rcases List.mem_cons.1 hc with hc | hc
            · subst hc
              rfl
            · exact (is_event_kinds c (he3 c hc)).1
    · simp only [hz, ne_eq, not_false_eq_true, if_true, Except.ok.injEq, Prod.mk.injEq] at h
      obtain ⟨_, _, rfl⟩ := h
      exact ⟨hn2, hc2, _, hl2, hu2⟩

/-- C5. Immediate rejection is returned without waiting.  For each waiting call,
if its store primitive returns a nonzero code, the call returns that code and
the state the primitive left, whatever the fuel (so also with none, where any
entry into the wait loop would fail): nothing has been taken from the result
queue and the completion callback has not been called. -/
theorem C5_rejection_returns_without_waiting (E : Store σ κ) (fuel : Nat) (s : State σ κ)
    (record_id file_id record_key data image file_id0 key0 : Nat) (data_len_words : Int)
    (r : Nat) (s2 : State σ κ) (hr : r ≠ 0) :
    (extcall E Call.fds_gc (E.fds_gc (clear_event .FDS_EVT_GC s))
        (clear_event .FDS_EVT_GC s) = .ok (r, s2) →
      api_gc E fuel s = .ok (r, s2) ∧ not_pumped s s2) ∧
    (extcall E (Call.fds_record_delete { record_id := record_id, internal := 0 })
        (E.fds_record_delete { record_id := record_id, internal := 0 }
          (clear_event .FDS_EVT_DEL_RECORD s))
        (clear_event .FDS_EVT_DEL_RECORD s) = .ok (r, s2) →
      api_del_record E fuel record_id s = .ok (r, s2) ∧ not_pumped s s2) ∧
    (extcall E (Call.fds_file_delete file_id)
        (E.fds_file_delete file_id (clear_event .FDS_EVT_DEL_FILE s))
        (clear_event .FDS_EVT_DEL_FILE s) = .ok (r, s2) →
      api_del_file E fuel file_id s = .ok (r, s2) ∧ not_pumped s s2) ∧
    (∀ record : fds_record_t,
      record = { file_id := file_id, key := record_key,
                 p_chunks := [{ p_data := data,
                                length_words := E.length_words_of_int data_len_words }],
                 num_chunks := 1 } →
      extcall E (Call.fds_record_write record)
        (E.fds_record_write record (clear_event .FDS_EVT_WRITE s))
        (clear_event .FDS_EVT_WRITE s) = .ok (r, s2) →
      api_write_record E fuel record_key file_id data data_len_words s = .ok (r, s2) ∧
        not_pumped s s2) ∧
    (∀ (out : Slots) (s1 : State σ κ) (record : fds_record_t),
      api_get_record E record_id
        { file_id := some file_id0, record_key := some key0, record_len := none,
          data := none } s = .ok (0, out, s1) →
      record = { file_id := out.file_id.getD file_id0, key := out.record_key.getD key0,
                 p_chunks := [{ p_data := data,
                                length_words := E.length_words_of_int data_len_words }],
                 num_chunks := 1 } →
      extcall E (Call.fds_record_update { record_id := record_id, internal := 0 } record)
        (E.fds_record_update { record_id := record_id, internal := 0 } record
          (clear_event .FDS_EVT_UPDATE s1))
        (clear_event .FDS_EVT_UPDATE s1) = .ok (r, s2) →
      api_update_record E fuel record_id data data_len_words file_id0 key0 s = .ok (r, s2) ∧
        not_pumped s s2) ∧
    (is_word_aligned image = true →
      extcall E Call.fds_register
        (E.fds_register (clear_event .FDS_EVT_INIT { s with fs_config_p_start_addr := image }))
        (clear_event .FDS_EVT_INIT { s with fs_config_p_start_addr := image }) = .ok (r, s2) →
      api_fds_mount E fuel image s = .ok (r, s2) ∧ not_pumped s s2) ∧
    (is_word_aligned image = true →
      ∀ s3 : State σ κ,
      extcall E Call.fds_register
        (E.fds_register (clear_event .FDS_EVT_INIT { s with fs_config_p_start_addr := image }))
        (clear_event .FDS_EVT_INIT { s with fs_config_p_start_addr := image }) = .ok (0, s3) →
      extcall E Call.fds_init (E.fds_init s3) s3 = .ok (r, s2) →
      api_fds_mount E fuel image s = .ok (r, s2) ∧ not_pumped s s2) := by
  refine ⟨?_, ?_, ?_, ?_, ?_, ?_, ?_⟩
  · intro hx
    have hn := extcall_not_pumped E _ _ _ s2 r hx rfl
    exact ⟨by simp [api_gc, hx, hr], hn⟩
  · intro hx
    have hn := extcall_not_pumped E _ _ _ s2 r hx rfl
    exact ⟨by simp [api_del_record, hx, hr], hn⟩
  · intro hx
    have hn := extcall_not_pumped E _ _ _ s2 r hx rfl
    exact ⟨by simp [api_del_file, hx, hr], hn⟩
  · intro record hrec hx
    subst hrec
    have hn := extcall_not_pumped E _ _ _ s2 r hx rfl
    exact ⟨by simp [api_write_record, hx, hr], hn⟩
  · intro out s1 record hget hrec hx
    subst hrec
    have hn := extcall_not_pumped E _ _ _ s2 r hx rfl
    have hg := (api_get_record_log E record_id _ out s s1 0 hget).1
    exact ⟨by simp [api_update_record, hget, hx, hr], not_pumped_trans s s1 s2 hg hn⟩
  · intro hal hx
    have hn := extcall_not_pumped E _ _ _ s2 r hx rfl
    exact ⟨by simp [api_fds_mount, hal, hx, hr], hn⟩
  · intro hal s3 hx3 hx
    have hn3 := extcall_not_pumped E _ _ _ s3 0 hx3 rfl
    have hn := extcall_not_pumped E _ _ _ s2 r hx rfl
    exact ⟨by simp [api_fds_mount, hal, hx3, hx, hr], not_pumped_trans _ s3 s2 hn3 hn⟩

/-- A run of C5: the store refuses to delete record 0 with code 10; with no fuel
at all `api_del_record` returns 10. -/
theorem C5_rejection_returns_without_waiting_witness :
    (10 : Nat) ≠ 0 ∧ api_del_record demo_store 0 0 demo_state = .ok (10, demo_rejected) ∧
    not_pumped demo_state demo_rejected :=
  ⟨by decide,
    (C5_rejection_returns_without_waiting demo_store 0 demo_state 0 0 0 0 0 0 0 0 10
      demo_rejected (by decide)).2.1 rfl⟩

/-! ### Mount -/

theorem is_word_aligned_iff (p : Nat) : is_word_aligned p = true ↔ p % 4 = 0 := by
  have h := Nat.and_pow_two_sub_one_eq_mod p 2
  simp only [show (2 : Nat) ^ 2 - 1 = 3 from rfl, show (2 : Nat) ^ 2 = 4 from rfl] at h
  simp [is_word_aligned, h]

/-- C6. An image address that is not a multiple of 4: `api_fds_mount` returns
`FDS_ERR_UNALIGNED_ADDR` and the state is the one it was called in, so no store
primitive was called (the call log is unchanged) and `fs_config.p_start_addr`,
the latch table and the result queue are untouched. -/
theorem C6_mount_unaligned (E : Store σ κ) (fuel : Nat) (image : Nat) (s : State σ κ)
    (h : image % 4 ≠ 0) :
    api_fds_mount E fuel image s = .ok (E.FDS_ERR_UNALIGNED_ADDR, s) ∧
    ∀ s1 ret, api_fds_mount E fuel image s = .ok (ret, s1) →
      ret = E.FDS_ERR_UNALIGNED_ADDR ∧ s1.calls = s.calls ∧
      s1.fs_config_p_start_addr = s.fs_config_p_start_addr ∧ s1.last_evt = s.last_evt ∧
      s1.result_queue = s.result_queue ∧ s1.result_queue_head = s.result_queue_head ∧
      s1.result_queue_tail = s.result_queue_tail ∧ s1.fds = s.fds := by
  have hal : is_word_aligned image = false := by
    cases hb : is_word_aligned image with
    | false => rfl
    | true => exact absurd ((is_word_aligned_iff image).1 hb) h
  have heq : api_fds_mount E fuel image s = .ok (E.FDS_ERR_UNALIGNED_ADDR, s) := by
    simp [api_fds_mount, hal]
  refine ⟨heq, ?_⟩
  intro s1 ret h1
  rw [heq] at h1
  simp only [Except.ok.injEq, Prod.mk.injEq] at h1
  obtain ⟨rfl, rfl⟩ := h1
  exact ⟨rfl, rfl, rfl, rfl, rfl, rfl, rfl, rfl⟩

/-- C6 at the image address 4097. -/
theorem C6_mount_unaligned_witness :
    api_fds_mount demo_store 0 4097 demo_state
        = .ok (demo_store.FDS_ERR_UNALIGNED_ADDR, demo_state) ∧
    ∀ s1 ret, api_fds_mount demo_store 0 4097 demo_state = .ok (ret, s1) →
      ret = demo_store.FDS_ERR_UNALIGNED_ADDR ∧ s1.calls = demo_state.calls ∧
      s1.fs_config_p_start_addr = demo_state.fs_config_p_start_addr ∧
      s1.last_evt = demo_state.last_evt ∧
      s1.result_queue = demo_state.result_queue ∧
      s1.result_queue_head = demo_state.result_queue_head ∧
      s1.result_queue_tail = demo_state.result_queue_tail ∧ s1.fds = demo_state.fds :=
  C6_mount_unaligned demo_store 0 4097 demo_state (by decide)

/-! ### Update after a failed read-back -/

/-- C7. When the metadata read-back returns a nonzero code, `api_update_record`
returns that code and the state the read-back left, whatever the fuel: since
entry `fds_record_update` has not been called, no latch slot has been cleared
and nothing has been pumped from the result queue. -/
theorem C7_update_readback_failure (E : Store σ κ) (fuel : Nat) (s : State σ κ)
    (record_id data file_id0 key0 : Nat) (data_len_words : Int) (r : Nat) (out : Slots)
    (s1 : State σ κ)
    (hget : api_get_record E record_id
      { file_id := some file_id0, record_key := some key0, record_len := none, data := none }
      s = .ok (r, out, s1))
    (hr : r ≠ 0) :
    api_update_record E fuel record_id data data_len_words file_id0 key0 s = .ok (r, s1) ∧
    (∃ rest, s1.calls = s.calls ++ rest ∧ ∀ c ∈ rest, c.is_update = false) ∧
    (∀ j, (s1.last_evt j).id = 0xff → (s.last_evt j).id = 0xff) ∧
    not_pumped s s1 := by
  obtain ⟨h1, h2, h3⟩ := api_get_record_log E record_id _ out s s1 r hget
  refine ⟨?_, h3, h2, h1⟩
  simp [api_update_record, hget, hr]

/-- A run of C7: record 0 is unknown to the store, the read-back returns 10, and so
does `api_update_record`, with no fuel at all. -/
theorem C7_update_readback_failure_witness :
    api_update_record demo_store 0 0 8192 2 0 0 demo_state = .ok (10, demo_not_found) ∧
    (∃ rest, demo_not_found.calls = demo_state.calls ++ rest ∧
      ∀ c ∈ rest, c.is_update = false) ∧
    (∀ j, (demo_not_found.last_evt j).id = 0xff → (demo_state.last_evt j).id = 0xff) ∧
    not_pumped demo_state demo_not_found :=
  C7_update_readback_failure demo_store 0 demo_state 0 8192 0 0 2 10
    { file_id := some 0, record_key := some 0, record_len := none, data := none }
    demo_not_found rfl (by decide)

/-! ### Reading a record -/

/-- C8. `api_get_record`, for every choice of output pointers passed non-null.
If `fds_record_open` succeeds, every slot that is present receives the field of
the opened record, a null slot stays null, `fds_record_close` is called on the
descriptor that `fds_record_open` left and its code is the value returned.  If
`fds_record_open` fails with code r, the call returns r, the slots are as they
were and `fds_record_close` is not called. -/
theorem C8_get_record_outputs (E : Store σ κ) (record_id : Nat) (out : Slots)
    (s : State σ κ) :
    (∀ (desc1 : fds_record_desc_t) (fr : fds_flash_record_t) (s1 s2 : State σ κ) (rc : Nat),
      extcall E (Call.fds_record_open { record_id := record_id, internal := 0 })
        (E.fds_record_open { record_id := record_id, internal := 0 } s) s
        = .ok ((0, desc1, fr), s1) →
      extcall E (Call.fds_record_close desc1) (E.fds_record_close desc1 s1) s1
        = .ok (rc, s2) →
      ∃ out1, api_get_record E record_id out s = .ok (rc, out1, s2) ∧
        out1.file_id = out.file_id.map (fun _ => fr.file_id) ∧
        out1.record_key = out.record_key.map (fun _ => fr.record_key) ∧
        out1.record_len = out.record_len.map (fun _ => fr.length_words) ∧
        out1.data = out.data.map (fun _ => fr.p_data) ∧
        ∃ l1 l2, s2.calls = s.calls ++
            Call.fds_record_open { record_id := record_id, internal := 0 } :: l1 ++
            Call.fds_record_close desc1 :: l2 ∧
          only_events l1 ∧ only_events l2) ∧
    (∀ (r : Nat) (desc1 : fds_record_desc_t) (fr : fds_flash_record_t) (s1 : State σ κ),
      extcall E (Call.fds_record_open { record_id := record_id, internal := 0 })
        (E.fds_record_open { record_id := record_id, internal := 0 } s) s
        = .ok ((r, desc1, fr), s1) →
      r ≠ 0 →
      api_get_record E record_id out s = .ok (r, out, s1) ∧
        ∃ l1, s1.calls = s.calls ++
            Call.fds_record_open { record_id := record_id, internal := 0 } :: l1 ∧
          only_events l1 ∧ ∀ c ∈ s1.calls, c.is_close = true → c ∈ s.calls) := by
  constructor
  · intro desc1 fr s1 s2 rc hx hy
    obtain ⟨_, l1, hl1, he1⟩ := extcall_log E _ _ _ s1 _ hx
    obtain ⟨_, l2, hl2, he2⟩ := extcall_log E _ _ _ s2 _ hy
    refine ⟨{ file_id := out.file_id.map (fun _ => fr.file_id)
              record_key := out.record_key.map (fun _ => fr.record_key)
              record_len := out.record_len.map (fun _ => fr.length_words)
              data := out.data.map (fun _ => fr.p_data) }, ?_, rfl, rfl, rfl, rfl, l1, l2, ?_,
      he1, he2⟩
    · obtain ⟨a, b, c, d⟩ := out
      cases a <;> cases b <;> cases c <;> cases d <;> simp [api_get_record, hx, hy]
    · rw [hl2, hl1]
  · intro r desc1 fr s1 hx hr
    obtain ⟨_, l1, hl1, he1⟩ := extcall_log E _ _ _ s1 _ hx
    refine ⟨by simp [api_get_record, hx, hr], l1, hl1, he1, ?_⟩
    intro c hc hclose
    rw [hl1] at hc
    rcases List.mem_append.1 hc with hc | hc
    · exact hc
    · rcases List.mem_cons.1 hc with hc | hc
      · subst hc
        cases hclose
      · have := (is_event_kinds c (he1 c hc)).2.1
        rw [this] at hclose
        cases hclose

/-- Runs of C8 on the store of the concrete runs: record 1 is read with the key and
the data pointer omitted; record 0 is unknown. -/
theorem C8_get_record_outputs_witness :
    api_get_record demo_store 1
        { file_id := some 0, record_key := none, record_len := some 0, data := none }
        demo_state
      = .ok (0, { file_id := some 10, record_key := none, record_len := some 2,
                  data := none }, demo_read) ∧
    api_get_record demo_store 0
        { file_id := some 0, record_key := none, record_len := some 0, data := none }
        demo_state
      = .ok (10, { file_id := some 0, record_key := none, record_len := some 0,
                   data := none }, demo_not_found) ∧
    ∃ l1, demo_not_found.calls = demo_state.calls ++
        Call.fds_record_open { record_id := 0, internal := 0 } :: l1 ∧
      only_events l1 ∧ ∀ c ∈ demo_not_found.calls, c.is_close = true → c ∈ demo_state.calls :=
  ⟨rfl,
    (C8_get_record_outputs demo_store 0
      { file_id := some 0, record_key := none, record_len := some 0, data := none }
      demo_state).2 10 { record_id := 0, internal := 0 }
      { file_id := 0, record_key := 0, length_words := 0, p_data := 0 } demo_not_found rfl
      (by decide)⟩

/-! ### The simulated media -/

theorem read32_lt (m : Nat → Nat) (h : bytes_ok m) (a : Nat) : read32 m a < 4294967296 := by
  have h0 := h a
  have h1 := h (a + 1)
  have h2 := h (a + 2)
  have h3 := h (a + 3)
  unfold read32
  omega

theorem read32_write32_same (m : Nat → Nat) (a v : Nat) (hv : v < 4294967296) :
    read32 (write32 m a v) a = v := by
  have e1 : ¬ (a + 1 = a) := by omega
  have e2 : ¬ (a + 2 = a) := by omega
  have e3 : ¬ (a + 3 = a) := by omega
  have e4 : ¬ (a + 2 = a + 1) := by omega
  have e5 : ¬ (a + 3 = a + 1) := by omega
  have e6 : ¬ (a + 3 = a + 2) := by omega
  simp only [read32, write32, if_true, if_false, e1, e2, e3, e4, e5, e6]
  omega

theorem write32_outside (m : Nat → Nat) (a v b : Nat) (h : b < a ∨ a + 4 ≤ b) :
    write32 m a v b = m b := by
  have e0 : ¬ (b = a) := by omega
  have e1 : ¬ (b = a + 1) := by omega
  have e2 : ¬ (b = a + 2) := by omega
  have e3 : ¬ (b = a + 3) := by omega
  simp only [write32, if_false, e0, e1, e2, e3]

theorem read32_write32_outside (m : Nat → Nat) (a v c : Nat) (h : c + 4 ≤ a ∨ a + 4 ≤ c) :
    read32 (write32 m a v) c = read32 m c := by
  simp only [read32]
  rw [write32_outside m a v c (by omega), write32_outside m a v (c + 1) (by omega),
    write32_outside m a v (c + 2) (by omega), write32_outside m a v (c + 3) (by omega)]

theorem bytes_ok_write32 (m : Nat → Nat) (a v : Nat) (h : bytes_ok m) :
    bytes_ok (write32 m a v) := by
  intro b
  have hb := h b
  simp only [write32]
  split
  · omega
  · split
    · omega
    · split
      · omega
      · split
        · omega
        · exact hb

theorem bytes_ok_fs_store_loop (p_dest p_src : Nat) (n : Nat) (m : Nat → Nat)
    (h : bytes_ok m) : bytes_ok (fs_store_loop p_dest p_src n m) := by
  induction n with
  | zero => exact h
  | succ n ih => exact bytes_ok_write32 _ _ _ ih

/-- The loop of `fs_store` writes inside the `n` destination words only. -/
theorem fs_store_loop_outside (p_dest p_src : Nat) (m : Nat → Nat) (n : Nat) :
    ∀ b, (b < p_dest ∨ p_dest + 4 * n ≤ b) → fs_store_loop p_dest p_src n m b = m b := by
  induction n with
  | zero => intro b _; rfl
  | succ n ih =>
    intro b hb
    simp only [fs_store_loop]
    rw [write32_outside _ _ _ b (by omega)]
    exact ih b (by omega)

theorem read32_congr (m m1 : Nat → Nat) (a : Nat)
    (h : ∀ b, a ≤ b → b < a + 4 → m1 b = m b) : read32 m1 a = read32 m a := by
  simp only [read32]
  rw [h a (by omega) (by omega), h (a + 1) (by omega) (by omega),
    h (a + 2) (by omega) (by omega), h (a + 3) (by omega) (by omega)]

theorem bytes_ok_demo_mem : bytes_ok demo_mem := by
  intro a
  unfold demo_mem
  split
  · decide
  · split
    · decide
    · split
      · decide
      · split <;> decide

/-- C10, as the code has it.  `fs_erase` first sets every byte of the
`4 * FDS_PHY_PAGE_SIZE * num_pages` bytes from the page address on (whole pages
of 4096 bytes) to 0xFF and leaves every other byte unchanged.  It then calls
`add_result(0)` once: with fewer than 255 codes pending the code 0 joins the
queue and `FS_SUCCESS` is returned; with 255 pending the assertion of
`add_result` fails and the call does not return. -/
theorem C10_fs_erase (E : Store σ κ) (callback : Option κ) (p_page_addr num_pages : Nat)
    (s : State σ κ) (hidx : indices_ok s) :
    (pending_count s = 255 →
      fs_erase E callback p_page_addr num_pages s = .error Fault.assert_failed) ∧
    (pending_count s ≠ 255 →
      ∃ s1, fs_erase E callback p_page_addr num_pages s = .ok (E.FS_SUCCESS, s1) ∧
        pending s1 = pending s ++ [0] ∧
        (∀ b, p_page_addr ≤ b → b < p_page_addr + 4096 * num_pages → s1.mem b = 0xff) ∧
        (∀ b, (b < p_page_addr ∨ p_page_addr + 4096 * num_pages ≤ b) → s1.mem b = s.mem b) ∧
        s1.fs_callback = callback) := by
  constructor
  · intro hc
    have := add_result_full 0
      ({ s with mem := memset s.mem p_page_addr 0xff (4 * FDS_PHY_PAGE_SIZE * num_pages),
                fs_callback := callback } : State σ κ) hidx hc
    simp only [fs_erase, this]
  · intro hc
    obtain ⟨s1, h1, h2, _, _, _, h6, _, _, h9, _, _⟩ := add_result_ok 0
      ({ s with mem := memset s.mem p_page_addr 0xff (4 * FDS_PHY_PAGE_SIZE * num_pages),
                fs_callback := callback } : State σ κ) hidx hc
    have hmem : s1.mem = memset s.mem p_page_addr 0xff (4 * FDS_PHY_PAGE_SIZE * num_pages) := h9
    refine ⟨s1, by simp only [fs_erase, h1], h2, ?_, ?_, h6⟩
    · intro b hb1 hb2
      have hb3 : b < p_page_addr + 4 * FDS_PHY_PAGE_SIZE * num_pages := by
        unfold FDS_PHY_PAGE_SIZE
        omega
      rw [hmem]
      simp [memset, hb1, hb3]
    · intro b hb
      have hb3 : ¬ (p_page_addr ≤ b ∧ b < p_page_addr + 4 * FDS_PHY_PAGE_SIZE * num_pages) := by
        unfold FDS_PHY_PAGE_SIZE
        omega
      rw [hmem]
      simp only [memset, if_neg hb3]

/-- C10 as stated fails where 255 codes are pending: `fs_erase` erases, then the
assertion of `add_result` fails; `FS_SUCCESS` is not returned. -/
theorem C10_fs_erase_full_queue :
    indices_ok demo_full ∧ pending_count demo_full = 255 ∧
    fs_erase demo_store (some ()) 4096 1 demo_full = .error Fault.assert_failed ∧
    ¬ ∃ s1, fs_erase demo_store (some ()) 4096 1 demo_full
      = .ok (demo_store.FS_SUCCESS, s1) := by
  refine ⟨by unfold indices_ok demo_full demo_state RESULT_QUEUE_SIZE; decide, rfl, rfl, ?_⟩
  rintro ⟨s1, h⟩
  have he : fs_erase demo_store (some ()) 4096 1 demo_full = .error Fault.assert_failed := rfl
  rw [he] at h
  cases h

/-- A run of C10: one page erased at address 4096. -/
theorem C10_fs_erase_witness :
    (pending_count demo_state = 255 →
      fs_erase demo_store (some ()) 4096 1 demo_state = .error Fault.assert_failed) ∧
    (pending_count demo_state ≠ 255 →
      ∃ s1, fs_erase demo_store (some ()) 4096 1 demo_state
          = .ok (demo_store.FS_SUCCESS, s1) ∧
        pending s1 = pending demo_state ++ [0] ∧
        (∀ b, 4096 ≤ b → b < 4096 + 4096 * 1 → s1.mem b = 0xff) ∧
        (∀ b, (b < 4096 ∨ 4096 + 4096 * 1 ≤ b) → s1.mem b = demo_state.mem b) ∧
        s1.fs_callback = some ()) :=
  C10_fs_erase demo_store (some ()) 4096 1 demo_state
    (by unfold indices_ok demo_state RESULT_QUEUE_SIZE; decide)

/-! ### One step of the pump -/

/-- A passing `add_result`, the indices being valid, appends the code to the
pending codes: none of them is overwritten. -/
theorem add_result_inv (r : Nat) (s s1 : State σ κ) (h : indices_ok s)
    (ha : add_result r s = .ok s1) :
    pending s1 = pending s ++ [r] ∧ indices_ok s1 ∧
    pending_count s1 = pending_count s + 1 ∧ pending_count s ≠ 255 := by
  by_cases hc : pending_count s = 255
  · rw [add_result_full r s h hc] at ha
    cases ha
  · obtain ⟨s2, h1, h2, h3, h4, _⟩ := add_result_ok r s h hc
    rw [h1] at ha
    cases ha
    exact ⟨h2, h4, h3, hc⟩

/-- One call back of the store, the indices being valid: the pending codes stay,
followed by what the call enqueued. -/
theorem do_action_pending (E : Store σ κ) (a : Action κ) (s s1 : State σ κ)
    (h : indices_ok s) (hd : do_action E a s = .ok s1) :
    indices_ok s1 ∧ ∃ added, pending s1 = pending s ++ added ∧
      (a.enqueues = false → added = []) := by
  cases a with
  | evt id result payload =>
    simp only [do_action, Except.ok.injEq] at hd
    subst hd
    exact ⟨h, [], by simp [pending, pending_count, on_fds_event], fun _ => rfl⟩
  | store callback p_dest p_src length_words =>
    simp only [do_action, fs_store] at hd
    split at hd
    · rename_i x s3 heq
      split at heq
      · rename_i s4 hadd
        cases heq
        cases hd
        obtain ⟨g1, g2, _⟩ := add_result_inv 0 _ _ (by exact h) hadd
        exact ⟨g2, [0], g1, fun hq => by simp [Action.enqueues] at hq⟩
      · cases heq
    · cases hd
  | erase callback p_page_addr num_pages =>
    simp only [do_action, fs_erase] at hd
    split at hd
    · rename_i x s3 heq
      split at heq
      · rename_i s4 hadd
        cases heq
        cases hd
        obtain ⟨g1, g2, _⟩ := add_result_inv 0 _ _ (by exact h) hadd
        exact ⟨g2, [0], g1, fun hq => by simp [Action.enqueues] at hq⟩
      · cases heq
    · cases hd

theorem run_actions_pending (E : Store σ κ) (acts : List (Action κ)) :
    ∀ (s s1 : State σ κ), indices_ok s → run_actions E acts s = .ok s1 →
      indices_ok s1 ∧ ∃ added, pending s1 = pending s ++ added ∧
        ((∀ a ∈ acts, a.enqueues = false) → added = []) := by
  induction acts with
  | nil =>
    intro s s1 h hr
    simp only [run_actions, Except.ok.injEq] at hr
    subst hr
    exact ⟨h, [], by simp, fun _ => rfl⟩
  | cons a rest ih =>
    intro s s1 h hr
    simp only [run_actions] at hr
    cases hd : do_action E a s with
    | error f => simp [hd] at hr
    | ok s2 =>
      simp only [hd] at hr
      obtain ⟨g1, l1, g2, g3⟩ := do_action_pending E a s s2 h hd
      obtain ⟨k1, l2, k2, k3⟩ := ih s2 s1 g1 hr
      refine ⟨k1, l1 ++ l2, by rw [k2, g2, List.append_assoc], ?_⟩
      intro hq
      rw [g3 (hq a (List.mem_cons_self a rest)),
        k3 (fun b hb => hq b (List.mem_cons_of_mem a hb))]
      rfl

/-- One `pump_event` on a non-empty queue that returns: it returns true, the code
at the head, the oldest pending one, has gone to the callback, once, and the
other pending codes stay, followed by what the callback enqueued. -/
theorem pump_event_deliver (E : Store σ κ) (s s1 : State σ κ) (b : Bool)
    (h : indices_ok s) (hne : s.result_queue_tail ≠ s.result_queue_head)
    (hp : pump_event E s = .ok (b, s1)) :
    b = true ∧ indices_ok s1 ∧
    fs_callback_log s1.calls
      = fs_callback_log s.calls ++ [s.result_queue s.result_queue_head] ∧
    ∃ rest added, pending s = s.result_queue s.result_queue_head :: rest ∧
      pending s1 = rest ++ added ∧ (callback_enqueues_nothing E → added = []) := by
  cases hcb : s.fs_callback with
  | none => simp [pump_event, hne, hcb] at hp
  | some cb =>
    rw [pump_event_step E s cb hcb hne] at hp
    cases hr : run_actions E
        (E.fs_handler cb (s.result_queue s.result_queue_head) (head_advanced s)).acts
        (entered (Call.fs_callback (s.result_queue s.result_queue_head))
          (E.fs_handler cb (s.result_queue s.result_queue_head) (head_advanced s))
          (head_advanced s)) with
    | error f => simp [hr] at hp
    | ok s2 =>
      simp only [hr, Except.ok.injEq, Prod.mk.injEq] at hp
      obtain ⟨rfl, rfl⟩ := hp
      have hidx : indices_ok (entered (Call.fs_callback (s.result_queue s.result_queue_head))
          (E.fs_handler cb (s.result_queue s.result_queue_head) (head_advanced s))
          (head_advanced s)) :=
        ⟨Nat.mod_lt _ (by decide), h.2⟩
      obtain ⟨g1, added, g2, g3⟩ := run_actions_pending E _ _ s2 hidx hr
      obtain ⟨_, l, k2, k3⟩ := run_actions_log E _ _ s2 hr
      refine ⟨rfl, g1, ?_, pending (head_advanced s), added, pending_advance_head s h hne,
        ?_, fun hq => g3 (fun a ha => hq _ _ _ a ha)⟩
      · rw [k2, fs_callback_log_append, fs_callback_log_only_events l k3]
        simp [entered, head_advanced, fs_callback_log_append, fs_callback_log]
      · rw [g2]
        rfl

/-- C11. One `pump_event`, the indices being valid.  On an empty queue it returns
false and the state is the one it was called in, so the callback was not called
and head and tail are as they were.  On a non-empty queue, whenever it returns
it returns true, the callback has been called exactly once more, with the
oldest pending code, and the other pending codes stay pending in their order
(followed by the codes the callback enqueued, if any); and it does return, with
that outcome, when the callback pointer is set and the callback enqueues
nothing. -/
theorem C11_single_dequeue_step (E : Store σ κ) (s : State σ κ) (h : indices_ok s) :
    (s.result_queue_tail = s.result_queue_head → pump_event E s = .ok (false, s)) ∧
    (s.result_queue_tail ≠ s.result_queue_head →
      (∀ b s1, pump_event E s = .ok (b, s1) →
        b = true ∧
        fs_callback_log s1.calls
          = fs_callback_log s.calls ++ [s.result_queue s.result_queue_head] ∧
        ∃ rest added, pending s = s.result_queue s.result_queue_head :: rest ∧
          pending s1 = rest ++ added ∧ (callback_enqueues_nothing E → added = [])) ∧
      (∀ cb, s.fs_callback = some cb → callback_enqueues_nothing E →
        ∃ s1, pump_event E s = .ok (true, s1) ∧
          pending s = s.result_queue s.result_queue_head :: pending s1 ∧
          pending_count s1 = pending_count s - 1 ∧
          fs_callback_log s1.calls
            = fs_callback_log s.calls ++ [s.result_queue s.result_queue_head])) := by
  refine ⟨pump_event_empty E s, fun hne => ⟨?_, ?_⟩⟩
  · intro b s1 hp
    obtain ⟨h1, _, h3, h4⟩ := pump_event_deliver E s s1 b h hne hp
    exact ⟨h1, h3, h4⟩
  · intro cb hcb hq
    obtain ⟨s1, h1, h2, _, _, h5, _⟩ := pump_event_quiet E s cb h hcb hq hne
    refine ⟨s1, h1, h2, ?_, h5⟩
    have hl := congrArg List.length h2
    rw [pending_length, List.length_cons, pending_length] at hl
    omega

/-- A run of C11: the code 7 is pending at index 254. -/
theorem C11_single_dequeue_step_witness :
    (demo_pending.result_queue_tail = demo_pending.result_queue_head →
      pump_event demo_store demo_pending = .ok (false, demo_pending)) ∧
    (demo_pending.result_queue_tail ≠ demo_pending.result_queue_head →
      (∀ b s1, pump_event demo_store demo_pending = .ok (b, s1) →
        b = true ∧
        fs_callback_log s1.calls
          = fs_callback_log demo_pending.calls
            ++ [demo_pending.result_queue demo_pending.result_queue_head] ∧
        ∃ rest added,
          pending demo_pending
            = demo_pending.result_queue demo_pending.result_queue_head :: rest ∧
          pending s1 = rest ++ added ∧ (callback_enqueues_nothing demo_store → added = [])) ∧
      (∀ cb, demo_pending.fs_callback = some cb → callback_enqueues_nothing demo_store →
        ∃ s1, pump_event demo_store demo_pending = .ok (true, s1) ∧
          pending demo_pending
            = demo_pending.result_queue demo_pending.result_queue_head :: pending s1 ∧
          pending_count s1 = pending_count demo_pending - 1 ∧
          fs_callback_log s1.calls
            = fs_callback_log demo_pending.calls
              ++ [demo_pending.result_queue demo_pending.result_queue_head])) :=
  C11_single_dequeue_step demo_store demo_pending
    (by unfold indices_ok demo_pending demo_state RESULT_QUEUE_SIZE; decide)

/-- C12. Latch slots are independent and a record overwrites.  For kinds k ≠ k1 and
every code, recording a completion of kind k1 or clearing the slot of k1 leaves
what `await_fds_event(k)` answers unchanged; recording a completion of kind k
with code c makes `await_fds_event(k)` answer true with c, whatever the slot
held. -/
theorem C12_latch_slots_independent (k k1 : fds_evt_id_t) (c x : Nat) (pl : List Nat)
    (s : State σ κ) (hne : k ≠ k1) :
    await_fds_event k x (on_fds_event { id := k1.toNat, result := c, payload := pl } s)
      = await_fds_event k x s ∧
    await_fds_event k x (clear_event k1 s) = await_fds_event k x s ∧
    await_fds_event k x (on_fds_event { id := k.toNat, result := c, payload := pl } s)
      = (true, c) := by
  have hn : k.toNat ≠ k1.toNat := fun e => hne (toNat_injective k k1 e)
  refine ⟨?_, ?_, ?_⟩
  · simp only [await_fds_event, on_fds_event, Function.update_noteq hn]
  · simp only [await_fds_event, clear_event, Function.update_noteq hn]
  · simp [await_fds_event, on_fds_event]

/-- C12 on the state that holds a stale garbage collection completion: a write
completion and a clear of the write slot leave it, a new one overwrites it. -/
theorem C12_latch_slots_independent_witness :
    await_fds_event .FDS_EVT_GC 0
        (on_fds_event { id := fds_evt_id_t.FDS_EVT_WRITE.toNat, result := 3, payload := [] }
          demo_stale)
      = await_fds_event .FDS_EVT_GC 0 demo_stale ∧
    await_fds_event .FDS_EVT_GC 0 (clear_event .FDS_EVT_WRITE demo_stale)
      = await_fds_event .FDS_EVT_GC 0 demo_stale ∧
    await_fds_event .FDS_EVT_GC 0
        (on_fds_event { id := fds_evt_id_t.FDS_EVT_GC.toNat, result := 3, payload := [] }
          demo_stale)
      = (true, 3) :=
  C12_latch_slots_independent .FDS_EVT_GC .FDS_EVT_WRITE 3 0 [] demo_stale (by decide)

/-! ### The wait loop on an empty queue -/

theorem pump_and_wait_loop_stuck (E : Store σ κ) (k : fds_evt_id_t) (s : State σ κ)
    (hl : latch_empty k s) (he : s.result_queue_tail = s.result_queue_head) (fuel : Nat) :
    ∀ init, pump_and_wait_loop E k fuel init s = .error Fault.out_of_fuel := by
  induction fuel with
  | zero => intro init; rfl
  | succ fuel ih =>
    intro init
    simp only [pump_and_wait_loop, hl init, pump_event_empty E s he]
    exact ih init

/-- C19. With the latch of the kind empty and the result queue empty, one iteration
of the loop of `pump_and_wait` (`await_fds_event` false, `pump_event` false)
leaves the state as it was, and `pump_and_wait` returns for no number of
iterations. -/
theorem C19_no_progress_on_empty_queue (E : Store σ κ) (k : fds_evt_id_t) (s : State σ κ)
    (hl : latch_empty k s) (he : s.result_queue_tail = s.result_queue_head) :
    (∀ x, await_fds_event k x s = (false, x)) ∧
    pump_event E s = .ok (false, s) ∧
    (∀ fuel init, pump_and_wait_loop E k (fuel + 1) init s
      = pump_and_wait_loop E k fuel init s) ∧
    (∀ fuel, pump_and_wait E fuel k s = .error Fault.out_of_fuel) ∧
    ∀ fuel v s1, pump_and_wait E fuel k s ≠ .ok (v, s1) := by
  refine ⟨hl, pump_event_empty E s he, ?_, ?_, ?_⟩
  · intro fuel init
    simp only [pump_and_wait_loop, hl init, pump_event_empty E s he]
  · intro fuel
    exact pump_and_wait_loop_stuck E k s hl he fuel _
  · intro fuel v s1 h
    have := pump_and_wait_loop_stuck E k s hl he fuel 0xFFFFFFFF
    unfold pump_and_wait at h
    rw [this] at h
    cases h

/-- C19 on the empty queue of `demo_state`, waiting for a garbage collection. -/
theorem C19_no_progress_on_empty_queue_witness :
    (∀ x, await_fds_event .FDS_EVT_GC x demo_state = (false, x)) ∧
    pump_event demo_store demo_state = .ok (false, demo_state) ∧
    (∀ fuel init, pump_and_wait_loop demo_store .FDS_EVT_GC (fuel + 1) init demo_state
      = pump_and_wait_loop demo_store .FDS_EVT_GC fuel init demo_state) ∧
    (∀ fuel, pump_and_wait demo_store fuel .FDS_EVT_GC demo_state
      = .error Fault.out_of_fuel) ∧
    ∀ fuel v s1, pump_and_wait demo_store fuel .FDS_EVT_GC demo_state ≠ .ok (v, s1) :=
  C19_no_progress_on_empty_queue demo_store .FDS_EVT_GC demo_state (fun _ => rfl) rfl

/-! ### What the wait loop consumes -/

theorem pump_times_succ (E : Store σ κ) (n : Nat) (s s1 : State σ κ) (b : Bool)
    (hp : pump_event E s = .ok (b, s1)) : pump_times E (n + 1) s = pump_times E n s1 := by
  simp only [pump_times, hp]

/-- If the `j`-th delivery is the first after which the latch is filled, the loop
returns right after it. -/
theorem pump_and_wait_loop_returns (E : Store σ κ) (k : fds_evt_id_t) (j : Nat) :
    ∀ (s t : State σ κ) (fuel init : Nat), pump_times E j s = .ok t →
      (∀ i, i < j → ∀ ti, pump_times E i s = .ok ti → latch_empty k ti) →
      (t.last_evt k.toNat).id = k.toNat → j < fuel →
      pump_and_wait_loop E k fuel init s = .ok ((t.last_evt k.toNat).result, t) := by
  induction j with
  | zero =>
    intro s t fuel init ht _ hid hf
    simp only [pump_times, Except.ok.injEq] at ht
    subst ht
    obtain ⟨f, rfl⟩ : ∃ f, fuel = f + 1 := ⟨fuel - 1, by omega⟩
    simp [pump_and_wait_loop, await_fds_event, hid]
  | succ j ih =>
    intro s t fuel init ht hprev hid hf
    obtain ⟨f, rfl⟩ : ∃ f, fuel = f + 1 := ⟨fuel - 1, by omega⟩
    have hl : latch_empty k s := hprev 0 (by omega) s rfl
    cases hp : pump_event E s with
    | error e => simp [pump_times, hp] at ht
    | ok p =>
      obtain ⟨b, s1⟩ := p
      rw [pump_times_succ E j s s1 b hp] at ht
      simp only [pump_and_wait_loop, hl init, hp]
      refine ih s1 t f init ht ?_ hid (by omega)
      intro i hi ti hti
      refine hprev (i + 1) (by omega) ti ?_
      rw [pump_times_succ E i s s1 b hp]
      exact hti

/-- Whenever the loop returns, it has made some number `j` of calls of `pump_event`,
each with the latch empty and the queue non-empty, and stopped. -/
theorem pump_and_wait_loop_steps (E : Store σ κ) (k : fds_evt_id_t) (fuel : Nat) :
    ∀ (init : Nat) (s s1 : State σ κ) (v : Nat),
      pump_and_wait_loop E k fuel init s = .ok (v, s1) →
      ∃ j, j < fuel ∧ pump_times E j s = .ok s1 ∧
        ∀ i, i < j → ∀ ti, pump_times E i s = .ok ti →
          latch_empty k ti ∧ ti.result_queue_tail ≠ ti.result_queue_head := by
  induction fuel with
  | zero =>
    intro init s s1 v h
    simp [pump_and_wait_loop] at h
  | succ fuel ih =>
    intro init s s1 v h
    by_cases hid : (s.last_evt k.toNat).id = k.toNat
    · simp only [pump_and_wait_loop, await_fds_event, hid, ne_eq, not_true_eq_false,
        if_false, Except.ok.injEq, Prod.mk.injEq] at h
      obtain ⟨_, rfl⟩ := h
      exact ⟨0, by omega, rfl, fun i hi => by omega⟩
    · have hl : latch_empty k s := (latch_empty_iff k s).2 hid
      have hne : s.result_queue_tail ≠ s.result_queue_head := by
        intro he
        rw [pump_and_wait_loop_stuck E k s hl he (fuel + 1) init] at h
        cases h
      simp only [pump_and_wait_loop, hl init] at h
      cases hp : pump_event E s with
      | error f => simp [hp] at h
      | ok p =>
        obtain ⟨b, s2⟩ := p
        simp only [hp] at h
        obtain ⟨j, hj, h1, h2⟩ := ih init s2 s1 v h
        refine ⟨j + 1, by omega, by rw [pump_times_succ E j s s2 b hp]; exact h1, ?_⟩
        intro i hi ti hti
        cases i with
        | zero =>
          simp only [pump_times, Except.ok.injEq] at hti
          subst hti
          exact ⟨hl, hne⟩
        | succ i =>
          rw [pump_times_succ E i s s2 b hp] at hti
          exact h2 i (by omega) ti hti

/-- Deliveries are first in, first out: `j` calls of `pump_event`, each on a
non-empty queue, hand the `j` oldest codes to the callback in order and leave
the others pending in order (what the callbacks enqueued queues up behind). -/
theorem pump_times_fifo (E : Store σ κ) (j : Nat) :
    ∀ (s t : State σ κ), indices_ok s → pump_times E j s = .ok t →
      (∀ i, i < j → ∀ ti, pump_times E i s = .ok ti →
        ti.result_queue_tail ≠ ti.result_queue_head) →
      indices_ok t ∧ ∃ delivered added, delivered.length = j ∧
        fs_callback_log t.calls = fs_callback_log s.calls ++ delivered ∧
        pending s ++ added = delivered ++ pending t ∧
        (callback_enqueues_nothing E → added = []) := by
  induction j with
  | zero =>
    intro s t h ht _
    simp only [pump_times, Except.ok.injEq] at ht
    subst ht
    exact ⟨h, [], [], rfl, by simp, by simp, fun _ => rfl⟩
  | succ j ih =>
    intro s t h ht hne
    have hne0 := hne 0 (by omega) s rfl
    cases hp : pump_event E s with
    | error e => simp [pump_times, hp] at ht
    | ok p =>
      obtain ⟨b, s1⟩ := p
      rw [pump_times_succ E j s s1 b hp] at ht
      obtain ⟨_, g2, g3, rest, added1, g4, g5, g6⟩ := pump_event_deliver E s s1 b h hne0 hp
      obtain ⟨k1, delivered, added2, k2, k3, k4, k5⟩ := ih s1 t g2 ht (by
        intro i hi ti hti
        refine hne (i + 1) (by omega) ti ?_
        rw [pump_times_succ E i s s1 b hp]
        exact hti)
      refine ⟨k1, s.result_queue s.result_queue_head :: delivered, added1 ++ added2,
        by simp [k2], ?_, ?_, ?_⟩
      · rw [k3, g3]
        simp
      · rw [g4, List.cons_append, List.cons_append, ← k4, g5]
        simp
      · intro hq
        rw [g6 hq, k5 hq]
        rfl

/-- C13. `pump_and_wait` consumes only what it needs, the indices being valid.
(1) With the latch of the kind filled on entry it returns that code and the
state it was called in: nothing is dequeued.  (2) If the `j`-th call of
`pump_event` is the first to leave the latch filled, it returns right after it,
with the latched code.  (3) Whenever it returns, it has made exactly `j`
deliveries for some `j`, each with the latch still empty and the queue
non-empty; the codes delivered are the `j` oldest, in order, and the others
remain pending in order (behind them, any code the callbacks enqueued). -/
theorem C13_pump_and_wait_consumes_what_it_needs (E : Store σ κ) (k : fds_evt_id_t)
    (s : State σ κ) (h : indices_ok s) :
    ((s.last_evt k.toNat).id = k.toNat → ∀ fuel, 0 < fuel →
      pump_and_wait E fuel k s = .ok ((s.last_evt k.toNat).result, s)) ∧
    (∀ j t, pump_times E j s = .ok t →
      (∀ i, i < j → ∀ ti, pump_times E i s = .ok ti → latch_empty k ti) →
      (t.last_evt k.toNat).id = k.toNat → ∀ fuel, j < fuel →
      pump_and_wait E fuel k s = .ok ((t.last_evt k.toNat).result, t)) ∧
    (∀ fuel v s1, pump_and_wait E fuel k s = .ok (v, s1) →
      ∃ delivered added,
        pump_times E delivered.length s = .ok s1 ∧
        (∀ i, i < delivered.length → ∀ ti, pump_times E i s = .ok ti →
          latch_empty k ti ∧ ti.result_queue_tail ≠ ti.result_queue_head) ∧
        fs_callback_log s1.calls = fs_callback_log s.calls ++ delivered ∧
        pending s ++ added = delivered ++ pending s1 ∧
        (callback_enqueues_nothing E → added = [])) := by
  refine ⟨?_, ?_, ?_⟩
  · intro hid fuel hf
    exact pump_and_wait_loop_returns E k 0 s s fuel _ rfl (fun i hi => by omega) hid hf
  · intro j t ht hprev hid fuel hf
    exact pump_and_wait_loop_returns E k j s t fuel _ ht hprev hid hf
  · intro fuel v s1 hret
    obtain ⟨j, _, h1, h2⟩ := pump_and_wait_loop_steps E k fuel _ s s1 v hret
    obtain ⟨_, delivered, added, g1, g2, g3, g4⟩ :=
      pump_times_fifo E j s s1 h h1 (fun i hi ti hti => (h2 i hi ti hti).2)
    subst g1
    exact ⟨delivered, added, h1, h2, g2, g3, g4⟩

/-- A run of C13: the codes 7 and 8 are pending; the delivery of 7 fills the latch
of the garbage collection, `pump_and_wait` returns 7 and 8 stays pending. -/
theorem C13_pump_and_wait_consumes_what_it_needs_witness :
    pump_and_wait demo_store 5 .FDS_EVT_GC demo_two = .ok (7, demo_two_done) ∧
    pending demo_two = [7, 8] ∧ pending demo_two_done = [8] ∧
    ∃ delivered added,
      pump_times demo_store delivered.length demo_two = .ok demo_two_done ∧
      (∀ i, i < delivered.length → ∀ ti, pump_times demo_store i demo_two = .ok ti →
        latch_empty .FDS_EVT_GC ti ∧ ti.result_queue_tail ≠ ti.result_queue_head) ∧
      fs_callback_log demo_two_done.calls = fs_callback_log demo_two.calls ++ delivered ∧
      pending demo_two ++ added = delivered ++ pending demo_two_done ∧
      (callback_enqueues_nothing demo_store → added = []) :=
  ⟨rfl, rfl, rfl,
    (C13_pump_and_wait_consumes_what_it_needs demo_store .FDS_EVT_GC demo_two
      (by unfold indices_ok demo_two demo_state RESULT_QUEUE_SIZE; decide)).2.2 5 7
      demo_two_done rfl⟩

/-! ### The latch table from program start -/

/-- What holds of a latch slot that is filled, `done` being the steps made on the
table since program start: it holds the completion last recorded for its kind,
or it is the slot of `FDS_EVT_INIT`, still zero-initialised and untouched. -/
theorem latch_from_init (done ops : List LatchOp) : ∀ (s : State σ κ),
    (∀ k : fds_evt_id_t, (s.last_evt k.toNat).id = k.toNat →
      last_recorded k.toNat s.calls = some (s.last_evt k.toNat).result ∨
      (k = .FDS_EVT_INIT ∧ (s.last_evt k.toNat).result = 0 ∧
        ∀ op ∈ done, op.touches .FDS_EVT_INIT = false)) →
    ∀ k : fds_evt_id_t, ((apply_latch_ops ops s).last_evt k.toNat).id = k.toNat →
      last_recorded k.toNat (apply_latch_ops ops s).calls
        = some ((apply_latch_ops ops s).last_evt k.toNat).result ∨
      (k = .FDS_EVT_INIT ∧ ((apply_latch_ops ops s).last_evt k.toNat).result = 0 ∧
        ∀ op ∈ done ++ ops, op.touches .FDS_EVT_INIT = false) := by
  induction ops generalizing done with
  | nil =>
    intro s h k hid
    simpa using h k hid
  | cons op rest ih =>
    intro s h k hid
    have key : ∀ s1 : State σ κ,
        (∀ k : fds_evt_id_t, (s1.last_evt k.toNat).id = k.toNat →
          last_recorded k.toNat s1.calls = some (s1.last_evt k.toNat).result ∨
          (k = .FDS_EVT_INIT ∧ (s1.last_evt k.toNat).result = 0 ∧
            ∀ o ∈ done ++ [op], o.touches .FDS_EVT_INIT = false)) →
        ((apply_latch_ops rest s1).last_evt k.toNat).id = k.toNat →
        last_recorded k.toNat (apply_latch_ops rest s1).calls
          = some ((apply_latch_ops rest s1).last_evt k.toNat).result ∨
        (k = .FDS_EVT_INIT ∧ ((apply_latch_ops rest s1).last_evt k.toNat).result = 0 ∧
          ∀ o ∈ done ++ op :: rest, o.touches .FDS_EVT_INIT = false) := by
      intro s1 h1 hid1
      have := ih (done ++ [op]) s1 h1 k hid1
      simpa using this
    cases op with
    | clear j =>
      refine key (clear_event j s) ?_ hid
      intro k1 hk1
      by_cases hj : k1 = j
      · subst hj
        exact absurd hk1 (clear_event_empty k1 s)
      · have hn : k1.toNat ≠ j.toNat := fun e => hj (toNat_injective k1 j e)
        simp only [clear_event, Function.update_noteq hn] at hk1 ⊢
        rcases h k1 hk1 with h2 | ⟨h2, h3, h4⟩
        · exact Or.inl h2
        · refine Or.inr ⟨h2, h3, ?_⟩
          intro o ho
          rcases List.mem_append.1 ho with ho | ho
          · exact h4 o ho
          · simp only [List.mem_singleton] at ho
            subst ho
            subst h2
            simp [LatchOp.touches, hj, Ne.symm hj]
    | record j r pl =>
      refine key (on_fds_event { id := j.toNat, result := r, payload := pl } s) ?_ hid
      intro k1 hk1
      by_cases hj : k1 = j
      · subst hj
        left
        simp [on_fds_event, last_recorded_append, last_recorded]
      · have hn : k1.toNat ≠ j.toNat := fun e => hj (toNat_injective k1 j e)
        simp only [on_fds_event, Function.update_noteq hn] at hk1 ⊢
        rcases h k1 hk1 with h2 | ⟨h2, h3, h4⟩
        · left
          rw [last_recorded_append]
          simp only [last_recorded, if_neg (Ne.symm hn)]
          exact h2
        · refine Or.inr ⟨h2, h3, ?_⟩
          intro o ho
          rcases List.mem_append.1 ho with ho | ho
          · exact h4 o ho
          · simp only [List.mem_singleton] at ho
            subst ho
            subst h2
            simp [LatchOp.touches, hj, Ne.symm hj]

/-- C14, as the code has it.  In every state reached from the zero-initialised
state by `clear_event` and `on_fds_event`, a latch slot is empty, or holds the
completion last recorded for its kind, or, for `FDS_EVT_INIT` alone (the kind
numbered 0) and only as long as no step has touched its slot, is the
zero-initialised slot, which `await_fds_event` reads as a completion with code
0.  So before any completion of a kind has been recorded, `await_fds_event`
answers false for every kind other than `FDS_EVT_INIT`, and for `FDS_EVT_INIT`
once `clear_event(FDS_EVT_INIT)` has been called. -/
theorem C14_latch_slots_from_init (fds : σ) (mem : Nat → Nat) (p_start_addr : Nat)
    (ops : List LatchOp) (k : fds_evt_id_t) :
    (latch_empty k (apply_latch_ops ops (State.init fds mem p_start_addr : State σ κ)) ∨
      (∃ r, (∀ x, await_fds_event k x
            (apply_latch_ops ops (State.init fds mem p_start_addr : State σ κ)) = (true, r)) ∧
          last_recorded k.toNat
            (apply_latch_ops ops (State.init fds mem p_start_addr : State σ κ)).calls
            = some r) ∨
      (k = .FDS_EVT_INIT ∧ (∀ op ∈ ops, op.touches .FDS_EVT_INIT = false) ∧
        ∀ x, await_fds_event k x
          (apply_latch_ops ops (State.init fds mem p_start_addr : State σ κ)) = (true, 0))) ∧
    (last_recorded k.toNat
        (apply_latch_ops ops (State.init fds mem p_start_addr : State σ κ)).calls = none →
      (k ≠ .FDS_EVT_INIT ∨ ∃ op ∈ ops, op.touches .FDS_EVT_INIT = true) →
      latch_empty k (apply_latch_ops ops (State.init fds mem p_start_addr : State σ κ))) := by
  have hinit : ∀ k : fds_evt_id_t,
      (((State.init fds mem p_start_addr : State σ κ)).last_evt k.toNat).id = k.toNat →
      last_recorded k.toNat (State.init fds mem p_start_addr : State σ κ).calls
        = some ((State.init fds mem p_start_addr : State σ κ).last_evt k.toNat).result ∨
      (k = .FDS_EVT_INIT ∧
        ((State.init fds mem p_start_addr : State σ κ).last_evt k.toNat).result = 0 ∧
        ∀ op ∈ ([] : List LatchOp), op.touches .FDS_EVT_INIT = false) := by
    intro k1 hk1
    right
    refine ⟨?_, rfl, fun op hop => by cases hop⟩
    cases k1 <;> first | rfl | (simp [State.init, fds_evt_id_t.toNat] at hk1)
  have h := latch_from_init [] ops (State.init fds mem p_start_addr : State σ κ) hinit k
  simp only [List.nil_append] at h
  by_cases hid :
      ((apply_latch_ops ops (State.init fds mem p_start_addr : State σ κ)).last_evt k.toNat).id
        = k.toNat
  · have haw : ∀ x, await_fds_event k x
        (apply_latch_ops ops (State.init fds mem p_start_addr : State σ κ))
        = (true, ((apply_latch_ops ops
            (State.init fds mem p_start_addr : State σ κ)).last_evt k.toNat).result) := by
      intro x
      simp [await_fds_event, hid]
    rcases h hid with h1 | ⟨h1, h2, h3⟩
    · refine ⟨Or.inr (Or.inl ⟨_, haw, h1⟩), ?_⟩
      intro hnone
      rw [h1] at hnone
      cases hnone
    · refine ⟨Or.inr (Or.inr ⟨h1, h3, ?_⟩), ?_⟩
      · intro x
        rw [haw x, h2]
      · intro _ hor
        rcases hor with hk | ⟨op, hop, htouch⟩
        · exact absurd h1 hk
        · rw [h3 op hop] at htouch
          cases htouch
  · have hl := (latch_empty_iff k _).2 hid
    exact ⟨Or.inl hl, fun _ _ => hl⟩

/-- C14 as stated fails for `FDS_EVT_INIT`: in the zero-initialised state, before
any completion has been recorded, `await_fds_event(FDS_EVT_INIT)` answers true,
with the code 0; for the other five kinds it answers false. -/
theorem C14_init_slot_reads_filled :
    demo_init.calls = [] ∧
    last_recorded fds_evt_id_t.FDS_EVT_INIT.toNat demo_init.calls = none ∧
    await_fds_event .FDS_EVT_INIT 0xFFFFFFFF demo_init = (true, 0) ∧
    pump_and_wait demo_store 1 .FDS_EVT_INIT demo_init = .ok (0, demo_init) ∧
    await_fds_event .FDS_EVT_WRITE 0xFFFFFFFF demo_init = (false, 0xFFFFFFFF) :=
  ⟨rfl, rfl, rfl, rfl, rfl⟩

/-- C14 after `clear_event(FDS_EVT_INIT)`, for the slot of `FDS_EVT_INIT`. -/
theorem C14_latch_slots_from_init_witness :
    (latch_empty .FDS_EVT_INIT
        (apply_latch_ops [LatchOp.clear .FDS_EVT_INIT]
          (State.init 0 (fun _ => 0xff) 0 : State Nat Unit)) ∨
      (∃ r, (∀ x, await_fds_event .FDS_EVT_INIT x
            (apply_latch_ops [LatchOp.clear .FDS_EVT_INIT]
              (State.init 0 (fun _ => 0xff) 0 : State Nat Unit)) = (true, r)) ∧
          last_recorded fds_evt_id_t.FDS_EVT_INIT.toNat
            (apply_latch_ops [LatchOp.clear .FDS_EVT_INIT]
              (State.init 0 (fun _ => 0xff) 0 : State Nat Unit)).calls
            = some r) ∨
      (fds_evt_id_t.FDS_EVT_INIT = .FDS_EVT_INIT ∧
        (∀ op ∈ [LatchOp.clear .FDS_EVT_INIT], op.touches .FDS_EVT_INIT = false) ∧
        ∀ x, await_fds_event .FDS_EVT_INIT x
          (apply_latch_ops [LatchOp.clear .FDS_EVT_INIT]
            (State.init 0 (fun _ => 0xff) 0 : State Nat Unit)) = (true, 0))) ∧
    (last_recorded fds_evt_id_t.FDS_EVT_INIT.toNat
        (apply_latch_ops [LatchOp.clear .FDS_EVT_INIT]
          (State.init 0 (fun _ => 0xff) 0 : State Nat Unit)).calls = none →
      (fds_evt_id_t.FDS_EVT_INIT ≠ .FDS_EVT_INIT ∨
        ∃ op ∈ [LatchOp.clear .FDS_EVT_INIT], op.touches .FDS_EVT_INIT = true) →
      latch_empty .FDS_EVT_INIT
        (apply_latch_ops [LatchOp.clear .FDS_EVT_INIT]
          (State.init 0 (fun _ => 0xff) 0 : State Nat Unit))) :=
  C14_latch_slots_from_init 0 (fun _ => 0xff) 0 [LatchOp.clear .FDS_EVT_INIT] .FDS_EVT_INIT

/-! ### Update -/

/-- C15. When the read-back succeeds (`fds_record_open` returns 0 and the header
fields `fr`, `fds_record_close` returns 0), `api_update_record` calls
`fds_record_update` with a descriptor that carries the caller's record id and a
record that has the file id and the key of `fr` and one chunk (`num_chunks` 1)
with the caller's data pointer and `len`, the caller's length as the field
`length_words` holds it; the latch of `FDS_EVT_UPDATE` is empty in the state
the primitive is called in; a nonzero code of the primitive is returned as it
is, and on acceptance the value returned is that of
`pump_and_wait(FDS_EVT_UPDATE)`.  The primitive is called with no other
arguments: replacing it by any function that agrees with it on these arguments,
in states with that latch empty, changes nothing. -/
theorem C15_update_passes_identity (E : Store σ κ) (fuel : Nat) (s : State σ κ)
    (record_id data file_id0 key0 len : Nat) (data_len_words : Int)
    (desc1 : fds_record_desc_t) (fr : fds_flash_record_t) (s0 s1 : State σ κ)
    (hlen : E.length_words_of_int data_len_words = len)
    (hopen : extcall E (Call.fds_record_open { record_id := record_id, internal := 0 })
      (E.fds_record_open { record_id := record_id, internal := 0 } s) s
      = .ok ((0, desc1, fr), s0))
    (hclose : extcall E (Call.fds_record_close desc1) (E.fds_record_close desc1 s0) s0
      = .ok (0, s1)) :
    latch_empty .FDS_EVT_UPDATE (clear_event .FDS_EVT_UPDATE s1) ∧
    (∀ ret s3,
      extcall E
        (Call.fds_record_update { record_id := record_id, internal := 0 }
          { file_id := fr.file_id, key := fr.record_key,
            p_chunks := [{ p_data := data, length_words := len }], num_chunks := 1 })
        (E.fds_record_update { record_id := record_id, internal := 0 }
          { file_id := fr.file_id, key := fr.record_key,
            p_chunks := [{ p_data := data, length_words := len }], num_chunks := 1 }
          (clear_event .FDS_EVT_UPDATE s1))
        (clear_event .FDS_EVT_UPDATE s1) = .ok (ret, s3) →
      (∃ rest, s3.calls = s1.calls ++
        Call.fds_record_update { record_id := record_id, internal := 0 }
          { file_id := fr.file_id, key := fr.record_key,
            p_chunks := [{ p_data := data, length_words := len }], num_chunks := 1 }
          :: rest ∧ only_events rest) ∧
      (ret ≠ 0 →
        api_update_record E fuel record_id data data_len_words file_id0 key0 s
          = .ok (ret, s3)) ∧
      (ret = 0 →
        api_update_record E fuel record_id data data_len_words file_id0 key0 s
          = pump_and_wait E fuel .FDS_EVT_UPDATE s3)) ∧
    (∀ g,
      (∀ t, latch_empty .FDS_EVT_UPDATE t →
        g { record_id := record_id, internal := 0 }
            { file_id := fr.file_id, key := fr.record_key,
              p_chunks := [{ p_data := data, length_words := len }], num_chunks := 1 } t
          = E.fds_record_update { record_id := record_id, internal := 0 }
            { file_id := fr.file_id, key := fr.record_key,
              p_chunks := [{ p_data := data, length_words := len }], num_chunks := 1 } t) →
      api_update_record { E with fds_record_update := g } fuel record_id data data_len_words
          file_id0 key0 s
        = api_update_record E fuel record_id data data_len_words file_id0 key0 s) := by
  subst hlen
  have hget : api_get_record E record_id
      { file_id := some file_id0, record_key := some key0, record_len := none, data := none } s
      = .ok (0, { file_id := some fr.file_id, record_key := some fr.record_key,
                  record_len := none, data := none }, s1) := by
    simp [api_get_record, hopen, hclose]
  refine ⟨(latch_empty_iff _ _).2 (clear_event_empty .FDS_EVT_UPDATE s1), ?_, ?_⟩
  · intro ret s3 hx
    obtain ⟨_, rest, h2, h3⟩ := extcall_log E _ _ _ s3 ret hx
    refine ⟨⟨rest, h2, h3⟩, ?_, ?_⟩
    · intro hret
      simp [api_update_record, hget, hx, hret]
    · intro hret
      subst hret
      simp [api_update_record, hget, hx]
  · intro g hg
    have h1 := hg _ ((latch_empty_iff _ _).2 (clear_event_empty .FDS_EVT_UPDATE s1))
    have hget1 : api_get_record { E with fds_record_update := g } record_id
        { file_id := some file_id0, record_key := some key0, record_len := none, data := none }
        s = .ok (0, { file_id := some fr.file_id, record_key := some fr.record_key,
                      record_len := none, data := none }, s1) := by
      rw [api_get_record_any E { E with fds_record_update := g } rfl rfl]
      exact hget
    simp only [api_update_record, hget, hget1, h1, Option.getD_some,
      extcall_any E { E with fds_record_update := g },
      pump_and_wait_any E { E with fds_record_update := g } rfl]

/-- A run of C15: record 1 of the store of the concrete runs (file 10, key 1) is
updated with 2 words of data at 8192. -/
theorem C15_update_passes_identity_witness :
    api_update_record demo_store 3 1 8192 2 0 0 demo_state = .ok (0, demo_updated) ∧
    (∃ rest, demo_updated.calls = demo_read.calls ++
      Call.fds_record_update { record_id := 1, internal := 0 }
        { file_id := 10, key := 1, p_chunks := [{ p_data := 8192, length_words := 2 }],
          num_chunks := 1 } :: rest) ∧
    latch_empty .FDS_EVT_UPDATE (clear_event .FDS_EVT_UPDATE demo_read) :=
  ⟨rfl, ⟨_, rfl⟩,
    (C15_update_passes_identity demo_store 3 demo_state 1 8192 0 0 2 2
      { record_id := 1, internal := 1 }
      { file_id := 10, record_key := 1, length_words := 2, p_data := 4108 }
      (entered (Call.fds_record_open { record_id := 1, internal := 0 })
        (demo_store.fds_record_open { record_id := 1, internal := 0 } demo_state) demo_state)
      demo_read rfl rfl rfl).1⟩

/-! ### Traversal -/

theorem entry_cb_log_append (l1 l2 : List Call) :
    entry_cb_log (l1 ++ l2) = entry_cb_log l1 ++ entry_cb_log l2 := by
  induction l1 with
  | nil => rfl
  | cons c rest ih => cases c <;> simp [entry_cb_log, ih]

theorem iterate_log_append (l1 l2 : List Call) :
    iterate_log (l1 ++ l2) = iterate_log l1 ++ iterate_log l2 := by
  induction l1 with
  | nil => rfl
  | cons c rest ih => cases c <;> simp [iterate_log, ih]

theorem logs_only_events (l : List Call) (h : only_events l) :
    entry_cb_log l = [] ∧ iterate_log l = [] := by
  induction l with
  | nil => exact ⟨rfl, rfl⟩
  | cons c rest ih =>
    have hc := h c (List.mem_cons_self c rest)
    have hr := ih (fun d hd => h d (List.mem_cons_of_mem c hd))
    cases c <;> simp [Call.is_event] at hc
    simp [entry_cb_log, iterate_log, hr.1, hr.2]

/-- The loop of `api_fds_dir` against a store that reports the records `ids` and
then stops. -/
theorem api_fds_dir_loop_spec (E : Store σ κ) (ids : List Nat) :
    ∀ (tok : fds_find_token_t) (s s2 : State σ κ), iterate_answers E ids tok s s2 →
      (∀ fuel, ids.length < fuel → api_fds_dir_loop E fuel tok s = .ok s2) ∧
      entry_cb_log s2.calls = entry_cb_log s.calls ++ ids ∧ not_pumped s s2 ∧
      ∃ toks, iterate_log s2.calls = iterate_log s.calls ++ tok :: toks ∧
        toks.length = ids.length := by
  induction ids with
  | nil =>
    intro tok s s2 h
    obtain ⟨ret, desc, tok1, hx, hret⟩ := h
    obtain ⟨_, l, h2, h3⟩ := extcall_log E _ _ _ s2 _ hx
    have hn := extcall_not_pumped E _ _ _ s2 _ hx rfl
    have hl := logs_only_events l h3
    have hc : s2.calls = s.calls ++ ([Call.fds_record_iterate tok] ++ l) := by simp [h2]
    refine ⟨?_, ?_, hn, [], ?_, rfl⟩
    · intro fuel hf
      obtain ⟨f, rfl⟩ : ∃ f, fuel = f + 1 := ⟨fuel - 1, by simp at hf; omega⟩
      simp [api_fds_dir_loop, hx, hret]
    · rw [hc, entry_cb_log_append, entry_cb_log_append, hl.1]
      simp [entry_cb_log]
    · rw [hc, iterate_log_append, iterate_log_append, hl.2]
      simp [iterate_log]
  | cons id ids ih =>
    intro tok s s2 h
    obtain ⟨desc, tok1, s1, hx, hid, hrest⟩ := h
    obtain ⟨_, l, h2, h3⟩ := extcall_log E _ _ _ s1 _ hx
    have hn := extcall_not_pumped E _ _ _ s1 _ hx rfl
    have hl := logs_only_events l h3
    have hc : s1.calls = s.calls ++ ([Call.fds_record_iterate tok] ++ l) := by simp [h2]
    obtain ⟨g1, g2, g3, toks, g4, g5⟩ := ih tok1 _ s2 hrest
    refine ⟨?_, ?_, ?_, tok1 :: toks, ?_, by simp [g5]⟩
    · intro fuel hf
      obtain ⟨f, rfl⟩ : ∃ f, fuel = f + 1 := ⟨fuel - 1, by simp at hf; omega⟩
      simp only [api_fds_dir_loop, hx, if_true, hid]
      exact g1 f (by simp at hf; omega)
    · rw [g2]
      simp only [entry_cb_log_append, hc, hl.1]
      simp [entry_cb_log]
    · refine not_pumped_trans s _ s2 ?_ g3
      refine ⟨hn.1, ?_⟩
      show fs_callback_log (s1.calls ++ [Call.entry_cb id]) = fs_callback_log s.calls
      rw [fs_callback_log_append, hn.2]
      simp [fs_callback_log]
    · rw [g4]
      simp only [iterate_log_append, hc, hl.2]
      simp [iterate_log]

/-- C16. `api_fds_dir` against a store whose `fds_record_iterate`, called first with
the zeroed token, returns `FDS_SUCCESS` on exactly the first m calls, reporting
the record ids `ids`, and another code on call m + 1: the call returns 0 (given
fuel for m + 1 iterations), `entry_cb` has been called exactly m times, with
`ids` in this order (not at all when m = 0), `fds_record_iterate` m + 1 times,
the first time with the zeroed token, nothing has been taken from the result
queue and the completion callback has not been called. -/
theorem C16_dir_visits_matches (E : Store σ κ) (s s2 : State σ κ) (ids : List Nat)
    (hrun : iterate_answers E ids { p_addr := 0, page := 0 } s s2) :
    (∀ fuel, ids.length < fuel → api_fds_dir E fuel s = .ok (0, s2)) ∧
    entry_cb_log s2.calls = entry_cb_log s.calls ++ ids ∧
    (ids = [] → entry_cb_log s2.calls = entry_cb_log s.calls) ∧
    not_pumped s s2 ∧
    ∃ toks, iterate_log s2.calls
        = iterate_log s.calls ++ { p_addr := 0, page := 0 } :: toks ∧
      toks.length = ids.length := by
  obtain ⟨h1, h2, h3, h4⟩ := api_fds_dir_loop_spec E ids _ s s2 hrun
  refine ⟨?_, h2, ?_, h3, h4⟩
  · intro fuel hf
    simp only [api_fds_dir, h1 fuel hf]
  · intro he
    rw [h2, he]
    simp

/-- A run of C16: the store of the concrete runs reports the records 1 and 2. -/
theorem C16_dir_visits_matches_witness :
    (∀ fuel, [1, 2].length < fuel → api_fds_dir demo_store fuel demo_state
      = .ok (0, demo_dir_done)) ∧
    entry_cb_log demo_dir_done.calls = entry_cb_log demo_state.calls ++ [1, 2] ∧
    (([1, 2] : List Nat) = [] → entry_cb_log demo_dir_done.calls
      = entry_cb_log demo_state.calls) ∧
    not_pumped demo_state demo_dir_done ∧
    ∃ toks, iterate_log demo_dir_done.calls
        = iterate_log demo_state.calls ++ { p_addr := 0, page := 0 } :: toks ∧
      toks.length = [1, 2].length :=
  C16_dir_visits_matches demo_store demo_state demo_dir_done [1, 2]
    ⟨_, _, _, rfl, rfl, ⟨_, _, _, rfl, rfl, ⟨_, _, _, rfl, by decide⟩⟩⟩

/-! ### The queue from program start -/

/-- A run of queue steps from valid indices: the indices stay valid, and the codes
that were pending or have been added since are, in order, among the codes
delivered since followed by the pending ones; they are exactly these when the
callback enqueues nothing. -/
theorem run_queue_ops_inv (E : Store σ κ) (ops : List QueueOp) :
    ∀ (s0 s : State σ κ), indices_ok s0 → run_queue_ops E ops s0 = .ok s →
      indices_ok s ∧ ∃ delivered,
        fs_callback_log s.calls = fs_callback_log s0.calls ++ delivered ∧
        List.Sublist (pending s0 ++ added_codes ops) (delivered ++ pending s) ∧
        (callback_enqueues_nothing E →
          pending s0 ++ added_codes ops = delivered ++ pending s) := by
  induction ops with
  | nil =>
    intro s0 s h hr
    simp only [run_queue_ops, Except.ok.injEq] at hr
    subst hr
    exact ⟨h, [], by simp, by simp [added_codes], fun _ => by simp [added_codes]⟩
  | cons op rest ih =>
    intro s0 s h hr
    cases op with
    | add r =>
      simp only [run_queue_ops] at hr
      cases ha : add_result r s0 with
      | error f => simp [ha] at hr
      | ok s1 =>
        simp only [ha] at hr
        obtain ⟨g1, g2, _⟩ := add_result_inv r s0 s1 h ha
        obtain ⟨_, f2, _⟩ := add_result_frame r s0 s1 ha
        obtain ⟨k1, delivered, k2, k3, k4⟩ := ih s1 s g2 hr
        refine ⟨k1, delivered, by rw [k2, f2], ?_, ?_⟩
        · rw [g1] at k3
          simpa [added_codes] using k3
        · intro hq
          have := k4 hq
          rw [g1] at this
          simpa [added_codes] using this
    | pump =>
      simp only [run_queue_ops] at hr
      cases hp : pump_event E s0 with
      | error f => simp [hp] at hr
      | ok p =>
        obtain ⟨b, s1⟩ := p
        simp only [hp] at hr
        by_cases he : s0.result_queue_tail = s0.result_queue_head
        · rw [pump_event_empty E s0 he] at hp
          simp only [Except.ok.injEq, Prod.mk.injEq] at hp
          obtain ⟨_, rfl⟩ := hp
          obtain ⟨k1, delivered, k2, k3, k4⟩ := ih s0 s h hr
          exact ⟨k1, delivered, k2, by simpa [added_codes] using k3,
            fun hq => by simpa [added_codes] using k4 hq⟩
        · obtain ⟨_, g2, g3, tl, added, g4, g5, g6⟩ := pump_event_deliver E s0 s1 b h he hp
          obtain ⟨k1, delivered, k2, k3, k4⟩ := ih s1 s g2 hr
          refine ⟨k1, s0.result_queue s0.result_queue_head :: delivered, ?_, ?_, ?_⟩
          · rw [k2, g3]
            simp
          · rw [g5] at k3
            rw [g4]
            simp only [added_codes, List.cons_append]
            refine List.Sublist.cons₂ _ ?_
            refine List.Sublist.trans ?_ k3
            rw [List.append_assoc]
            refine List.Sublist.append_left ?_ tl
            exact List.sublist_append_right added (added_codes rest)
          · intro hq
            have := k4 hq
            rw [g5, g6 hq] at this
            rw [g4]
            simp only [added_codes, List.cons_append]
            rw [← this]
            simp

/-- C17. The queue index invariant.  In every state reached from a state with head
and tail at 0 by `add_result` calls that pass their assertion and by
`pump_event` calls: head and tail are below 256, so `result_queue[head]` and
`result_queue[tail]` are in bounds; the pending codes number
`(tail - head) mod 256`, at most 255; the codes added are, in order, among the
codes delivered so far followed by the pending ones, and are exactly these when
the callback enqueues nothing; and a further `add_result` that passes leaves
every pending code in place and appends the new one. -/
theorem C17_queue_index_invariant (E : Store σ κ) (s0 s : State σ κ) (ops : List QueueOp)
    (hhead : s0.result_queue_head = 0) (htail : s0.result_queue_tail = 0)
    (hrun : run_queue_ops E ops s0 = .ok s) :
    s.result_queue_head < 256 ∧ s.result_queue_tail < 256 ∧
    (pending s).length = (s.result_queue_tail + 256 - s.result_queue_head) % 256 ∧
    (pending s).length ≤ 255 ∧
    (∃ delivered, fs_callback_log s.calls = fs_callback_log s0.calls ++ delivered ∧
      List.Sublist (added_codes ops) (delivered ++ pending s) ∧
      (callback_enqueues_nothing E → added_codes ops = delivered ++ pending s)) ∧
    (∀ r s1, add_result r s = .ok s1 →
      pending s1 = pending s ++ [r] ∧ s1.result_queue_head < 256 ∧
      s1.result_queue_tail < 256 ∧ (pending s).length < 255) := by
  have h0 : indices_ok s0 := by
    unfold indices_ok RESULT_QUEUE_SIZE
    omega
  have hp0 : pending s0 = [] := by
    have : pending_count s0 = 0 := (pending_count_eq_zero_iff s0 h0).2 (by omega)
    simp [pending, this]
  obtain ⟨h1, delivered, h2, h3, h4⟩ := run_queue_ops_inv E ops s0 s h0 hrun
  rw [hp0, List.nil_append] at h3 h4
  have hlt := pending_count_lt s
  refine ⟨h1.1, h1.2, pending_length s, ?_, ⟨delivered, h2, h3, h4⟩, ?_⟩
  · rw [pending_length]
    omega
  · intro r s1 ha
    obtain ⟨g1, g2, _, g4⟩ := add_result_inv r s s1 h1 ha
    refine ⟨g1, g2.1, g2.2, ?_⟩
    rw [pending_length]
    omega

/-- A run of C17: two codes are added, one is pumped, a third is added. -/
theorem C17_queue_index_invariant_witness :
    ∃ s, run_queue_ops demo_store [QueueOp.add 7, QueueOp.add 8, QueueOp.pump, QueueOp.add 9]
        demo_zero = .ok s ∧
      pending s = [8, 9] ∧
      s.result_queue_head < 256 ∧ s.result_queue_tail < 256 ∧
      (pending s).length = (s.result_queue_tail + 256 - s.result_queue_head) % 256 ∧
      (pending s).length ≤ 255 ∧
      (∃ delivered, fs_callback_log s.calls = fs_callback_log demo_zero.calls ++ delivered ∧
        List.Sublist
          (added_codes [QueueOp.add 7, QueueOp.add 8, QueueOp.pump, QueueOp.add 9])
          (delivered ++ pending s) ∧
        (callback_enqueues_nothing demo_store →
          added_codes [QueueOp.add 7, QueueOp.add 8, QueueOp.pump, QueueOp.add 9]
            = delivered ++ pending s)) ∧
      (∀ r s1, add_result r s = .ok s1 →
        pending s1 = pending s ++ [r] ∧ s1.result_queue_head < 256 ∧
        s1.result_queue_tail < 256 ∧ (pending s).length < 255) :=
  ⟨_, rfl, rfl,
    C17_queue_index_invariant demo_store demo_zero _
      [QueueOp.add 7, QueueOp.add 8, QueueOp.pump, QueueOp.add 9] rfl rfl rfl⟩

/-! ### The memory after `fs_store` and `fs_erase` -/

theorem fs_store_mem (E : Store σ κ) (callback : Option κ) (p_dest p_src n : Nat)
    (s s1 : State σ κ) (r : Nat) (h : fs_store E callback p_dest p_src n s = .ok (r, s1)) :
    s1.mem = fs_store_loop p_dest p_src n s.mem ∧ r = E.FS_SUCCESS := by
  simp only [fs_store] at h
  split at h
  · rename_i s3 hadd
    simp only [Except.ok.injEq, Prod.mk.injEq] at h
    obtain ⟨rfl, rfl⟩ := h
    obtain ⟨_, _, f3, _⟩ := add_result_frame _ _ _ hadd
    exact ⟨f3, rfl⟩
  · cases h

theorem init_indices_ok (fds : σ) (mem : Nat → Nat) (a : Nat) :
    indices_ok (State.init fds mem a : State σ κ) := by
  simp [indices_ok, State.init, RESULT_QUEUE_SIZE]

theorem init_pending_count (fds : σ) (mem : Nat → Nat) (a : Nat) :
    pending_count (State.init fds mem a : State σ κ) = 0 := by
  simp [pending_count, State.init, RESULT_QUEUE_SIZE]

/-- With valid indices and fewer than 255 codes pending, `fs_store` returns. -/
theorem fs_store_returns (E : Store σ κ) (callback : Option κ) (p_dest p_src n : Nat)
    (s : State σ κ) (hidx : indices_ok s) (hc : pending_count s ≠ 255) :
    ∃ s1, fs_store E callback p_dest p_src n s = .ok (E.FS_SUCCESS, s1) ∧
      s1.mem = fs_store_loop p_dest p_src n s.mem ∧ indices_ok s1 ∧
      pending_count s1 = pending_count s + 1 := by
  obtain ⟨s1, h1, _, h3, h4, _, _, _, _, h9, _, _⟩ := add_result_ok 0
    ({ s with mem := fs_store_loop p_dest p_src n s.mem, fs_callback := callback } :
      State σ κ) hidx hc
  exact ⟨s1, by simp only [fs_store, h1], h9, h4, h3⟩

/-- With valid indices and fewer than 255 codes pending, `fs_erase` returns. -/
theorem fs_erase_returns (E : Store σ κ) (callback : Option κ) (p_page_addr num_pages : Nat)
    (s : State σ κ) (hidx : indices_ok s) (hc : pending_count s ≠ 255) :
    ∃ s1, fs_erase E callback p_page_addr num_pages s = .ok (E.FS_SUCCESS, s1) ∧
      s1.mem = memset s.mem p_page_addr 0xff (4 * FDS_PHY_PAGE_SIZE * num_pages) ∧
      indices_ok s1 ∧ pending_count s1 = pending_count s + 1 := by
  obtain ⟨s1, h1, _, h3, h4, _, _, _, _, h9, _, _⟩ := add_result_ok 0
    ({ s with
        mem := memset s.mem p_page_addr 0xff (4 * FDS_PHY_PAGE_SIZE * num_pages),
        fs_callback := callback } : State σ κ) hidx hc
  exact ⟨s1, by simp only [fs_erase, h1], h9, h4, h3⟩

theorem fs_erase_mem (E : Store σ κ) (callback : Option κ) (p_page_addr num_pages : Nat)
    (s s1 : State σ κ) (r : Nat)
    (h : fs_erase E callback p_page_addr num_pages s = .ok (r, s1)) :
    s1.mem = memset s.mem p_page_addr 0xff (4 * FDS_PHY_PAGE_SIZE * num_pages) ∧
    r = E.FS_SUCCESS := by
  simp only [fs_erase] at h
  split at h
  · rename_i s3 hadd
    simp only [Except.ok.injEq, Prod.mk.injEq] at h
    obtain ⟨rfl, rfl⟩ := h
    obtain ⟨_, _, f3, _⟩ := add_result_frame _ _ _ hadd
    exact ⟨f3, rfl⟩
  · cases h

theorem bytes_ok_memset (m : Nat → Nat) (p c n : Nat) (h : bytes_ok m) (hc : c < 256) :
    bytes_ok (memset m p c n) := by
  intro b
  simp only [memset]
  split
  · exact hc
  · exact h b

theorem and_ones (x : Nat) (h : x < 4294967296) : 4294967295 &&& x = x := by
  have := Nat.and_pow_two_sub_one_eq_mod x 32
  rw [Nat.and_comm]
  rw [show (4294967295 : Nat) = 2 ^ 32 - 1 from rfl, this]
  exact Nat.mod_eq_of_lt h

/-! ### Storing, whatever the source -/

theorem read_before_written_of_disjoint (p_dest p_src n : Nat)
    (h : buffers_disjoint p_dest p_src n) : read_before_written p_dest p_src n := by
  intro i j hj hi
  unfold buffers_disjoint at h
  omega

theorem read_before_written_of_le (p_dest p_src n : Nat) (h : p_dest ≤ p_src) :
    read_before_written p_dest p_src n := by
  intro i j hj hi
  omega

theorem read_before_written_one (p_dest p_src : Nat) : read_before_written p_dest p_src 1 := by
  intro i j hj hi
  omega

/-- The loop of `fs_store`, whatever the source: destination word `i` ends as the
AND of what it was and of source word `i` as the loop reads it, that is in the
memory that the `i` iterations before have left. -/
theorem fs_store_loop_word_read (p_dest p_src : Nat) (m : Nat → Nat) (hm : bytes_ok m)
    (n : Nat) : ∀ i, i < n →
      read32 (fs_store_loop p_dest p_src n m) (p_dest + 4 * i)
        = read32 m (p_dest + 4 * i) &&& read32 (fs_store_loop p_dest p_src i m) (p_src + 4 * i) := by
  induction n with
  | zero => intro i hi; omega
  | succ n ih =>
    intro i hi
    simp only [fs_store_loop]
    by_cases hin : i = n
    · subst hin
      have hok := bytes_ok_fs_store_loop p_dest p_src i m hm
      have e1 : read32 (fs_store_loop p_dest p_src i m) (p_dest + 4 * i)
          = read32 m (p_dest + 4 * i) :=
        read32_congr _ _ _ (fun b _ _ => fs_store_loop_outside p_dest p_src m i b (by omega))
      rw [read32_write32_same, e1]
      have := read32_lt _ hok (p_dest + 4 * i)
      exact Nat.lt_of_le_of_lt Nat.and_le_left this
    · rw [read32_write32_outside _ _ _ _ (by omega)]
      exact ih i (by omega)

/-- A source word that is read before any destination word sharing a byte with it
is written is read as it was on entry. -/
theorem source_word_as_on_entry (p_dest p_src n : Nat) (m : Nat → Nat)
    (h : read_before_written p_dest p_src n) (i : Nat) (hi : i < n) :
    read32 (fs_store_loop p_dest p_src i m) (p_src + 4 * i) = read32 m (p_src + 4 * i) := by
  refine read32_congr _ _ _ (fun b hb1 hb2 => ?_)
  by_cases hb : b < p_dest ∨ p_dest + 4 * i ≤ b
  · exact fs_store_loop_outside p_dest p_src m i b hb
  · have := h i ((b - p_dest) / 4) (by omega) hi
    omega

/-! ### Storing a second time -/

theorem write32_read32 (m : Nat → Nat) (hm : bytes_ok m) (a : Nat) :
    write32 m a (read32 m a) = m := by
  funext b
  have h0 := hm a
  have h1 := hm (a + 1)
  have h2 := hm (a + 2)
  have h3 := hm (a + 3)
  simp only [write32, read32]
  split
  · rename_i h; subst h; omega
  · split
    · rename_i h; subst h; omega
    · split
      · rename_i h; subst h; omega
      · split
        · rename_i h; subst h; omega
        · rfl

/-- The iterations of the loop of `fs_store` from the `k`-th on leave the bytes below
destination word `k` alone. -/
theorem fs_store_loop_below (p_dest p_src : Nat) (m : Nat → Nat) (n : Nat) :
    ∀ k, k ≤ n → ∀ b, b < p_dest + 4 * k →
      fs_store_loop p_dest p_src n m b = fs_store_loop p_dest p_src k m b := by
  induction n with
  | zero =>
    intro k hk b _
    have : k = 0 := by omega
    subst this
    rfl
  | succ n ih =>
    intro k hk b hb
    by_cases hkn : k = n + 1
    · subst hkn; rfl
    · simp only [fs_store_loop]
      rw [write32_outside _ _ _ b (by omega)]
      exact ih k (by omega) b hb

/-- Storing the same source a second time changes no byte, when there is nothing to
store or the source starts at least one word below the destination, at the
destination, or at or above its end. -/
theorem fs_store_loop_idem_of (p_dest p_src n : Nat) (m : Nat → Nat) (hm : bytes_ok m)
    (h : store_repeatable p_dest p_src n) :
    fs_store_loop p_dest p_src n (fs_store_loop p_dest p_src n m)
      = fs_store_loop p_dest p_src n m := by
  have hm1 := bytes_ok_fs_store_loop p_dest p_src n m hm
  unfold store_repeatable at h
  have hall : ∀ k, k ≤ n →
      fs_store_loop p_dest p_src k (fs_store_loop p_dest p_src n m)
        = fs_store_loop p_dest p_src n m := by
    intro k
    induction k with
    | zero => intro _; rfl
    | succ k ih =>
      intro hk
      simp only [fs_store_loop]
      rw [ih (by omega)]
      have key : read32 (fs_store_loop p_dest p_src n m) (p_dest + 4 * k)
            &&& read32 (fs_store_loop p_dest p_src n m) (p_src + 4 * k)
          = read32 (fs_store_loop p_dest p_src n m) (p_dest + 4 * k) := by
        by_cases heq : p_src = p_dest
        · rw [heq, Nat.and_self]
        · have hsrc : read32 (fs_store_loop p_dest p_src n m) (p_src + 4 * k)
              = read32 (fs_store_loop p_dest p_src k m) (p_src + 4 * k) := by
            refine read32_congr _ _ _ (fun b hb1 hb2 => ?_)
            by_cases hlow : p_src + 4 ≤ p_dest
            · exact fs_store_loop_below p_dest p_src m n k (by omega) b (by omega)
            · rw [fs_store_loop_outside p_dest p_src m n b (by omega),
                fs_store_loop_outside p_dest p_src m k b (by omega)]
          rw [hsrc, fs_store_loop_word_read p_dest p_src m hm n k (by omega),
            Nat.and_assoc, Nat.and_self]
      rw [key]
      exact write32_read32 _ hm1 _
  exact hall n (Nat.le_refl n)

/-- The loop of `fs_store` changes no byte when the destination words and the source
words all lie in a range of bytes that hold 0xff. -/
theorem fs_store_loop_erased (p_dest p_src n : Nat) (m : Nat → Nat) (lo hi : Nat)
    (hff : ∀ b, lo ≤ b → b < hi → m b = 255)
    (hd : lo ≤ p_dest ∧ p_dest + 4 * n ≤ hi) (hsrc : lo ≤ p_src ∧ p_src + 4 * n ≤ hi) :
    ∀ k, k ≤ n → fs_store_loop p_dest p_src k m = m := by
  intro k
  induction k with
  | zero => intro _; rfl
  | succ k ih =>
    intro hk
    simp only [fs_store_loop]
    rw [ih (by omega)]
    have e1 : read32 m (p_dest + 4 * k) = 4294967295 := by
      simp only [read32]
      rw [hff (p_dest + 4 * k) (by omega) (by omega),
        hff (p_dest + 4 * k + 1) (by omega) (by omega),
        hff (p_dest + 4 * k + 2) (by omega) (by omega),
        hff (p_dest + 4 * k + 3) (by omega) (by omega)]
    have e2 : read32 m (p_src + 4 * k) = 4294967295 := by
      simp only [read32]
      rw [hff (p_src + 4 * k) (by omega) (by omega),
        hff (p_src + 4 * k + 1) (by omega) (by omega),
        hff (p_src + 4 * k + 2) (by omega) (by omega),
        hff (p_src + 4 * k + 3) (by omega) (by omega)]
    rw [e1, e2]
    funext b
    simp only [write32]
    split
    · rename_i h; rw [h, hff (p_dest + 4 * k) (by omega) (by omega)]; rfl
    · split
      · rename_i h; rw [h, hff (p_dest + 4 * k + 1) (by omega) (by omega)]; rfl
      · split
        · rename_i h; rw [h, hff (p_dest + 4 * k + 2) (by omega) (by omega)]; rfl
        · split
          · rename_i h; rw [h, hff (p_dest + 4 * k + 3) (by omega) (by omega)]; rfl
          · rfl


/-! ### The loop of `fs_store`, byte by byte -/

theorem and_byte (x y c : Nat) :
    (x &&& y) / 256 ^ c % 256 = (x / 256 ^ c % 256) &&& (y / 256 ^ c % 256) := by
  have h256 : (256 : Nat) = 2 ^ 8 := rfl
  rw [h256, ← Nat.pow_mul, ← Nat.shiftRight_eq_div_pow, ← Nat.shiftRight_eq_div_pow,
    ← Nat.shiftRight_eq_div_pow]
  apply Nat.eq_of_testBit_eq
  intro i
  simp only [Nat.testBit_mod_two_pow, Nat.testBit_shiftRight, Nat.testBit_and]
  by_cases hi : i < 8 <;> simp [hi]

theorem write32_at (m : Nat → Nat) (a v c : Nat) (hc : c < 4) :
    write32 m a v (a + c) = v / 256 ^ c % 256 := by
  have h : c = 0 ∨ c = 1 ∨ c = 2 ∨ c = 3 := by omega
  rcases h with h | h | h | h <;> subst h <;> simp [write32]

theorem read32_byte (m : Nat → Nat) (hm : bytes_ok m) (a c : Nat) (hc : c < 4) :
    read32 m a / 256 ^ c % 256 = m (a + c) := by
  have h0 := hm a
  have h1 := hm (a + 1)
  have h2 := hm (a + 2)
  have h3 := hm (a + 3)
  have h : c = 0 ∨ c = 1 ∨ c = 2 ∨ c = 3 := by omega
  rcases h with h | h | h | h <;> subst h <;> simp only [read32] <;> norm_num <;> omega

/-- The loop of `fs_store`, byte by byte: byte `c` of destination word `t` ends as
the AND of what it was and of byte `c` of source word `t` as the loop reads
it. -/
theorem fs_store_loop_byte (p_dest p_src : Nat) (m : Nat → Nat) (hm : bytes_ok m) (n : Nat)
    (t c : Nat) (ht : t < n) (hc : c < 4) :
    fs_store_loop p_dest p_src n m (p_dest + 4 * t + c)
      = m (p_dest + 4 * t + c) &&& fs_store_loop p_dest p_src t m (p_src + 4 * t + c) := by
  have hok := bytes_ok_fs_store_loop p_dest p_src t m hm
  rw [fs_store_loop_below p_dest p_src m n (t + 1) (by omega) _ (by omega)]
  simp only [fs_store_loop]
  rw [write32_at _ _ _ _ hc, and_byte, read32_byte _ hok _ _ hc, read32_byte _ hok _ _ hc,
    fs_store_loop_outside p_dest p_src m t (p_dest + 4 * t + c) (by omega)]

/-- A byte that holds 0 holds 0 after the loop of `fs_store`. -/
theorem fs_store_loop_zero (p_dest p_src : Nat) (m : Nat → Nat) (hm : bytes_ok m) (n b : Nat)
    (hz : m b = 0) : fs_store_loop p_dest p_src n m b = 0 := by
  by_cases hb : b < p_dest ∨ p_dest + 4 * n ≤ b
  · rw [fs_store_loop_outside p_dest p_src m n b hb]
    exact hz
  · have e : b = p_dest + 4 * ((b - p_dest) / 4) + (b - p_dest) % 4 := by omega
    rw [e, fs_store_loop_byte p_dest p_src m hm n _ _ (by omega) (by omega), ← e, hz,
      Nat.zero_and]

theorem bytes_ok_one_zero_byte (z : Nat) : bytes_ok (one_zero_byte z) := by
  intro a
  unfold one_zero_byte
  split
  · decide
  · decide

theorem one_zero_byte_at (z : Nat) : one_zero_byte z z = 0 := by
  simp [one_zero_byte]

theorem one_zero_byte_off (z a : Nat) (h : a ≠ z) : one_zero_byte z a = 255 := by
  simp [one_zero_byte, h]

/-- Where some source word shares a byte with a destination word written before it
is read, there is a memory of bytes on which the loop of `fs_store` leaves a
destination word that is not the AND of what it was and of what the source
word was on entry. -/
theorem read_before_written_tight (p_dest p_src n : Nat)
    (h : ¬ read_before_written p_dest p_src n) :
    ∃ m, bytes_ok m ∧ ∃ i, i < n ∧
      read32 (fs_store_loop p_dest p_src n m) (p_dest + 4 * i)
        ≠ read32 m (p_dest + 4 * i) &&& read32 m (p_src + 4 * i) := by
  unfold read_before_written at h
  push_neg at h
  obtain ⟨i, j, hj, hi, h1, h2⟩ := h
  obtain ⟨c, c1, hc, hc1, hx⟩ :
      ∃ c c1, c < 4 ∧ c1 < 4 ∧ p_src + 4 * i + c = p_dest + 4 * j + c1 := by
    by_cases hge : p_dest + 4 * j ≤ p_src + 4 * i
    · exact ⟨0, p_src + 4 * i - (p_dest + 4 * j), by omega, by omega, by omega⟩
    · exact ⟨p_dest + 4 * j - (p_src + 4 * i), 0, by omega, by omega, by omega⟩
  have hm := bytes_ok_one_zero_byte (p_src + 4 * j + c1)
  refine ⟨one_zero_byte (p_src + 4 * j + c1), hm, i, hi, ?_⟩
  intro heq
  have hb := congrArg (fun w => w / 256 ^ c % 256) heq
  simp only at hb
  rw [read32_byte _ (bytes_ok_fs_store_loop p_dest p_src n _ hm) _ _ hc, and_byte,
    read32_byte _ hm _ _ hc, read32_byte _ hm _ _ hc,
    fs_store_loop_byte p_dest p_src _ hm n i c hi hc, hx,
    fs_store_loop_byte p_dest p_src _ hm i j c1 hj hc1,
    fs_store_loop_zero p_dest p_src _ hm j _ (one_zero_byte_at _),
    one_zero_byte_off _ (p_dest + 4 * i + c) (by omega),
    one_zero_byte_off _ (p_dest + 4 * j + c1) (by omega)] at hb
  revert hb
  decide

/-- An erase leaves the memory `one_zero_byte z` as it is when `z` lies below the
region. -/
theorem memset_one_zero_byte (z p n : Nat) (h : z < p) :
    memset (one_zero_byte z) p 0xff n = one_zero_byte z := by
  funext b
  simp only [memset]
  split
  · rw [one_zero_byte_off z b (by omega)]
  · rfl

/-- Where the source starts below the erased region, at least one word below the
destination and above its start less the length, there is a memory of bytes on
which the store after the erase leaves a destination word that is not the
source word. -/
theorem round_trip_tight (p_page_addr len p_dest p_src n : Nat)
    (h1 : p_src + 4 ≤ p_dest) (h2 : p_dest < p_src + 4 * n) (h3 : p_src < p_page_addr) :
    ∃ m, bytes_ok m ∧ ∃ i, i < n ∧
      read32 (fs_store_loop p_dest p_src n (memset m p_page_addr 0xff len)) (p_dest + 4 * i)
        ≠ read32 (memset m p_page_addr 0xff len) (p_src + 4 * i) := by
  have hm := bytes_ok_one_zero_byte p_src
  obtain ⟨i, c, hi, hc, hs⟩ :
      ∃ i c, i < n ∧ c < 4 ∧ p_src + 4 * i + c = p_dest + 4 * 0 + 0 :=
    ⟨(p_dest - p_src) / 4, (p_dest - p_src) % 4, by omega, by omega, by omega⟩
  refine ⟨one_zero_byte p_src, hm, i, hi, ?_⟩
  rw [memset_one_zero_byte p_src p_page_addr len h3]
  intro heq
  have hb := congrArg (fun w => w / 256 ^ c % 256) heq
  simp only at hb
  rw [read32_byte _ (bytes_ok_fs_store_loop p_dest p_src n _ hm) _ _ hc,
    read32_byte _ hm _ _ hc,
    fs_store_loop_byte p_dest p_src _ hm n i c hi hc, hs,
    fs_store_loop_byte p_dest p_src _ hm i 0 0 (by omega) (by omega)] at hb
  simp only [fs_store_loop] at hb
  rw [show p_src + 4 * 0 + 0 = p_src from rfl, one_zero_byte_at,
    one_zero_byte_off _ (p_dest + 4 * i + c) (by omega),
    one_zero_byte_off _ (p_dest + 4 * 0 + 0) (by omega)] at hb
  revert hb
  decide

/-- Where a second store cannot be counted on to change nothing, there is a memory
of bytes on which it does change a byte. -/
theorem store_repeatable_tight (p_dest p_src n : Nat)
    (h : ¬ store_repeatable p_dest p_src n) :
    ∃ m, bytes_ok m ∧
      fs_store_loop p_dest p_src n (fs_store_loop p_dest p_src n m)
        ≠ fs_store_loop p_dest p_src n m := by
  unfold store_repeatable at h
  push_neg at h
  obtain ⟨hn, h1, h2, h3⟩ := h
  by_cases hlow : p_src < p_dest
  · -- the source starts one to three bytes below the destination
    obtain ⟨d, hd1, hd3, hd⟩ : ∃ d, 1 ≤ d ∧ d < 4 ∧ p_src + 4 * 0 + d = p_dest + 4 * 0 + 0 :=
      ⟨p_dest - p_src, by omega, by omega, by omega⟩
    have hm := bytes_ok_one_zero_byte p_src
    have hm1 := bytes_ok_fs_store_loop p_dest p_src n _ hm
    refine ⟨one_zero_byte p_src, hm, ?_⟩
    intro heq
    have hb := congrFun heq (p_dest + 4 * 0 + d)
    have e0 : fs_store_loop p_dest p_src n (one_zero_byte p_src) (p_dest + 4 * 0 + 0) = 0 := by
      rw [fs_store_loop_byte p_dest p_src _ hm n 0 0 (by omega) (by omega)]
      simp only [fs_store_loop]
      rw [one_zero_byte_off _ (p_dest + 4 * 0 + 0) (by omega),
        show p_src + 4 * 0 + 0 = p_src from rfl, one_zero_byte_at]
      rfl
    have e1 : fs_store_loop p_dest p_src n (one_zero_byte p_src) (p_dest + 4 * 0 + d) = 255 := by
      rw [fs_store_loop_byte p_dest p_src _ hm n 0 d (by omega) hd3]
      simp only [fs_store_loop]
      rw [one_zero_byte_off _ (p_dest + 4 * 0 + d) (by omega),
        one_zero_byte_off _ (p_src + 4 * 0 + d) (by omega)]
      rfl
    rw [fs_store_loop_byte p_dest p_src _ hm1 n 0 d (by omega) hd3] at hb
    simp only [fs_store_loop] at hb
    rw [hd, e0, e1] at hb
    revert hb
    decide
  · -- the source starts above the destination, below its end
    have hm := bytes_ok_one_zero_byte (p_src + (p_src - p_dest))
    have hm1 := bytes_ok_fs_store_loop p_dest p_src n _ hm
    refine ⟨one_zero_byte (p_src + (p_src - p_dest)), hm, ?_⟩
    intro heq
    have hb := congrFun heq (p_dest + 4 * 0 + 0)
    obtain ⟨t, c, ht, hc, hs⟩ :
        ∃ t c, t < n ∧ c < 4 ∧ p_src + 4 * 0 + 0 = p_dest + 4 * t + c :=
      ⟨(p_src - p_dest) / 4, (p_src - p_dest) % 4, by omega, by omega, by omega⟩
    have e0 : fs_store_loop p_dest p_src n (one_zero_byte (p_src + (p_src - p_dest)))
        (p_dest + 4 * t + c) = 0 := by
      rw [fs_store_loop_byte p_dest p_src _ hm n t c ht hc,
        fs_store_loop_outside p_dest p_src _ t (p_src + 4 * t + c) (by omega),
        show p_src + 4 * t + c = p_src + (p_src - p_dest) by omega, one_zero_byte_at,
        Nat.and_zero]
    have e1 : fs_store_loop p_dest p_src n (one_zero_byte (p_src + (p_src - p_dest)))
        (p_dest + 4 * 0 + 0) = 255 := by
      rw [fs_store_loop_byte p_dest p_src _ hm n 0 0 (by omega) (by omega)]
      simp only [fs_store_loop]
      rw [one_zero_byte_off _ (p_dest + 4 * 0 + 0) (by omega),
        one_zero_byte_off _ (p_src + 4 * 0 + 0) (by omega)]
      rfl
    rw [fs_store_loop_byte p_dest p_src _ hm1 n 0 0 (by omega) (by omega)] at hb
    simp only [fs_store_loop] at hb
    rw [hs, e0, e1] at hb
    revert hb
    decide

/-! ### `fs_store` and `fs_erase` on the simulated media -/

/-- C9, as the code has it.  `fs_store` first ANDs the `n` source words into the
destination words: destination word `i < n` ends as the AND of what it was and
of source word `i` as the loop reads it, which is source word `i` as it was on
entry whenever no destination word sharing a byte with it is written first (a
source apart from the destination, at the destination, or above it); so no bit
of a destination word goes from 0 to 1; every byte outside the `n` destination
words, hence every word at an index `≥ n`, is unchanged.  It then calls
`add_result(0)` once: with fewer than 255 codes pending the code 0 joins the
queue and `FS_SUCCESS` is returned; with 255 pending the assertion of
`add_result` fails and the call does not return.  The condition on the source
cannot be dropped for any addresses: where it fails, there is a memory of bytes
on which `fs_store` returns and leaves a destination word that is not the AND
of the two words on entry. -/
theorem C9_fs_store (E : Store σ κ) (callback : Option κ) (p_dest p_src n : Nat)
    (s : State σ κ) (hidx : indices_ok s) (hm : bytes_ok s.mem) :
    (pending_count s = 255 →
      fs_store E callback p_dest p_src n s = .error Fault.assert_failed) ∧
    (pending_count s ≠ 255 →
      ∃ s1, fs_store E callback p_dest p_src n s = .ok (E.FS_SUCCESS, s1) ∧
        pending s1 = pending s ++ [0] ∧
        (∀ i, i < n → read32 s1.mem (p_dest + 4 * i)
          = read32 s.mem (p_dest + 4 * i)
            &&& read32 (fs_store_loop p_dest p_src i s.mem) (p_src + 4 * i)) ∧
        (read_before_written p_dest p_src n →
          ∀ i, i < n → read32 s1.mem (p_dest + 4 * i)
            = read32 s.mem (p_dest + 4 * i) &&& read32 s.mem (p_src + 4 * i)) ∧
        (∀ b, (b < p_dest ∨ p_dest + 4 * n ≤ b) → s1.mem b = s.mem b) ∧
        (∀ i, n ≤ i → read32 s1.mem (p_dest + 4 * i) = read32 s.mem (p_dest + 4 * i)) ∧
        (∀ i j, (read32 s1.mem (p_dest + 4 * i)).testBit j = true →
          (read32 s.mem (p_dest + 4 * i)).testBit j = true) ∧
        s1.fs_callback = callback) ∧
    (¬ read_before_written p_dest p_src n →
      ∃ t t1 : State σ κ, bytes_ok t.mem ∧
        fs_store E callback p_dest p_src n t = .ok (E.FS_SUCCESS, t1) ∧
        ∃ i, i < n ∧ read32 t1.mem (p_dest + 4 * i)
          ≠ read32 t.mem (p_dest + 4 * i) &&& read32 t.mem (p_src + 4 * i)) := by
  refine ⟨?_, ?_, ?_⟩
  · intro hc
    have := add_result_full 0
      ({ s with mem := fs_store_loop p_dest p_src n s.mem, fs_callback := callback } :
        State σ κ) hidx hc
    simp only [fs_store, this]
  · intro hc
    obtain ⟨s1, h1, h2, _, _, _, h6, _, _, h9, _, _⟩ := add_result_ok 0
      ({ s with mem := fs_store_loop p_dest p_src n s.mem, fs_callback := callback } :
        State σ κ) hidx hc
    have hmem : s1.mem = fs_store_loop p_dest p_src n s.mem := h9
    have hword : ∀ i, i < n → read32 s1.mem (p_dest + 4 * i)
        = read32 s.mem (p_dest + 4 * i)
          &&& read32 (fs_store_loop p_dest p_src i s.mem) (p_src + 4 * i) := by
      intro i hi
      rw [hmem]
      exact fs_store_loop_word_read p_dest p_src s.mem hm n i hi
    have hout : ∀ b, (b < p_dest ∨ p_dest + 4 * n ≤ b) → s1.mem b = s.mem b := by
      intro b hb
      rw [hmem]
      exact fs_store_loop_outside p_dest p_src s.mem n b hb
    have hhigh : ∀ i, n ≤ i → read32 s1.mem (p_dest + 4 * i) = read32 s.mem (p_dest + 4 * i) :=
      fun i hi => read32_congr _ _ _ (fun b _ _ => hout b (by omega))
    refine ⟨s1, by simp only [fs_store, h1], h2, hword, ?_, hout, hhigh, ?_, h6⟩
    · intro hrw i hi
      rw [hword i hi, source_word_as_on_entry p_dest p_src n s.mem hrw i hi]
    · intro i j hj
      by_cases hi : i < n
      · rw [hword i hi, Nat.testBit_and] at hj
        simp only [Bool.and_eq_true] at hj
        exact hj.1
      · rw [hhigh i (by omega)] at hj
        exact hj
  · intro hrw
    obtain ⟨m, hmb, i, hi, hne⟩ := read_before_written_tight p_dest p_src n hrw
    obtain ⟨t1, ht1, hmem, _, _⟩ := fs_store_returns E callback p_dest p_src n
      (State.init s.fds m 0) (init_indices_ok s.fds m 0)
      (by rw [init_pending_count]; decide)
    refine ⟨State.init s.fds m 0, t1, hmb, ht1, i, hi, ?_⟩
    rw [hmem]
    exact hne

/-- C9 as stated fails in two ways.  Where 255 codes are pending the assertion of
`add_result` fails and `FS_SUCCESS` is not returned.  And from a source that
starts one word below the destination, the loop reads as source word 1 the
destination word 0 it has just written: destination word 1 ends as 0x11223344,
not as the AND 0xFFFFFFFF of what it was and of what source word 1 was. -/
theorem C9_fs_store_aborts_or_rereads :
    (indices_ok demo_full ∧ pending_count demo_full = 255 ∧
      fs_store demo_store (some ()) 4096 0 1 demo_full = .error Fault.assert_failed ∧
      ¬ ∃ s1, fs_store demo_store (some ()) 4096 0 1 demo_full
        = .ok (demo_store.FS_SUCCESS, s1)) ∧
    (∃ s1, fs_store demo_store (some ()) 4 0 2 demo_flash = .ok (demo_store.FS_SUCCESS, s1) ∧
      read32 demo_flash.mem (4 + 4 * 1) = 0xFFFFFFFF ∧
      read32 demo_flash.mem (0 + 4 * 1) = 0xFFFFFFFF ∧
      read32 s1.mem (4 + 4 * 1) = 0x11223344 ∧
      read32 s1.mem (4 + 4 * 1)
        ≠ read32 demo_flash.mem (4 + 4 * 1) &&& read32 demo_flash.mem (0 + 4 * 1)) := by
  refine ⟨⟨by unfold indices_ok demo_full demo_state RESULT_QUEUE_SIZE; decide, rfl, rfl, ?_⟩,
    ⟨_, rfl, rfl, rfl, rfl, by decide⟩⟩
  rintro ⟨s1, h⟩
  have he : fs_store demo_store (some ()) 4096 0 1 demo_full = .error Fault.assert_failed := rfl
  rw [he] at h
  cases h

/-- A run of C9: one source word 0x11223344 stored over an erased word. -/
theorem C9_fs_store_witness :
    (pending_count demo_flash = 255 →
      fs_store demo_store (some ()) 4096 0 1 demo_flash = .error Fault.assert_failed) ∧
    (pending_count demo_flash ≠ 255 →
      ∃ s1, fs_store demo_store (some ()) 4096 0 1 demo_flash
          = .ok (demo_store.FS_SUCCESS, s1) ∧
        pending s1 = pending demo_flash ++ [0] ∧
        (∀ i, i < 1 → read32 s1.mem (4096 + 4 * i)
          = read32 demo_flash.mem (4096 + 4 * i)
            &&& read32 (fs_store_loop 4096 0 i demo_flash.mem) (0 + 4 * i)) ∧
        (read_before_written 4096 0 1 →
          ∀ i, i < 1 → read32 s1.mem (4096 + 4 * i)
            = read32 demo_flash.mem (4096 + 4 * i) &&& read32 demo_flash.mem (0 + 4 * i)) ∧
        (∀ b, (b < 4096 ∨ 4096 + 4 * 1 ≤ b) → s1.mem b = demo_flash.mem b) ∧
        (∀ i, 1 ≤ i → read32 s1.mem (4096 + 4 * i) = read32 demo_flash.mem (4096 + 4 * i)) ∧
        (∀ i j, (read32 s1.mem (4096 + 4 * i)).testBit j = true →
          (read32 demo_flash.mem (4096 + 4 * i)).testBit j = true) ∧
        s1.fs_callback = some ()) ∧
    (¬ read_before_written 4096 0 1 →
      ∃ t t1 : State Nat Unit, bytes_ok t.mem ∧
        fs_store demo_store (some ()) 4096 0 1 t = .ok (demo_store.FS_SUCCESS, t1) ∧
        ∃ i, i < 1 ∧ read32 t1.mem (4096 + 4 * i)
          ≠ read32 t.mem (4096 + 4 * i) &&& read32 t.mem (0 + 4 * i)) :=
  C9_fs_store demo_store (some ()) 4096 0 1 demo_flash
    (by unfold indices_ok demo_flash demo_state RESULT_QUEUE_SIZE; decide)
    bytes_ok_demo_mem

/-- C18, as the code has it.  After `fs_erase` of a region, `fs_store` of `n` words
into destination words that lie inside the region leaves destination word `i`
equal to source word `i` as the loop reads it, that is in the memory that the
`i` iterations before have left.  That is source word `i` as it is when
`fs_store` is called whenever no destination word sharing a byte with it is
written first (a source apart from the destination, at it or above it), and
also whenever the source lies inside the erased region as well; where the
source starts below the region, one word or more below the destination, and
reaches into the destination, there is a memory of bytes on which both calls
return and a destination word is not the source word.  A source word outside
the region is as it was before the erase, and a source apart from the
destination is left as it was.  And `fs_store` is idempotent, on every memory,
when there is nothing to store or the source starts at least one word below
the destination, at the destination, or at or above its end: a second store of
the same source into the same destination leaves the memory as the first left
it.  For any other addresses there is a memory of bytes on which the second
store, which returns as the first does, changes a byte. -/
theorem C18_erase_then_store (E : Store σ κ) (cb1 cb2 : Option κ)
    (p_page_addr num_pages p_dest p_src n : Nat) (s s1 s2 : State σ κ) (r1 r2 : Nat)
    (hm : bytes_ok s.mem)
    (hin : p_page_addr ≤ p_dest ∧ p_dest + 4 * n ≤ p_page_addr + 4096 * num_pages)
    (he : fs_erase E cb1 p_page_addr num_pages s = .ok (r1, s1))
    (hs : fs_store E cb2 p_dest p_src n s1 = .ok (r2, s2)) :
    (∀ i, i < n → read32 s2.mem (p_dest + 4 * i)
      = read32 (fs_store_loop p_dest p_src i s1.mem) (p_src + 4 * i)) ∧
    ((read_before_written p_dest p_src n ∨
        (p_page_addr ≤ p_src ∧ p_src + 4 * n ≤ p_page_addr + 4096 * num_pages)) →
      ∀ i, i < n → read32 s2.mem (p_dest + 4 * i) = read32 s1.mem (p_src + 4 * i)) ∧
    (p_src + 4 ≤ p_dest → p_dest < p_src + 4 * n → p_src < p_page_addr →
      ∃ t t1 t2 : State σ κ, bytes_ok t.mem ∧
        fs_erase E cb1 p_page_addr num_pages t = .ok (E.FS_SUCCESS, t1) ∧
        fs_store E cb2 p_dest p_src n t1 = .ok (E.FS_SUCCESS, t2) ∧
        ∃ i, i < n ∧ read32 t2.mem (p_dest + 4 * i) ≠ read32 t1.mem (p_src + 4 * i)) ∧
    (∀ i, i < n →
      (p_src + 4 * i + 4 ≤ p_page_addr ∨ p_page_addr + 4096 * num_pages ≤ p_src + 4 * i) →
      read32 s1.mem (p_src + 4 * i) = read32 s.mem (p_src + 4 * i)) ∧
    (buffers_disjoint p_dest p_src n →
      ∀ i, i < n → read32 s2.mem (p_src + 4 * i) = read32 s1.mem (p_src + 4 * i)) ∧
    ((store_repeatable p_dest p_src n ∨
        (p_page_addr ≤ p_src ∧ p_src + 4 * n ≤ p_page_addr + 4096 * num_pages)) →
      ∀ r3 s3, fs_store E cb2 p_dest p_src n s2 = .ok (r3, s3) → s3.mem = s2.mem) ∧
    (store_repeatable p_dest p_src n →
      ∀ (t t1 t2 : State σ κ) (ra rb : Nat), bytes_ok t.mem →
        fs_store E cb2 p_dest p_src n t = .ok (ra, t1) →
        fs_store E cb2 p_dest p_src n t1 = .ok (rb, t2) → t2.mem = t1.mem) ∧
    (¬ store_repeatable p_dest p_src n →
      ∃ t t1 t2 : State σ κ, bytes_ok t.mem ∧
        fs_store E cb2 p_dest p_src n t = .ok (E.FS_SUCCESS, t1) ∧
        fs_store E cb2 p_dest p_src n t1 = .ok (E.FS_SUCCESS, t2) ∧ t2.mem ≠ t1.mem) := by
  obtain ⟨hmem1, _⟩ := fs_erase_mem E cb1 p_page_addr num_pages s s1 r1 he
  obtain ⟨hmem2, _⟩ := fs_store_mem E cb2 p_dest p_src n s1 s2 r2 hs
  have hok1 : bytes_ok s1.mem := by
    rw [hmem1]
    exact bytes_ok_memset _ _ _ _ hm (by decide)
  have herased : ∀ b, p_page_addr ≤ b → b < p_page_addr + 4096 * num_pages →
      s1.mem b = 255 := by
    intro b hb1 hb2
    have hb3 : p_page_addr ≤ b ∧ b < p_page_addr + 4 * FDS_PHY_PAGE_SIZE * num_pages := by
      unfold FDS_PHY_PAGE_SIZE
      omega
    rw [hmem1]
    simp only [memset, if_pos hb3]
  have hread : ∀ i, i < n → read32 s2.mem (p_dest + 4 * i)
      = read32 (fs_store_loop p_dest p_src i s1.mem) (p_src + 4 * i) := by
    intro i hi
    rw [hmem2, fs_store_loop_word_read p_dest p_src s1.mem hok1 n i hi]
    have hff : read32 s1.mem (p_dest + 4 * i) = 4294967295 := by
      simp only [read32]
      rw [herased (p_dest + 4 * i) (by omega) (by omega),
        herased (p_dest + 4 * i + 1) (by omega) (by omega),
        herased (p_dest + 4 * i + 2) (by omega) (by omega),
        herased (p_dest + 4 * i + 3) (by omega) (by omega)]
    rw [hff]
    exact and_ones _ (read32_lt _ (bytes_ok_fs_store_loop p_dest p_src i _ hok1) _)
  have hidem : store_repeatable p_dest p_src n →
      ∀ (t t1 t2 : State σ κ) (ra rb : Nat), bytes_ok t.mem →
        fs_store E cb2 p_dest p_src n t = .ok (ra, t1) →
        fs_store E cb2 p_dest p_src n t1 = .ok (rb, t2) → t2.mem = t1.mem := by
    intro hc t t1 t2 ra rb ht h1 h2
    obtain ⟨g1, _⟩ := fs_store_mem E cb2 p_dest p_src n t t1 ra h1
    obtain ⟨g2, _⟩ := fs_store_mem E cb2 p_dest p_src n t1 t2 rb h2
    rw [g2, g1]
    exact fs_store_loop_idem_of p_dest p_src n t.mem ht hc
  refine ⟨hread, ?_, ?_, ?_, ?_, ?_, hidem, ?_⟩
  · rintro (hrw | hsin) i hi
    · rw [hread i hi]
      exact source_word_as_on_entry p_dest p_src n s1.mem hrw i hi
    · rw [hread i hi,
        fs_store_loop_erased p_dest p_src n s1.mem p_page_addr
          (p_page_addr + 4096 * num_pages) herased hin hsin i (by omega)]
  · intro h1 h2 h3
    obtain ⟨m, hmb, i, hi, hne⟩ := round_trip_tight p_page_addr
      (4 * FDS_PHY_PAGE_SIZE * num_pages) p_dest p_src n h1 h2 h3
    obtain ⟨t1, ht1, hmem1t, hidx1, hcnt1⟩ := fs_erase_returns E cb1 p_page_addr num_pages
      (State.init s.fds m 0) (init_indices_ok s.fds m 0)
      (by rw [init_pending_count]; decide)
    obtain ⟨t2, ht2, hmem2t, _, _⟩ := fs_store_returns E cb2 p_dest p_src n t1 hidx1
      (by rw [hcnt1, init_pending_count]; decide)
    refine ⟨State.init s.fds m 0, t1, t2, hmb, ht1, ht2, i, hi, ?_⟩
    rw [hmem2t, hmem1t]
    exact hne
  · intro i hi hout
    rw [hmem1]
    refine read32_congr _ _ _ (fun c hc1 hc2 => ?_)
    have hc3 : ¬ (p_page_addr ≤ c ∧ c < p_page_addr + 4 * FDS_PHY_PAGE_SIZE * num_pages) := by
      unfold FDS_PHY_PAGE_SIZE
      omega
    simp only [memset, if_neg hc3]
  · intro hd i hi
    rw [hmem2]
    refine read32_congr _ _ _ (fun c _ _ => fs_store_loop_outside p_dest p_src _ n c ?_)
    unfold buffers_disjoint at hd
    omega
  · rintro (h1 | hsin) r3 s3 h3s
    · exact hidem h1 s1 s2 s3 r2 r3 hok1 hs h3s
    · obtain ⟨g3, _⟩ := fs_store_mem E cb2 p_dest p_src n s2 s3 r3 h3s
      have e21 : s2.mem = s1.mem := by
        rw [hmem2]
        exact fs_store_loop_erased p_dest p_src n s1.mem p_page_addr
          (p_page_addr + 4096 * num_pages) herased hin hsin n (Nat.le_refl n)
      rw [g3, e21]
      exact fs_store_loop_erased p_dest p_src n s1.mem p_page_addr
        (p_page_addr + 4096 * num_pages) herased hin hsin n (Nat.le_refl n)
  · intro hrep
    obtain ⟨m, hmb, hne⟩ := store_repeatable_tight p_dest p_src n hrep
    obtain ⟨t1, ht1, hmem1t, hidx1, hcnt1⟩ := fs_store_returns E cb2 p_dest p_src n
      (State.init s.fds m 0) (init_indices_ok s.fds m 0)
      (by rw [init_pending_count]; decide)
    obtain ⟨t2, ht2, hmem2t, _, _⟩ := fs_store_returns E cb2 p_dest p_src n t1 hidx1
      (by rw [hcnt1, init_pending_count]; decide)
    refine ⟨State.init s.fds m 0, t1, t2, hmb, ht1, ht2, ?_⟩
    rw [hmem2t, hmem1t]
    exact hne

/-- C18 as stated fails in these ways.  With the source inside the erased region
and the destination outside it, the destination word keeps what it held,
0x11223344, while the source word is 0xFFFFFFFF.  With the destination inside
the erased region and a source that starts one word below it, the loop reads
as source word 1 the destination word 0 it has just written: the destination
ends as 0x11223344, 0x11223344 while the source was 0x11223344, 0xFFFFFFFF
when `fs_store` was called.  With a source that starts one word above the
destination `fs_store` is not idempotent: from the words 12, 60, 48 the first
store leaves the destination as 12, 48 and the second as 0, 48.  Nor is it with
a source that starts one byte below the destination: the first store of one
word leaves 0xFFFF0F0F, the second 0xFF0F0F0F. -/
theorem C18_round_trip_and_idempotence_fail :
    (∃ s1 s2, bytes_ok demo_flash.mem ∧
      fs_erase demo_store (some ()) 4096 1 demo_flash = .ok (0, s1) ∧
      fs_store demo_store (some ()) 0 4096 1 s1 = .ok (0, s2) ∧
      (4096 ≤ 4096 ∧ 4096 + 4 * 1 ≤ 4096 + 4096 * 1) ∧
      read32 s1.mem 4096 = 0xFFFFFFFF ∧ read32 s2.mem 4096 = 0xFFFFFFFF ∧
      read32 s2.mem 0 = 0x11223344 ∧ read32 s2.mem 0 ≠ read32 s1.mem 4096) ∧
    (∃ s1 s2, bytes_ok demo_edge.mem ∧
      fs_erase demo_store (some ()) 4096 1 demo_edge = .ok (0, s1) ∧
      fs_store demo_store (some ()) 4096 4092 2 s1 = .ok (0, s2) ∧
      (4096 ≤ 4096 ∧ 4096 + 4 * 2 ≤ 4096 + 4096 * 1) ∧
      read32 s1.mem (4092 + 4 * 0) = 0x11223344 ∧
      read32 s1.mem (4092 + 4 * 1) = 0xFFFFFFFF ∧
      read32 s2.mem (4096 + 4 * 0) = 0x11223344 ∧
      read32 s2.mem (4096 + 4 * 1) = 0x11223344 ∧
      read32 s2.mem (4096 + 4 * 1) ≠ read32 s1.mem (4092 + 4 * 1)) ∧
    (∃ t1 t2, bytes_ok demo_words.mem ∧
      fs_store demo_store (some ()) 0 4 2 demo_words = .ok (0, t1) ∧
      fs_store demo_store (some ()) 0 4 2 t1 = .ok (0, t2) ∧
      read32 t1.mem 0 = 12 ∧ read32 t1.mem 4 = 48 ∧
      read32 t2.mem 0 = 0 ∧ read32 t2.mem 4 = 48 ∧
      t2.mem ≠ t1.mem) ∧
    (∃ t1 t2, bytes_ok demo_nibble.mem ∧
      fs_store demo_store (some ()) 1 0 1 demo_nibble = .ok (0, t1) ∧
      fs_store demo_store (some ()) 1 0 1 t1 = .ok (0, t2) ∧
      read32 t1.mem 1 = 0xFFFF0F0F ∧ read32 t2.mem 1 = 0xFF0F0F0F ∧
      t2.mem ≠ t1.mem) := by
  refine ⟨⟨_, _, bytes_ok_demo_mem, rfl, rfl, by decide, rfl, rfl, rfl, by decide⟩,
    ⟨_, _, ?_, rfl, rfl, by decide, rfl, rfl, rfl, rfl, by decide⟩,
    ⟨_, _, ?_, rfl, rfl, rfl, rfl, rfl, rfl, ?_⟩,
    ⟨_, _, ?_, rfl, rfl, rfl, rfl, ?_⟩⟩
  · intro a
    show demo_mem_edge a < 256
    unfold demo_mem_edge
    split
    · decide
    · split
      · decide
      · split
        · decide
        · split
          · decide
          · decide
  · intro a
    show demo_mem_words a < 256
    unfold demo_mem_words
    split
    · decide
    · split
      · decide
      · split
        · decide
        · decide
  · intro h
    have h0 := congrFun h 0
    revert h0
    decide
  · intro a
    show demo_mem_nibble a < 256
    unfold demo_mem_nibble
    split
    · decide
    · decide
  · intro h
    have h0 := congrFun h 3
    revert h0
    decide

/-- A run of C18: the page at 4096 is erased, then the source word 0x11223344 at
address 0 is stored at 4096. -/
theorem C18_erase_then_store_witness :
    ∃ s1 s2, fs_erase demo_store (some ()) 4096 1 demo_flash = .ok (0, s1) ∧
      fs_store demo_store (some ()) 4096 0 1 s1 = .ok (0, s2) ∧
      read32 s2.mem 4096 = 0x11223344 ∧
      (∀ i, i < 1 → read32 s2.mem (4096 + 4 * i)
        = read32 (fs_store_loop 4096 0 i s1.mem) (0 + 4 * i)) ∧
      ((read_before_written 4096 0 1 ∨ (4096 ≤ 0 ∧ 0 + 4 * 1 ≤ 4096 + 4096 * 1)) →
        ∀ i, i < 1 → read32 s2.mem (4096 + 4 * i) = read32 s1.mem (0 + 4 * i)) ∧
      (0 + 4 ≤ 4096 → 4096 < 0 + 4 * 1 → 0 < 4096 →
        ∃ t t1 t2 : State Nat Unit, bytes_ok t.mem ∧
          fs_erase demo_store (some ()) 4096 1 t = .ok (demo_store.FS_SUCCESS, t1) ∧
          fs_store demo_store (some ()) 4096 0 1 t1 = .ok (demo_store.FS_SUCCESS, t2) ∧
          ∃ i, i < 1 ∧ read32 t2.mem (4096 + 4 * i) ≠ read32 t1.mem (0 + 4 * i)) ∧
      (∀ i, i < 1 → (0 + 4 * i + 4 ≤ 4096 ∨ 4096 + 4096 * 1 ≤ 0 + 4 * i) →
        read32 s1.mem (0 + 4 * i) = read32 demo_flash.mem (0 + 4 * i)) ∧
      (buffers_disjoint 4096 0 1 →
        ∀ i, i < 1 → read32 s2.mem (0 + 4 * i) = read32 s1.mem (0 + 4 * i)) ∧
      ((store_repeatable 4096 0 1 ∨ (4096 ≤ 0 ∧ 0 + 4 * 1 ≤ 4096 + 4096 * 1)) →
        ∀ r3 s3, fs_store demo_store (some ()) 4096 0 1 s2 = .ok (r3, s3) →
          s3.mem = s2.mem) ∧
      (store_repeatable 4096 0 1 →
        ∀ (t t1 t2 : State Nat Unit) (ra rb : Nat), bytes_ok t.mem →
          fs_store demo_store (some ()) 4096 0 1 t = .ok (ra, t1) →
          fs_store demo_store (some ()) 4096 0 1 t1 = .ok (rb, t2) → t2.mem = t1.mem) ∧
      (¬ store_repeatable 4096 0 1 →
        ∃ t t1 t2 : State Nat Unit, bytes_ok t.mem ∧
          fs_store demo_store (some ()) 4096 0 1 t = .ok (demo_store.FS_SUCCESS, t1) ∧
          fs_store demo_store (some ()) 4096 0 1 t1 = .ok (demo_store.FS_SUCCESS, t2) ∧
          t2.mem ≠ t1.mem) :=
  ⟨_, _, rfl, rfl, rfl,
    C18_erase_then_store demo_store (some ()) (some ()) 4096 1 4096 0 1 demo_flash _ _ 0 0
      bytes_ok_demo_mem (by decide) rfl rfl⟩

/-! ### Stale completions -/

theorem latch_probe_empty (k : fds_evt_id_t) (s : State σ κ)
    (h : (s.last_evt k.toNat).id ≠ k.toNat) :
    latch_probe k s = { ret := 2, fds := s.fds, acts := [] } := by
  simp [latch_probe, await_fds_event, h]

/-- A probe issued with the latch empty: its answer 2 is what the call returns,
without a wait. -/
theorem issue_probe (E : Store σ κ) (fuel : Nat) (k : fds_evt_id_t) (c : Call)
    (s : State σ κ) (he : (s.last_evt k.toNat).id ≠ k.toNat) :
    (match extcall E c (latch_probe k s) s with
      | .error f => Except.error f
      | .ok (ret, s2) =>
        if ret ≠ 0 then Except.ok (ret, s2) else pump_and_wait E fuel k s2)
      = .ok (2, entered c (latch_probe k s) s) := by
  rw [extcall_eq, latch_probe_empty k s he]
  rfl

/-- An accepted primitive followed by the wait: the wait ends with the first
delivery that fills the latch. -/
theorem issue_wait_completes (E : Store σ κ) (fuel : Nat) (k : fds_evt_id_t) (c : Call)
    (r : Reply σ κ Nat) (s s2 : State σ κ) (hx : extcall E c r s = .ok (0, s2)) :
    completes E k fuel s2
      (match extcall E c r s with
        | .error f => Except.error f
        | .ok (ret, s2) =>
          if ret ≠ 0 then Except.ok (ret, s2) else pump_and_wait E fuel k s2) := by
  intro j t hp hprev hid hf
  rw [hx]
  exact pump_and_wait_loop_returns E k j s2 t fuel _ hp hprev hid hf

theorem before_first_pump (E : Store σ κ) (k : fds_evt_id_t) (s : State σ κ)
    (h : (s.last_evt k.toNat).id ≠ k.toNat) :
    ∀ i, i < 1 → ∀ ti, pump_times E i s = .ok ti → latch_empty k ti := by
  intro i hi ti hti
  have h0 : i = 0 := by omega
  subst h0
  simp only [pump_times, Except.ok.injEq] at hti
  subst hti
  exact (latch_empty_iff _ _).2 h


/-- C4. Stale completions are never returned.  For each of the six waiting calls,
whatever the latch held on entry:
(1) the primitive of the store is issued, and with the latch of the call's kind
empty: a probe put in its place, which answers 2 when `await_fds_event` reports
"not yet" at that moment and 1 otherwise, makes the call return 2; and
replacing the primitive by any function that agrees with it on the states where
that latch is empty changes nothing;
(2) when the primitive has accepted, the wait ends with the first delivery
that leaves the latch filled, and the call returns the code in the latch;
(3) when the primitive has accepted and the call returns, the code returned
is that of the last completion of the kind recorded after the primitive was
issued, hence after the clear.
In `api_fds_mount` the clear precedes `fds_register`, the first of the two
primitives issued: (1) holds of `fds_register`; `fds_init` is issued in the
state that `fds_register` left, in which the latch is empty or holds a
completion recorded after the clear, and is empty if `fds_register` made no
call back. -/
theorem C4_stale_completions_never_returned (E : Store σ κ) (fuel : Nat) (s : State σ κ)
    (record_id file_id record_key data image file_id0 key0 : Nat) (data_len_words : Int) :
    -- api_gc
    ((api_gc { E with fds_gc := latch_probe .FDS_EVT_GC } fuel s
        = .ok (2, entered Call.fds_gc (latch_probe .FDS_EVT_GC (clear_event .FDS_EVT_GC s))
            (clear_event .FDS_EVT_GC s))) ∧
      (∀ g, (∀ t, latch_empty .FDS_EVT_GC t → g t = E.fds_gc t) →
        api_gc { E with fds_gc := g } fuel s = api_gc E fuel s) ∧
      (∀ s2, extcall E Call.fds_gc (E.fds_gc (clear_event .FDS_EVT_GC s))
            (clear_event .FDS_EVT_GC s) = .ok (0, s2) →
        completes E .FDS_EVT_GC fuel s2 (api_gc E fuel s)) ∧
      ((E.fds_gc (clear_event .FDS_EVT_GC s)).ret = 0 →
        returns_fresh .FDS_EVT_GC (s.calls ++ [Call.fds_gc]) (api_gc E fuel s))) ∧
    -- api_del_record
    ((api_del_record { E with fds_record_delete := fun _ => latch_probe .FDS_EVT_DEL_RECORD }
          fuel record_id s
        = .ok (2, entered (Call.fds_record_delete { record_id := record_id, internal := 0 })
            (latch_probe .FDS_EVT_DEL_RECORD (clear_event .FDS_EVT_DEL_RECORD s))
            (clear_event .FDS_EVT_DEL_RECORD s))) ∧
      (∀ g, (∀ d t, latch_empty .FDS_EVT_DEL_RECORD t → g d t = E.fds_record_delete d t) →
        api_del_record { E with fds_record_delete := g } fuel record_id s
          = api_del_record E fuel record_id s) ∧
      (∀ s2, extcall E (Call.fds_record_delete { record_id := record_id, internal := 0 })
            (E.fds_record_delete { record_id := record_id, internal := 0 }
              (clear_event .FDS_EVT_DEL_RECORD s))
            (clear_event .FDS_EVT_DEL_RECORD s) = .ok (0, s2) →
        completes E .FDS_EVT_DEL_RECORD fuel s2 (api_del_record E fuel record_id s)) ∧
      ((E.fds_record_delete { record_id := record_id, internal := 0 }
          (clear_event .FDS_EVT_DEL_RECORD s)).ret = 0 →
        returns_fresh .FDS_EVT_DEL_RECORD
          (s.calls ++ [Call.fds_record_delete { record_id := record_id, internal := 0 }])
          (api_del_record E fuel record_id s))) ∧
    -- api_del_file
    ((api_del_file { E with fds_file_delete := fun _ => latch_probe .FDS_EVT_DEL_FILE }
          fuel file_id s
        = .ok (2, entered (Call.fds_file_delete file_id)
            (latch_probe .FDS_EVT_DEL_FILE (clear_event .FDS_EVT_DEL_FILE s))
            (clear_event .FDS_EVT_DEL_FILE s))) ∧
      (∀ g, (∀ f t, latch_empty .FDS_EVT_DEL_FILE t → g f t = E.fds_file_delete f t) →
        api_del_file { E with fds_file_delete := g } fuel file_id s
          = api_del_file E fuel file_id s) ∧
      (∀ s2, extcall E (Call.fds_file_delete file_id)
            (E.fds_file_delete file_id (clear_event .FDS_EVT_DEL_FILE s))
            (clear_event .FDS_EVT_DEL_FILE s) = .ok (0, s2) →
        completes E .FDS_EVT_DEL_FILE fuel s2 (api_del_file E fuel file_id s)) ∧
      ((E.fds_file_delete file_id (clear_event .FDS_EVT_DEL_FILE s)).ret = 0 →
        returns_fresh .FDS_EVT_DEL_FILE (s.calls ++ [Call.fds_file_delete file_id])
          (api_del_file E fuel file_id s))) ∧
    -- api_write_record
    (∀ record : fds_record_t,
      record = { file_id := file_id, key := record_key,
                 p_chunks := [{ p_data := data,
                                length_words := E.length_words_of_int data_len_words }],
                 num_chunks := 1 } →
      (api_write_record { E with fds_record_write := fun _ => latch_probe .FDS_EVT_WRITE }
          fuel record_key file_id data data_len_words s
        = .ok (2, entered (Call.fds_record_write record)
            (latch_probe .FDS_EVT_WRITE (clear_event .FDS_EVT_WRITE s))
            (clear_event .FDS_EVT_WRITE s))) ∧
      (∀ g, (∀ r t, latch_empty .FDS_EVT_WRITE t → g r t = E.fds_record_write r t) →
        api_write_record { E with fds_record_write := g } fuel record_key file_id data
            data_len_words s
          = api_write_record E fuel record_key file_id data data_len_words s) ∧
      (∀ s2, extcall E (Call.fds_record_write record)
            (E.fds_record_write record (clear_event .FDS_EVT_WRITE s))
            (clear_event .FDS_EVT_WRITE s) = .ok (0, s2) →
        completes E .FDS_EVT_WRITE fuel s2
          (api_write_record E fuel record_key file_id data data_len_words s)) ∧
      ((E.fds_record_write record (clear_event .FDS_EVT_WRITE s)).ret = 0 →
        returns_fresh .FDS_EVT_WRITE (s.calls ++ [Call.fds_record_write record])
          (api_write_record E fuel record_key file_id data data_len_words s))) ∧
    -- api_update_record
    ((∀ g, (∀ d r t, latch_empty .FDS_EVT_UPDATE t → g d r t = E.fds_record_update d r t) →
        api_update_record { E with fds_record_update := g } fuel record_id data
            data_len_words file_id0 key0 s
          = api_update_record E fuel record_id data data_len_words file_id0 key0 s) ∧
      (∀ (out : Slots) (s1 : State σ κ) (record : fds_record_t),
        api_get_record E record_id
          { file_id := some file_id0, record_key := some key0, record_len := none,
            data := none } s = .ok (0, out, s1) →
        record = { file_id := out.file_id.getD file_id0, key := out.record_key.getD key0,
                   p_chunks := [{ p_data := data,
                                  length_words := E.length_words_of_int data_len_words }],
                   num_chunks := 1 } →
        (api_update_record
            { E with fds_record_update := fun _ _ => latch_probe .FDS_EVT_UPDATE } fuel
            record_id data data_len_words file_id0 key0 s
          = .ok (2, entered
              (Call.fds_record_update { record_id := record_id, internal := 0 } record)
              (latch_probe .FDS_EVT_UPDATE (clear_event .FDS_EVT_UPDATE s1))
              (clear_event .FDS_EVT_UPDATE s1))) ∧
        (∀ s3, extcall E
              (Call.fds_record_update { record_id := record_id, internal := 0 } record)
              (E.fds_record_update { record_id := record_id, internal := 0 } record
                (clear_event .FDS_EVT_UPDATE s1))
              (clear_event .FDS_EVT_UPDATE s1) = .ok (0, s3) →
          completes E .FDS_EVT_UPDATE fuel s3
            (api_update_record E fuel record_id data data_len_words file_id0 key0 s)) ∧
        ((E.fds_record_update { record_id := record_id, internal := 0 } record
            (clear_event .FDS_EVT_UPDATE s1)).ret = 0 →
          returns_fresh .FDS_EVT_UPDATE
            (s1.calls
              ++ [Call.fds_record_update { record_id := record_id, internal := 0 } record])
            (api_update_record E fuel record_id data data_len_words file_id0 key0 s)))) ∧
    -- api_fds_mount
    ((is_word_aligned image = true →
        api_fds_mount { E with fds_register := latch_probe .FDS_EVT_INIT } fuel image s
          = .ok (2, entered Call.fds_register
              (latch_probe .FDS_EVT_INIT
                (clear_event .FDS_EVT_INIT { s with fs_config_p_start_addr := image }))
              (clear_event .FDS_EVT_INIT { s with fs_config_p_start_addr := image }))) ∧
      (∀ g, (∀ t, latch_empty .FDS_EVT_INIT t → g t = E.fds_register t) →
        api_fds_mount { E with fds_register := g } fuel image s
          = api_fds_mount E fuel image s) ∧
      (∀ g, (∀ t, latch_inv .FDS_EVT_INIT (s.calls ++ [Call.fds_register]) t →
            g t = E.fds_init t) →
        api_fds_mount { E with fds_init := g } fuel image s
          = api_fds_mount E fuel image s) ∧
      ((∀ t, (E.fds_register t).acts = []) →
        ∀ g, (∀ t, latch_empty .FDS_EVT_INIT t → g t = E.fds_init t) →
          api_fds_mount { E with fds_init := g } fuel image s
            = api_fds_mount E fuel image s) ∧
      (is_word_aligned image = true →
        ∀ s3 : State σ κ,
          extcall E Call.fds_register
            (E.fds_register (clear_event .FDS_EVT_INIT { s with fs_config_p_start_addr := image }))
            (clear_event .FDS_EVT_INIT { s with fs_config_p_start_addr := image })
            = .ok (0, s3) →
          latch_inv .FDS_EVT_INIT (s.calls ++ [Call.fds_register]) s3 ∧
          ((E.fds_register
              (clear_event .FDS_EVT_INIT { s with fs_config_p_start_addr := image })).acts = [] →
            latch_empty .FDS_EVT_INIT s3) ∧
          (latch_empty .FDS_EVT_INIT s3 →
            api_fds_mount { E with fds_init := latch_probe .FDS_EVT_INIT } fuel image s
              = .ok (2, entered Call.fds_init (latch_probe .FDS_EVT_INIT s3) s3)) ∧
          (∀ s4 : State σ κ,
            extcall E Call.fds_init (E.fds_init s3) s3 = .ok (0, s4) →
            completes E .FDS_EVT_INIT fuel s4 (api_fds_mount E fuel image s) ∧
            returns_fresh .FDS_EVT_INIT (s.calls ++ [Call.fds_register])
              (api_fds_mount E fuel image s)))) := by
  refine ⟨⟨?_, ?_, ?_, ?_⟩, ⟨?_, ?_, ?_, ?_⟩, ⟨?_, ?_, ?_, ?_⟩, ?_, ⟨?_, ?_⟩,
    ⟨?_, ?_, ?_, ?_, ?_⟩⟩
  -- api_gc
  · exact issue_probe { E with fds_gc := latch_probe .FDS_EVT_GC } fuel .FDS_EVT_GC
      Call.fds_gc (clear_event .FDS_EVT_GC s)
      (clear_event_empty .FDS_EVT_GC s)
  · intro g hg
    have h1 := hg _ ((latch_empty_iff _ _).2 (clear_event_empty .FDS_EVT_GC s))
    simp only [api_gc, h1, extcall_any E { E with fds_gc := g },
      pump_and_wait_any E { E with fds_gc := g } rfl]
  · intro s2 hx
    exact issue_wait_completes E fuel .FDS_EVT_GC Call.fds_gc _ (clear_event .FDS_EVT_GC s)
      s2 hx
  · intro hacc
    exact issue_wait_fresh E fuel .FDS_EVT_GC Call.fds_gc _ (clear_event .FDS_EVT_GC s)
      (clear_event_empty .FDS_EVT_GC s) hacc
  -- api_del_record
  · exact issue_probe { E with fds_record_delete := fun _ => latch_probe .FDS_EVT_DEL_RECORD }
      fuel .FDS_EVT_DEL_RECORD _ (clear_event .FDS_EVT_DEL_RECORD s)
      (clear_event_empty .FDS_EVT_DEL_RECORD s)
  · intro g hg
    have h1 := hg { record_id := record_id, internal := 0 } _
      ((latch_empty_iff _ _).2 (clear_event_empty .FDS_EVT_DEL_RECORD s))
    simp only [api_del_record, h1, extcall_any E { E with fds_record_delete := g },
      pump_and_wait_any E { E with fds_record_delete := g } rfl]
  · intro s2 hx
    exact issue_wait_completes E fuel .FDS_EVT_DEL_RECORD _ _
      (clear_event .FDS_EVT_DEL_RECORD s) s2 hx
  · intro hacc
    exact issue_wait_fresh E fuel .FDS_EVT_DEL_RECORD _ _ (clear_event .FDS_EVT_DEL_RECORD s)
      (clear_event_empty .FDS_EVT_DEL_RECORD s) hacc
  -- api_del_file
  · exact issue_probe { E with fds_file_delete := fun _ => latch_probe .FDS_EVT_DEL_FILE }
      fuel .FDS_EVT_DEL_FILE _ (clear_event .FDS_EVT_DEL_FILE s)
      (clear_event_empty .FDS_EVT_DEL_FILE s)
  · intro g hg
    have h1 := hg file_id _ ((latch_empty_iff _ _).2 (clear_event_empty .FDS_EVT_DEL_FILE s))
    simp only [api_del_file, h1, extcall_any E { E with fds_file_delete := g },
      pump_and_wait_any E { E with fds_file_delete := g } rfl]
  · intro s2 hx
    exact issue_wait_completes E fuel .FDS_EVT_DEL_FILE _ _
      (clear_event .FDS_EVT_DEL_FILE s) s2 hx
  · intro hacc
    exact issue_wait_fresh E fuel .FDS_EVT_DEL_FILE _ _ (clear_event .FDS_EVT_DEL_FILE s)
      (clear_event_empty .FDS_EVT_DEL_FILE s) hacc
  -- api_write_record
  · intro record hrec
    subst hrec
    refine ⟨?_, ?_, ?_, ?_⟩
    · exact issue_probe { E with fds_record_write := fun _ => latch_probe .FDS_EVT_WRITE }
        fuel .FDS_EVT_WRITE _ (clear_event .FDS_EVT_WRITE s)
        (clear_event_empty .FDS_EVT_WRITE s)
    · intro g hg
      have h1 := fun r => hg r _ ((latch_empty_iff _ _).2 (clear_event_empty .FDS_EVT_WRITE s))
      simp only [api_write_record, h1, extcall_any E { E with fds_record_write := g },
        pump_and_wait_any E { E with fds_record_write := g } rfl]
    · intro s2 hx
      exact issue_wait_completes E fuel .FDS_EVT_WRITE _ _
        (clear_event .FDS_EVT_WRITE s) s2 hx
    · intro hacc
      exact issue_wait_fresh E fuel .FDS_EVT_WRITE _ _ (clear_event .FDS_EVT_WRITE s)
        (clear_event_empty .FDS_EVT_WRITE s) hacc
  -- api_update_record
  · intro g hg
    have h1 := fun d r (t : State σ κ) =>
      hg d r _ ((latch_empty_iff _ _).2 (clear_event_empty .FDS_EVT_UPDATE t))
    simp only [api_update_record, h1, extcall_any E { E with fds_record_update := g },
      pump_and_wait_any E { E with fds_record_update := g } rfl,
      api_get_record_any E { E with fds_record_update := g } rfl rfl]
  · intro out s1 record hget hrec
    subst hrec
    refine ⟨?_, ?_, ?_⟩
    · have hp := issue_probe
        { E with fds_record_update := fun _ _ => latch_probe .FDS_EVT_UPDATE } fuel
        .FDS_EVT_UPDATE
        (Call.fds_record_update { record_id := record_id, internal := 0 }
          { file_id := out.file_id.getD file_id0, key := out.record_key.getD key0,
            p_chunks := [{ p_data := data,
                           length_words := E.length_words_of_int data_len_words }],
            num_chunks := 1 }) (clear_event .FDS_EVT_UPDATE s1)
        (clear_event_empty .FDS_EVT_UPDATE s1)
      simp only [api_update_record,
        api_get_record_any E
          { E with fds_record_update := fun _ _ => latch_probe .FDS_EVT_UPDATE } rfl rfl,
        hget]
      exact hp
    · intro s3 hx
      have hc := issue_wait_completes E fuel .FDS_EVT_UPDATE _ _
        (clear_event .FDS_EVT_UPDATE s1) s3 hx
      simp only [api_update_record, hget]
      exact hc
    · intro hacc
      have := issue_wait_fresh E fuel .FDS_EVT_UPDATE
        (Call.fds_record_update { record_id := record_id, internal := 0 }
          { file_id := out.file_id.getD file_id0, key := out.record_key.getD key0,
            p_chunks := [{ p_data := data,
                           length_words := E.length_words_of_int data_len_words }],
            num_chunks := 1 }) _ (clear_event .FDS_EVT_UPDATE s1)
        (clear_event_empty .FDS_EVT_UPDATE s1) hacc
      simp only [api_update_record, hget]
      exact this
  -- api_fds_mount
  · intro hal
    simp only [api_fds_mount, hal, Bool.not_true, Bool.false_eq_true, if_false, extcall_eq,
      latch_probe_empty _ _
        (clear_event_empty .FDS_EVT_INIT { s with fs_config_p_start_addr := image }),
      run_actions]
    rfl
  · intro g hg
    have h1 := fun (t : State σ κ) =>
      hg _ ((latch_empty_iff _ _).2 (clear_event_empty .FDS_EVT_INIT t))
    simp only [api_fds_mount, h1, extcall_any E { E with fds_register := g },
      pump_and_wait_any E { E with fds_register := g } rfl]
  · intro g hg
    by_cases hal : is_word_aligned image = true
    · cases hx : extcall E Call.fds_register
          (E.fds_register (clear_event .FDS_EVT_INIT { s with fs_config_p_start_addr := image }))
          (clear_event .FDS_EVT_INIT { s with fs_config_p_start_addr := image }) with
      | error f =>
        simp only [api_fds_mount, hal, Bool.not_true, Bool.false_eq_true, if_false,
          extcall_any E { E with fds_init := g }, hx]
      | ok p =>
        obtain ⟨ret, s3⟩ := p
        have hinv := latch_inv_extcall_fresh E .FDS_EVT_INIT Call.fds_register _ _ s3 ret
          (clear_event_empty .FDS_EVT_INIT { s with fs_config_p_start_addr := image }) hx
        have h1 := hg s3 hinv
        simp only [api_fds_mount, hal, Bool.not_true, Bool.false_eq_true, if_false,
          extcall_any E { E with fds_init := g },
          pump_and_wait_any E { E with fds_init := g } rfl, hx, h1]
    · simp only [api_fds_mount, hal, Bool.not_false, if_true]
  · intro hreg g hg
    have h1 : ∀ (c : Call) (t : State σ κ),
        g (entered c (E.fds_register (clear_event .FDS_EVT_INIT t))
            (clear_event .FDS_EVT_INIT t))
          = E.fds_init (entered c (E.fds_register (clear_event .FDS_EVT_INIT t))
            (clear_event .FDS_EVT_INIT t)) := fun c t =>
      hg _ ((latch_empty_iff _ _).2 (clear_event_empty .FDS_EVT_INIT t))
    simp only [api_fds_mount, extcall_any E { E with fds_init := g },
      pump_and_wait_any E { E with fds_init := g } rfl, extcall_eq, hreg, run_actions, h1]
  · intro hal s3 hx3
    have hinv3 := latch_inv_extcall_fresh E .FDS_EVT_INIT Call.fds_register _ _ s3 0
      (clear_event_empty .FDS_EVT_INIT { s with fs_config_p_start_addr := image }) hx3
    refine ⟨hinv3, ?_, ?_, ?_⟩
    · intro hsil
      rw [extcall_eq, hsil] at hx3
      simp only [run_actions, Except.ok.injEq, Prod.mk.injEq] at hx3
      rw [← hx3.2]
      exact (latch_empty_iff _ _).2
        (clear_event_empty .FDS_EVT_INIT { s with fs_config_p_start_addr := image })
    · intro hemp
      have hp := issue_probe { E with fds_init := latch_probe .FDS_EVT_INIT } fuel
        .FDS_EVT_INIT Call.fds_init s3 ((latch_empty_iff _ _).1 hemp)
      have hx3a : extcall { E with fds_init := latch_probe .FDS_EVT_INIT } Call.fds_register
          (E.fds_register (clear_event .FDS_EVT_INIT { s with fs_config_p_start_addr := image }))
          (clear_event .FDS_EVT_INIT { s with fs_config_p_start_addr := image })
          = .ok (0, s3) := by
        rw [extcall_any E]
        exact hx3
      simp only [api_fds_mount, hal, Bool.not_true, Bool.false_eq_true, if_false, hx3a,
        ne_eq, not_true_eq_false]
      exact hp
    · intro s4 hx4
      have hinv4 := latch_inv_extcall E .FDS_EVT_INIT _ Call.fds_init _ s3 s4 0 hinv3 rfl hx4
      constructor
      · intro j t hp hprev hid hf
        simp only [api_fds_mount, hal, Bool.not_true, Bool.false_eq_true, if_false, hx3, hx4,
          ne_eq, not_true_eq_false]
        exact pump_and_wait_loop_returns E .FDS_EVT_INIT j s4 t fuel _ hp hprev hid hf
      · intro v s1 h
        simp only [api_fds_mount, hal, Bool.not_true, Bool.false_eq_true, if_false, hx3, hx4,
          ne_eq, not_true_eq_false] at h
        exact latch_inv_wait E .FDS_EVT_INIT _ fuel _ s4 hinv4 v s1 h


/-- Runs of C4, one for each of the six calls, from a state whose six latches all
hold the stale code 9 of an earlier call: the store accepts, the first delivery
fills the latch, and the call returns 0, the code of the completion recorded
after the issue. -/
theorem C4_stale_completions_never_returned_witness :
    (await_fds_event .FDS_EVT_GC 0 demo_all_stale = (true, 9) ∧
      api_gc demo_store 3 demo_all_stale
        = .ok (0, state_of (pump_event demo_store demo_gc_issued) demo_all_stale) ∧
      ∃ rest, (state_of (pump_event demo_store demo_gc_issued) demo_all_stale).calls
          = (demo_all_stale.calls ++ [Call.fds_gc]) ++ rest ∧
        last_recorded fds_evt_id_t.FDS_EVT_GC.toNat rest = some 0) ∧
    (await_fds_event .FDS_EVT_DEL_RECORD 0 demo_all_stale = (true, 9) ∧
      api_del_record demo_store 3 1 demo_all_stale
        = .ok (0, state_of (pump_event demo_store demo_del_record_issued) demo_all_stale) ∧
      ∃ rest, (state_of (pump_event demo_store demo_del_record_issued) demo_all_stale).calls
          = (demo_all_stale.calls
              ++ [Call.fds_record_delete { record_id := 1, internal := 0 }]) ++ rest ∧
        last_recorded fds_evt_id_t.FDS_EVT_DEL_RECORD.toNat rest = some 0) ∧
    (await_fds_event .FDS_EVT_DEL_FILE 0 demo_all_stale = (true, 9) ∧
      api_del_file demo_store 3 7 demo_all_stale
        = .ok (0, state_of (pump_event demo_store demo_del_file_issued) demo_all_stale) ∧
      ∃ rest, (state_of (pump_event demo_store demo_del_file_issued) demo_all_stale).calls
          = (demo_all_stale.calls ++ [Call.fds_file_delete 7]) ++ rest ∧
        last_recorded fds_evt_id_t.FDS_EVT_DEL_FILE.toNat rest = some 0) ∧
    (await_fds_event .FDS_EVT_WRITE 0 demo_all_stale = (true, 9) ∧
      api_write_record demo_store 3 1 7 8192 2 demo_all_stale
        = .ok (0, state_of (pump_event demo_store demo_write_issued) demo_all_stale) ∧
      ∃ rest, (state_of (pump_event demo_store demo_write_issued) demo_all_stale).calls
          = (demo_all_stale.calls ++ [Call.fds_record_write demo_record]) ++ rest ∧
        last_recorded fds_evt_id_t.FDS_EVT_WRITE.toNat rest = some 0) ∧
    (await_fds_event .FDS_EVT_UPDATE 0 demo_all_stale = (true, 9) ∧
      api_update_record demo_store 3 1 8192 2 0 0 demo_all_stale
        = .ok (0, state_of (pump_event demo_store demo_update_issued) demo_all_stale) ∧
      ∃ rest, (state_of (pump_event demo_store demo_update_issued) demo_all_stale).calls
          = (demo_stale_read.calls
              ++ [Call.fds_record_update { record_id := 1, internal := 0 }
                    demo_record_update]) ++ rest ∧
        last_recorded fds_evt_id_t.FDS_EVT_UPDATE.toNat rest = some 0) ∧
    (await_fds_event .FDS_EVT_INIT 0 demo_all_stale = (true, 9) ∧
      api_fds_mount demo_store 3 4096 demo_all_stale
        = .ok (0, state_of (pump_event demo_store demo_init_issued) demo_all_stale) ∧
      ∃ rest, (state_of (pump_event demo_store demo_init_issued) demo_all_stale).calls
          = (demo_all_stale.calls ++ [Call.fds_register]) ++ rest ∧
        last_recorded fds_evt_id_t.FDS_EVT_INIT.toNat rest = some 0) :=
  ⟨⟨rfl,
      (C4_stale_completions_never_returned demo_store 3 demo_all_stale 1 7 1 8192 4096 0 0
        2).1.2.2.1 demo_gc_issued rfl 1 _ rfl
        (before_first_pump demo_store .FDS_EVT_GC demo_gc_issued (by decide)) rfl (by decide),
      (C4_stale_completions_never_returned demo_store 3 demo_all_stale 1 7 1 8192 4096 0 0
        2).1.2.2.2 rfl 0 _ rfl⟩,
    ⟨rfl,
      (C4_stale_completions_never_returned demo_store 3 demo_all_stale 1 7 1 8192 4096 0 0
        2).2.1.2.2.1 demo_del_record_issued rfl 1 _ rfl
        (before_first_pump demo_store .FDS_EVT_DEL_RECORD demo_del_record_issued (by decide))
        rfl (by decide),
      (C4_stale_completions_never_returned demo_store 3 demo_all_stale 1 7 1 8192 4096 0 0
        2).2.1.2.2.2 rfl 0 _ rfl⟩,
    ⟨rfl,
      (C4_stale_completions_never_returned demo_store 3 demo_all_stale 1 7 1 8192 4096 0 0
        2).2.2.1.2.2.1 demo_del_file_issued rfl 1 _ rfl
        (before_first_pump demo_store .FDS_EVT_DEL_FILE demo_del_file_issued (by decide))
        rfl (by decide),
      (C4_stale_completions_never_returned demo_store 3 demo_all_stale 1 7 1 8192 4096 0 0
        2).2.2.1.2.2.2 rfl 0 _ rfl⟩,
    ⟨rfl,
      ((C4_stale_completions_never_returned demo_store 3 demo_all_stale 1 7 1 8192 4096 0 0
        2).2.2.2.1 demo_record rfl).2.2.1 demo_write_issued rfl 1 _ rfl
        (before_first_pump demo_store .FDS_EVT_WRITE demo_write_issued (by decide))
        rfl (by decide),
      ((C4_stale_completions_never_returned demo_store 3 demo_all_stale 1 7 1 8192 4096 0 0
        2).2.2.2.1 demo_record rfl).2.2.2 rfl 0 _ rfl⟩,
    ⟨rfl,
      ((C4_stale_completions_never_returned demo_store 3 demo_all_stale 1 7 1 8192 4096 0 0
        2).2.2.2.2.1.2
          { file_id := some 10, record_key := some 1, record_len := none, data := none }
          demo_stale_read demo_record_update rfl rfl).2.1 demo_update_issued rfl 1 _ rfl
        (before_first_pump demo_store .FDS_EVT_UPDATE demo_update_issued (by decide))
        rfl (by decide),
      ((C4_stale_completions_never_returned demo_store 3 demo_all_stale 1 7 1 8192 4096 0 0
        2).2.2.2.2.1.2
          { file_id := some 10, record_key := some 1, record_len := none, data := none }
          demo_stale_read demo_record_update rfl rfl).2.2 rfl 0 _ rfl⟩,
    ⟨rfl,
      (((C4_stale_completions_never_returned demo_store 3 demo_all_stale 1 7 1 8192 4096 0 0
        2).2.2.2.2.2.2.2.2.2 rfl demo_registered rfl).2.2.2 demo_init_issued rfl).1 1 _ rfl
        (before_first_pump demo_store .FDS_EVT_INIT demo_init_issued (by decide))
        rfl (by decide),
      (((C4_stale_completions_never_returned demo_store 3 demo_all_stale 1 7 1 8192 4096 0 0
        2).2.2.2.2.2.2.2.2.2 rfl demo_registered rfl).2.2.2 demo_init_issued rfl).2 0 _ rfl⟩⟩


end PythonFds
